import Mathlib

/-!
Verification of the columnar-to-SparkRow serializer in
`cpp-ch/local-engine/Parser/CHColumnToSparkRow.cpp`.

The development shallowly embeds the translation unit: machine integers
(`int64_t`, `size_t`) become `Int`/`Nat` (with two's-complement bit patterns made
explicit where the code relies on them), raw memory becomes a `List Nat` of
bytes, `DB::Field` becomes an inductive value type, and every throwing code path
returns `Except CError _`.  Definitions keep the source names and the source's
control flow; deviations forced by the embedding are noted next to the
definition they concern.
-/

namespace SparkRow

/-- The error kinds thrown by the translation unit.  `emptySchema` is the
`DB::ErrorCodes::LOGICAL_ERROR` exception thrown by `convertCHColumnToSparkRow`
for a block without columns; `unknownType` is `DB::ErrorCodes::UNKNOWN_TYPE`
(thrown by the writer/calculator constructors and dispatchers); `typeMismatch`
is the exception `DB::Field::safeGet` raises when the stored alternative does
not match the requested one. -/
inductive CError where
  | emptySchema
  | unknownType
  | typeMismatch
deriving DecidableEq

/-- `int64_t calculateBitSetWidthInBytes(int64_t num_fields)`, source line 47:
`((num_fields + 63) / 64) * 8`.  Every call site passes a nonnegative count, on
which C++ truncating division and Lean's `Int` division agree. -/
def calculateBitSetWidthInBytes (num_fields : Int) : Int :=
  ((num_fields + 63) / 64) * 8

/-- `calculatedFixeSizePerRow`, source line 52 (sic). -/
def calculatedFixeSizePerRow (num_cols : Int) : Int :=
  calculateBitSetWidthInBytes num_cols + num_cols * 8

/-- `roundNumberOfBytesToNearestWord`, source line 57.  On a two's-complement
`int64_t`, `x & 0x07` equals `x % 8` (Euclidean remainder) for every `x`, and
`(8 - remainder) & 0x7` equals `(8 - remainder) % 8`. -/
def roundNumberOfBytesToNearestWord (num_bytes : Int) : Int :=
  let remainder := num_bytes % 8
  num_bytes + (8 - remainder) % 8

/-! ### Raw memory -/

/-- Little-endian bytes of the low `w` bytes of an unsigned value
(a `memcpy` out of an integer). -/
def encodeLE (n : Nat) : (w : Nat) → List Nat
  | 0 => []
  | w + 1 => n % 256 :: encodeLE (n / 256) w

/-- `memcpy` of the two's-complement representation of an `int64_t`-like value:
the low `w` bytes of `v mod 2^(8w)`, little-endian. -/
def encodeILE (v : Int) (w : Nat) : List Nat :=
  encodeLE (v % ((2 : Int) ^ (8 * w))).toNat w

/-- Little-endian read of a byte list as an unsigned integer. -/
def decodeLE : List Nat → Nat
  | [] => 0
  | b :: bs => b + 256 * decodeLE bs

/-- In-place `memcpy(buf + pos, bytes, bytes.length)` on a byte list.  Writing
past the end of the buffer drops the excess bytes (such writes are out of
bounds in the C++ as well and never occur on the paths the theorems cover). -/
def patchBytes : List Nat → Nat → List Nat → List Nat
  | [], _, _ => []
  | buf, _, [] => buf
  | _ :: rest, 0, w :: ws => w :: patchBytes rest 0 ws
  | b :: rest, pos + 1, ws => b :: patchBytes rest pos ws

/-- `void bitSet(char * bitmap, size_t index)`, source lines 64-72.  The bitmap
lives inside `buf` starting at byte `base` (call sites pass pointers
`buffer_address + offset + ...`).  The source reads the containing 64-bit word
with `memcpy`, ORs in `1L << (index & 0x3f)` (whose int64 bit pattern is
`2 ^ (index % 64)`), and writes the word back. -/
def bitSet (buf : List Nat) (base : Nat) (index : Nat) : List Nat :=
  let mask : Nat := 2 ^ (index % 64)
  let word_offset : Nat := (index >>> 6) * 8
  let word := decodeLE ((buf.drop (base + word_offset)).take 8)
  let value := word ||| mask
  patchBytes buf (base + word_offset) (encodeLE value 8)

/-- `bool isBitSet(const char * bitmap, size_t index)`, source lines 74-81. -/
def isBitSet (buf : List Nat) (base : Nat) (index : Nat) : Bool :=
  let mask : Nat := 2 ^ (index % 64)
  let word_offset : Nat := (index >>> 6) * 8
  let word := decodeLE ((buf.drop (base + word_offset)).take 8)
  word &&& mask != 0

/-! ### int64 packing (`getOffsetAndSize` and friends) -/

/-- Bit pattern, as a `Nat < 2^64`, of an `int64_t` value. -/
def toU64 (x : Int) : Nat := (x % (2 : Int) ^ 64).toNat

/-- The `int64_t` value denoted by a 64-bit pattern. -/
def ofU64 (n : Nat) : Int := if n < 2 ^ 63 then (n : Int) else (n : Int) - 2 ^ 64

/-- `int64_t BackingDataLengthCalculator::getOffsetAndSize(int64_t cursor,
int64_t size)`, source lines 836-839: `(cursor << 32) | size` with int64 bit
semantics.  Note the source does **not** mask `size` to its low 32 bits. -/
def getOffsetAndSize (cursor size : Int) : Int :=
  ofU64 ((toU64 cursor <<< 32) % 2 ^ 64 ||| toU64 size)

/-- `extractOffset`, source lines 841-844: arithmetic shift right by 32, which
on int64 values is exactly floor division by `2^32` (Lean's `Int` division). -/
def extractOffset (offset_and_size : Int) : Int :=
  offset_and_size / 2 ^ 32

/-- `extractSize`, source lines 846-849: `offset_and_size & 0xffffffff`; the
mask is nonnegative, so the result is the low 32 bits of the bit pattern. -/
def extractSize (offset_and_size : Int) : Int :=
  ((toU64 offset_and_size &&& 0xffffffff : Nat) : Int)

/-! ### The type system as `WhichDataType` classifies it -/

/-- The DataTypes this translation unit distinguishes (via `WhichDataType`).
`unsupported` stands for every type the classification rejects (neither
fixed-length nor variable-length, e.g. IPv6 or AggregateFunction). -/
inductive SparkDataType where
  | uint8 | int8 | uint16 | int16 | date
  | uint32 | int32 | float32 | date32 | decimal32
  | uint64 | int64 | float64 | datetime64 | decimal64
  | nothing
  | string | fixedString | decimal128
  | array (nested : SparkDataType)
  | map (key value : SparkDataType)
  | tuple (elems : List SparkDataType)
  | nullable (inner : SparkDataType)
  | unsupported

/-- `DB::removeNullable` (strips one Nullable wrapper). -/
def removeNullable : SparkDataType → SparkDataType
  | .nullable inner => inner
  | t => t

/-- `BackingDataLengthCalculator::isFixedLengthDataType`, source lines 590-596.
Call sites always pass a type already stripped of Nullable. -/
def isFixedLengthDataType : SparkDataType → Bool
  | .uint8 | .int8 | .uint16 | .int16 | .date | .uint32 | .int32 | .float32
  | .date32 | .decimal32 | .uint64 | .int64 | .float64 | .datetime64
  | .decimal64 | .nothing => true
  | _ => false

/-- `BackingDataLengthCalculator::isVariableLengthDataType`, source lines 598-602. -/
def isVariableLengthDataType : SparkDataType → Bool
  | .string | .fixedString | .decimal128 | .array _ | .map _ _ | .tuple _ => true
  | _ => false

/-- `BackingDataLengthCalculator::isDataTypeSupportRawData`, source lines 604-608. -/
def isDataTypeSupportRawData (t : SparkDataType) : Bool :=
  isFixedLengthDataType t ||
    (match t with
     | .string | .fixedString | .decimal128 => true
     | _ => false)

/-- `BackingDataLengthCalculator::isBigEndianInSparkRow`, source lines 610-614. -/
def isBigEndianInSparkRow : SparkDataType → Bool
  | .decimal128 => true
  | _ => false

/-- `WhichDataType::isDecimal32`, used by the fixed-length write dispatch. -/
def isDecimal32 : SparkDataType → Bool
  | .decimal32 => true
  | _ => false

/-- `BackingDataLengthCalculator::getArrayElementSize`, source lines 573-588
(the source strips Nullable from the element type first). -/
def getArrayElementSize (nested_type : SparkDataType) : Int :=
  match removeNullable nested_type with
  | .uint8 | .int8 => 1
  | .uint16 | .int16 | .date => 2
  | .uint32 | .int32 | .float32 | .date32 => 4
  | .uint64 | .int64 | .float64 | .datetime64 | .decimal32 | .decimal64 => 8
  | _ => 8

/-- The constructor check shared by `BackingDataLengthCalculator` (lines
477-483): the type, stripped of Nullable, must be fixed- or variable-length. -/
def calculatorCtorOk (t : SparkDataType) : Bool :=
  isFixedLengthDataType (removeNullable t) || isVariableLengthDataType (removeNullable t)

/-! ### Values (`DB::Field`) -/

/-- `DB::Field` as far as this translation unit inspects it.
* `.int v` carries every fixed-width scalar (for Float32/Float64 the value is
  the 32/64-bit pattern; the code only ever `memcpy`s these bytes);
* `.str` is a String/FixedString payload;
* `.dec128` is a 128-bit decimal value;
* `.map` is a `DB::Map` (an array of (key, value) tuples) represented by its
  parallel key and value arrays, which are the only projections the source
  takes of it (`pair[0]` / `pair[1]`, lines 532-537 and 717-726). -/
inductive Field where
  | null
  | int (v : Int)
  | str (bytes : List Nat)
  | dec128 (v : Int)
  | arr (elems : List Field)
  | map (keys values : List Field)
  | tup (elems : List Field)

/-- `Field::isNull`. -/
def Field.isNull : Field → Bool
  | .null => true
  | _ => false

/-- `IDataType::getSizeOfValueInMemory` for the fixed-length scalars. -/
def getSizeOfValueInMemory : SparkDataType → Nat
  | .uint8 | .int8 => 1
  | .uint16 | .int16 | .date => 2
  | .uint32 | .int32 | .float32 | .date32 | .decimal32 => 4
  | .uint64 | .int64 | .float64 | .datetime64 | .decimal64 => 8
  | _ => 0

/-- `IColumn::getDataAt`: the raw little-endian bytes backing a value, defined
for the raw-data-supporting types (fixed scalars, String/FixedString,
Decimal128).  The function is total; combinations that cannot occur in a
well-formed column answer `[]`. -/
def getDataAt (t : SparkDataType) (f : Field) : List Nat :=
  match removeNullable t, f with
  | tw, .int v => encodeILE v (getSizeOfValueInMemory tw)
  | _, .str bytes => bytes
  | _, .dec128 v => encodeILE v 16
  | _, _ => []

/-- `BackingDataLengthCalculator::swapDecimalEndianBytes`, source lines 616-628:
byte-swap each 64-bit half of the 16-byte buffer, then swap the halves; on a
16-byte buffer this reverses all 16 bytes. -/
def swapDecimalEndianBytes (buf : List Nat) : List Nat :=
  (buf.drop 8).reverse ++ (buf.take 8).reverse

/-! ### Typing (auxiliary, not from the source) -/

mutual
/-- Auxiliary: a size measure on Fields, used only to drive strong-induction
proofs about the recursive calculator and writer. -/
def Field.sz : Field → Nat
  | .null => 1
  | .int _ => 1
  | .str _ => 1
  | .dec128 _ => 1
  | .arr elems => 1 + Field.szList elems
  | .map keys vals => 1 + Field.szList keys + Field.szList vals
  | .tup elems => 1 + Field.szList elems

def Field.szList : List Field → Nat
  | [] => 0
  | f :: fs => 1 + Field.sz f + Field.szList fs
end

mutual
/-- Auxiliary: the `Field` shapes a column of the given type can produce (the
type is stripped of one Nullable wrapper first, since nullability lives in the
column's null map).  Null may appear at any type. -/
def hasType : Field → SparkDataType → Bool
  | .null, _ => true
  | .int _, t =>
    match removeNullable t with
    | .uint8 | .int8 | .uint16 | .int16 | .date | .uint32 | .int32 | .float32
    | .date32 | .decimal32 | .uint64 | .int64 | .float64 | .datetime64
    | .decimal64 => true
    | _ => false
  | .str _, t =>
    match removeNullable t with
    | .string | .fixedString => true
    | _ => false
  | .dec128 _, t =>
    match removeNullable t with
    | .decimal128 => true
    | _ => false
  | .arr elems, t =>
    match removeNullable t with
    | .array nested => hasTypeList elems nested
    | _ => false
  | .map keys vals, t =>
    match removeNullable t with
    | .map kt vt => keys.length == vals.length && hasTypeList keys kt && hasTypeList vals vt
    | _ => false
  | .tup fields, t =>
    match removeNullable t with
    | .tuple ts => fields.length == ts.length && hasTypeTup fields ts
    | _ => false

def hasTypeList : List Field → SparkDataType → Bool
  | [], _ => true
  | f :: fs, t => hasType f t && hasTypeList fs t

def hasTypeTup : List Field → List SparkDataType → Bool
  | [], _ => true
  | _ :: _, [] => false
  | f :: fs, t :: ts => hasType f t && hasTypeTup fs ts
end

mutual
/-- Auxiliary: every type reachable from `t` (stripping one Nullable wrapper at
each level, as the serializer does) is classified fixed- or variable-length. -/
def supportedType : SparkDataType → Bool
  | .nullable inner => supportedTypeNotNull inner
  | .unsupported => false
  | .array nested => supportedType nested
  | .map kt vt => supportedType kt && supportedType vt
  | .tuple ts => supportedTypeList ts
  | _ => true

/-- `supportedType` after the single Nullable strip (`Nullable(Nullable _)` is
rejected, as the classification rejects a Nullable it sees directly). -/
def supportedTypeNotNull : SparkDataType → Bool
  | .nullable _ => false
  | .unsupported => false
  | .array nested => supportedType nested
  | .map kt vt => supportedType kt && supportedType vt
  | .tuple ts => supportedTypeList ts
  | _ => true

def supportedTypeList : List SparkDataType → Bool
  | [] => true
  | t :: ts => supportedType t && supportedTypeList ts
end

/-! ### BackingDataLengthCalculator::calculate (source lines 477-571)

The source constructs a calculator (whose constructor checks the type) and
calls `calculate` on it; the embedding folds the constructor check into the
head of `calculate`.  The Array/Map recursion is by structural recursion on
the `Field`: where the source builds a synthetic `Array` Field for a Map's
keys/values and re-dispatches `calculate` on it (which lands in the Array
branch), the embedding calls the Array-branch code directly on the key/value
lists. -/

/-- The length contribution of the Array branch that does not depend on the
element values: `8 + null-bitmap + rounded values region` (lines 508-512). -/
def arrayHeaderLength (nested_type : SparkDataType) (num_elems : Int) : Int :=
  8 + calculateBitSetWidthInBytes num_elems +
    roundNumberOfBytesToNearestWord (getArrayElementSize nested_type * num_elems)

/-- Tuple fields the source would read out of range (`tuple[i]` with
`i ≥ tuple.size()`, undefined behaviour in C++) are modelled as Null reads:
each remaining field type still has its calculator constructed (the check),
and a Null contributes 0. -/
def calculateTuplePad : List SparkDataType → Except CError Int
  | [] => .ok 0
  | t :: ts =>
    if calculatorCtorOk t then calculateTuplePad ts else .error .unknownType

mutual
/-- The worker behind `calculate`, operating on `type_without_nullable` (the
constructor stores the stripped type, line 478, and `calculate` dispatches on
it): the number of bytes the value will occupy in the row's backing-data
region (excluding the fixed per-row header), lines 485-571.  The constructor
check (lines 480-482) runs first. -/
def calculateW (tw : SparkDataType) (field : Field) : Except CError Int :=
  if ¬(isFixedLengthDataType tw || isVariableLengthDataType tw) then .error .unknownType
  else if field.isNull then .ok 0
  else
    match tw, field with
    -- which.isNativeInt/NativeUInt/Float/DateOrDate32/DateTime64/Decimal32/Decimal64 (line 490)
    | .uint8, _ | .int8, _ | .uint16, _ | .int16, _ | .date, _ | .uint32, _
    | .int32, _ | .float32, _ | .date32, _ | .decimal32, _ | .uint64, _
    | .int64, _ | .float64, _ | .datetime64, _ | .decimal64, _ => .ok 0
    | .string, f | .fixedString, f =>
      match f with
      | .str bytes => .ok (roundNumberOfBytesToNearestWord bytes.length)
      | _ => .error .typeMismatch
    | .decimal128, f =>
      match f with
      | .dec128 _ => .ok 16
      | _ => .error .typeMismatch
    | .array nested_type, f =>
      match f with
      | .arr array =>
        -- lines 503-518; the nested calculator is constructed before the
        -- element loop, even for an empty array
        if ¬calculatorCtorOk nested_type then .error .unknownType
        else
          match calculateList nested_type array with
          | .error e => .error e
          | .ok s => .ok (arrayHeaderLength nested_type array.length + s)
      | _ => .error .typeMismatch
    | .map key_type val_type, f =>
      match f with
      | .map array_key array_val =>
        -- lines 520-550: res = 8 + calculate(Array(key_type), keys)
        --                       + calculate(Array(val_type), vals);
        -- an Array type always passes the calculator constructor check, and
        -- calculate on an Array Field is the Array branch, inlined here
        if ¬calculatorCtorOk key_type then .error .unknownType
        else
          match calculateList key_type array_key with
          | .error e => .error e
          | .ok s_key =>
            if ¬calculatorCtorOk val_type then .error .unknownType
            else
              match calculateList val_type array_val with
              | .error e => .error e
              | .ok s_val =>
                .ok (8 + (arrayHeaderLength key_type array_key.length + s_key)
                       + (arrayHeaderLength val_type array_val.length + s_val))
      | _ => .error .typeMismatch
    | .tuple type_fields, f =>
      match f with
      | .tup tuple =>
        -- lines 553-567: iterate over the *type's* field list
        match calculateTupleFields type_fields tuple with
        | .error e => .error e
        | .ok s =>
          .ok (calculateBitSetWidthInBytes type_fields.length + 8 * type_fields.length + s)
      | _ => .error .typeMismatch
    -- a non-null Field of type Nothing reaches the final throw (line 569)
    | _, _ => .error .unknownType

/-- The element loop of the Array branch (lines 514-516). -/
def calculateList (nested_type : SparkDataType) : List Field → Except CError Int
  | [] => .ok 0
  | f :: fs =>
    match calculateW (removeNullable nested_type) f with
    | .error e => .error e
    | .ok n =>
      match calculateList nested_type fs with
      | .error e => .error e
      | .ok s => .ok (n + s)

/-- The field loop of the Tuple branch (lines 561-565): one calculator per
field type, applied to the positional tuple member. -/
def calculateTupleFields : List SparkDataType → List Field → Except CError Int
  | ts, [] => calculateTuplePad ts
  | [], _ :: _ => .ok 0
  | t :: ts, f :: fs =>
    match calculateW (removeNullable t) f with
    | .error e => .error e
    | .ok n =>
      match calculateTupleFields ts fs with
      | .error e => .error e
      | .ok s => .ok (n + s)
end

/-- `BackingDataLengthCalculator(type_).calculate(field)`: the constructor
strips one Nullable wrapper (line 478) and the methods dispatch on the result. -/
def calculate (type_ : SparkDataType) (field : Field) : Except CError Int :=
  calculateW (removeNullable type_) field

/-! ### FixedLengthDataWriter (source lines 860-947) -/

/-- The worker behind `FixedLengthDataWriter::write`, on the stripped type:
the bytes `memcpy`'d into the row slot (lines 867-937), with the constructor's
fixed-length check (lines 860-865) first.  A Null field writes nothing (line
870).  The Decimal32 value is cast to `Int64` (sign extension) and written as
8 bytes (lines 923-928); all other scalars are written at their natural
width. -/
def FixedLengthDataWriter.writeW (tw : SparkDataType) (field : Field) :
    Except CError (List Nat) :=
  if ¬isFixedLengthDataType tw then .error .unknownType
  else if field.isNull then .ok []
  else
    match tw, field with
    | .uint8, .int v | .int8, .int v => .ok (encodeILE v 1)
    | .uint16, .int v | .int16, .int v | .date, .int v => .ok (encodeILE v 2)
    | .uint32, .int v | .int32, .int v | .float32, .int v | .date32, .int v =>
      .ok (encodeILE v 4)
    | .uint64, .int v | .int64, .int v | .float64, .int v => .ok (encodeILE v 8)
    | .decimal32, .int v => .ok (encodeILE v 8)
    | .decimal64, .int v | .datetime64, .int v => .ok (encodeILE v 8)
    | .nothing, _ => .error .unknownType
    | _, _ => .error .typeMismatch

/-- `FixedLengthDataWriter(type_).write(field, buffer)`: the constructor strips
one Nullable wrapper (line 861) and `write` dispatches on the result. -/
def FixedLengthDataWriter.write (type_ : SparkDataType) (field : Field) :
    Except CError (List Nat) :=
  FixedLengthDataWriter.writeW (removeNullable type_) field

/-! ### VariableLengthDataWriter (source lines 630-857) -/

/-- The mutable context of the Phase-2 writers: the byte buffer behind
`buffer_address` and the per-row `buffer_cursor` vector.  The read-only
`offsets` vector is passed separately. -/
structure WState where
  buf : List Nat
  cursors : List Int
deriving DecidableEq

/-- `VariableLengthDataWriter::writeUnalignedBytes(row_idx, src, size,
parent_offset)`, source lines 851-857. -/
def writeUnalignedBytes (offsets : List Int) (row_idx : Nat) (src : List Nat)
    (parent_offset : Int) (st : WState) : Int × WState :=
  let cursor := st.cursors.getD row_idx 0
  let buf := patchBytes st.buf (offsets.getD row_idx 0 + cursor).toNat src
  let res := getOffsetAndSize (cursor - parent_offset) src.length
  (res, ⟨buf, st.cursors.set row_idx (cursor + roundNumberOfBytesToNearestWord src.length)⟩)

/-- The fixed-element loop of `writeArray` (lines 670-682): Null elements set a
bit in the element null bitmap at `offset + start + 8`; the others are written
by a `FixedLengthDataWriter` at their natural-width slot in the values region.
Only the buffer changes; cursors are untouched. -/
def writeElemsFixed (nested_type : SparkDataType) (offset start len_null_bitmap elem_size : Int) :
    List Field → Nat → List Nat → Except CError (List Nat)
  | [], _, buf => .ok buf
  | elem :: rest, i, buf =>
    if elem.isNull then
      writeElemsFixed nested_type offset start len_null_bitmap elem_size rest (i + 1)
        (bitSet buf (offset + start + 8).toNat i)
    else
      match FixedLengthDataWriter.write nested_type elem with
      | .error e => .error e
      | .ok bytes =>
        writeElemsFixed nested_type offset start len_null_bitmap elem_size rest (i + 1)
          (patchBytes buf (offset + start + 8 + len_null_bitmap + i * elem_size).toNat bytes)

/-- Struct fields the source would read out of range (`tuple[i]` with
`i ≥ tuple.size()`, undefined behaviour in C++) are modelled as Null reads:
each sets its bit in the struct's null bitmap (line 774). -/
def writeStructPad (offset start : Int) : List SparkDataType → Nat → List Nat → List Nat
  | [], _, buf => buf
  | _ :: fts, i, buf =>
    writeStructPad offset start fts (i + 1) (bitSet buf (offset + start).toNat i)

mutual
/-- `VariableLengthDataWriter(type_).write(row_idx, field, parent_offset)`,
source lines 793-834, with the constructor's variable-length check (lines
630-643) folded in at entry.  Returns the packed offset-and-size descriptor and
the updated buffer/cursor state.

The Array layout code (`writeArray`, lines 645-701) appears once in the
`.array` branch and twice in the `.map` branch: the source's `writeMap` (lines
703-745) builds synthetic Array Fields for the keys and the values and
re-enters `write` on them (which lands in `writeArray`, the Array type always
passing the constructor check); the embedding runs the Array-branch code
directly on the key/value lists. -/
def VariableLengthDataWriter.writeW (tw : SparkDataType) (offsets : List Int)
    (row_idx : Nat) (field : Field) (parent_offset : Int) (st : WState) :
    Except CError (Int × WState) :=
  if ¬isVariableLengthDataType tw then .error .unknownType
  else if field.isNull then .ok (0, st)
  else
    match tw, field with
    | .string, f | .fixedString, f =>
      match f with
      | .str bytes => .ok (writeUnalignedBytes offsets row_idx bytes parent_offset st)
      | _ => .error .typeMismatch
    | .decimal128, f =>
      match f with
      | .dec128 v =>
        -- lines 806-813: copy the 16 value bytes, swap endianness, raw-write
        .ok (writeUnalignedBytes offsets row_idx
              (swapDecimalEndianBytes (encodeILE v 16)) parent_offset st)
      | _ => .error .typeMismatch
    | .array nested_type, f =>
      match f with
      | .arr array =>
        -- writeArray(row_idx, array, parent_offset), lines 645-701
        let offset := offsets.getD row_idx 0
        let start := st.cursors.getD row_idx 0
        let buf := patchBytes st.buf (offset + start).toNat (encodeLE array.length 8)
        if array.length = 0 then
          .ok (getOffsetAndSize (start - parent_offset) 8,
               ⟨buf, st.cursors.set row_idx (start + 8)⟩)
        else
          let num_elems : Int := array.length
          let len_null_bitmap := calculateBitSetWidthInBytes num_elems
          let elem_size := getArrayElementSize nested_type
          let len_values := roundNumberOfBytesToNearestWord (elem_size * num_elems)
          let cursor := start + 8 + len_null_bitmap + len_values
          let st1 : WState := ⟨buf, st.cursors.set row_idx cursor⟩
          if isFixedLengthDataType (removeNullable nested_type) then
            match writeElemsFixed nested_type offset start len_null_bitmap elem_size
                    array 0 st1.buf with
            | .error e => .error e
            | .ok buf2 =>
              .ok (getOffsetAndSize (start - parent_offset) (cursor - start),
                   ⟨buf2, st1.cursors⟩)
          else if ¬isVariableLengthDataType (removeNullable nested_type) then
            .error .unknownType
          else
            match writeElemsVar nested_type offsets row_idx offset start
                    len_null_bitmap elem_size array 0 st1 with
            | .error e => .error e
            | .ok st2 =>
              .ok (getOffsetAndSize (start - parent_offset)
                    (st2.cursors.getD row_idx 0 - start), st2)
      | _ => .error .typeMismatch
    | .map key_type val_type, f =>
      match f with
      | .map key_array val_array =>
        -- writeMap(row_idx, map, parent_offset), lines 703-745
        let offset := offsets.getD row_idx 0
        let start := st.cursors.getD row_idx 0
        -- skip the 8-byte "length of UnsafeArrayData of key", filled in below
        let st0 : WState := ⟨st.buf, st.cursors.set row_idx (start + 8)⟩
        -- key_writer.write(row_idx, key_array, start + 8), i.e. writeArray:
        match (let offsetK := offsets.getD row_idx 0
               let startK := st0.cursors.getD row_idx 0
               let bufK := patchBytes st0.buf (offsetK + startK).toNat
                             (encodeLE key_array.length 8)
               if key_array.length = 0 then
                 Except.ok (getOffsetAndSize (startK - (start + 8)) 8,
                   (⟨bufK, st0.cursors.set row_idx (startK + 8)⟩ : WState))
               else
                 let num_elems : Int := key_array.length
                 let len_null_bitmap := calculateBitSetWidthInBytes num_elems
                 let elem_size := getArrayElementSize key_type
                 let len_values := roundNumberOfBytesToNearestWord (elem_size * num_elems)
                 let cursorK := startK + 8 + len_null_bitmap + len_values
                 let st1 : WState := ⟨bufK, st0.cursors.set row_idx cursorK⟩
                 if isFixedLengthDataType (removeNullable key_type) then
                   match writeElemsFixed key_type offsetK startK len_null_bitmap
                           elem_size key_array 0 st1.buf with
                   | .error e => .error e
                   | .ok buf2 =>
                     .ok (getOffsetAndSize (startK - (start + 8)) (cursorK - startK),
                          ⟨buf2, st1.cursors⟩)
                 else if ¬isVariableLengthDataType (removeNullable key_type) then
                   .error .unknownType
                 else
                   match writeElemsVar key_type offsets row_idx offsetK startK
                           len_null_bitmap elem_size key_array 0 st1 with
                   | .error e => .error e
                   | .ok st2 =>
                     .ok (getOffsetAndSize (startK - (start + 8))
                           (st2.cursors.getD row_idx 0 - startK), st2)) with
        | .error e => .error e
        | .ok (key_oas, stK) =>
          let key_array_size := extractSize key_oas
          -- fill the reserved length field at offset + start (line 737)
          let stK2 : WState :=
            ⟨patchBytes stK.buf (offset + start).toNat (encodeILE key_array_size 8),
             stK.cursors⟩
          -- val_writer.write(row_idx, val_array, start + 8 + key_array_size):
          match (let offsetV := offsets.getD row_idx 0
                 let startV := stK2.cursors.getD row_idx 0
                 let bufV := patchBytes stK2.buf (offsetV + startV).toNat
                               (encodeLE val_array.length 8)
                 if val_array.length = 0 then
                   Except.ok (getOffsetAndSize (startV - (start + 8 + key_array_size)) 8,
                     (⟨bufV, stK2.cursors.set row_idx (startV + 8)⟩ : WState))
                 else
                   let num_elems : Int := val_array.length
                   let len_null_bitmap := calculateBitSetWidthInBytes num_elems
                   let elem_size := getArrayElementSize val_type
                   let len_values := roundNumberOfBytesToNearestWord (elem_size * num_elems)
                   let cursorV := startV + 8 + len_null_bitmap + len_values
                   let st1 : WState := ⟨bufV, stK2.cursors.set row_idx cursorV⟩
                   if isFixedLengthDataType (removeNullable val_type) then
                     match writeElemsFixed val_type offsetV startV len_null_bitmap
                             elem_size val_array 0 st1.buf with
                     | .error e => .error e
                     | .ok buf2 =>
                       .ok (getOffsetAndSize (startV - (start + 8 + key_array_size))
                             (cursorV - startV), (⟨buf2, st1.cursors⟩ : WState))
                   else if ¬isVariableLengthDataType (removeNullable val_type) then
                     .error .unknownType
                   else
                     match writeElemsVar val_type offsets row_idx offsetV startV
                             len_null_bitmap elem_size val_array 0 st1 with
                     | .error e => .error e
                     | .ok st2 =>
                       .ok (getOffsetAndSize (startV - (start + 8 + key_array_size))
                             (st2.cursors.getD row_idx 0 - startV), st2)) with
          | .error e => .error e
          | .ok (_, stV) =>
            .ok (getOffsetAndSize (start - parent_offset)
                  (stV.cursors.getD row_idx 0 - start), stV)
      | _ => .error .typeMismatch
    | .tuple field_types, f =>
      match f with
      | .tup tuple =>
        -- writeStruct(row_idx, tuple, parent_offset), lines 747-791
        let offset := offsets.getD row_idx 0
        let start := st.cursors.getD row_idx 0
        if field_types.length = 0 then
          .ok (getOffsetAndSize (start - parent_offset) 0, st)
        else
          let num_fields : Int := field_types.length
          let len_null_bitmap := calculateBitSetWidthInBytes num_fields
          let cursor := start + len_null_bitmap + num_fields * 8
          let st1 : WState := ⟨st.buf, st.cursors.set row_idx cursor⟩
          match writeStructFields offsets row_idx offset start len_null_bitmap
                  field_types tuple 0 st1 with
          | .error e => .error e
          | .ok st2 =>
            .ok (getOffsetAndSize (start - parent_offset)
                  (st2.cursors.getD row_idx 0 - start), st2)
      | _ => .error .typeMismatch
    | _, _ => .error .unknownType

/-- The variable-element loop of `writeArray` (lines 684-699): Null elements
set a bit in the element null bitmap; the others are written recursively with
`parent_offset = start` and their descriptor stored in the `i`-th 8-byte slot
of the values region. -/
def writeElemsVar (nested_type : SparkDataType) (offsets : List Int) (row_idx : Nat)
    (offset start len_null_bitmap elem_size : Int) :
    List Field → Nat → WState → Except CError WState
  | [], _, st => .ok st
  | elem :: rest, i, st =>
    if elem.isNull then
      writeElemsVar nested_type offsets row_idx offset start len_null_bitmap elem_size
        rest (i + 1) ⟨bitSet st.buf (offset + start + 8).toNat i, st.cursors⟩
    else
      match VariableLengthDataWriter.writeW (removeNullable nested_type) offsets row_idx
          elem start st with
      | .error e => .error e
      | .ok (offset_and_size, st') =>
        writeElemsVar nested_type offsets row_idx offset start len_null_bitmap elem_size
          rest (i + 1)
          ⟨patchBytes st'.buf (offset + start + 8 + len_null_bitmap + i * elem_size).toNat
             (encodeILE offset_and_size 8), st'.cursors⟩

/-- The field loop of `writeStruct` (lines 768-789): Null fields set their bit
in the struct null bitmap; fixed-length fields are written in place in the
8-byte slot region; the rest are written recursively with
`parent_offset = start` and their descriptor stored in slot `i`. -/
def writeStructFields (offsets : List Int) (row_idx : Nat)
    (offset start len_null_bitmap : Int) :
    List SparkDataType → List Field → Nat → WState → Except CError WState
  | [], _, _, st => .ok st
  | ft :: fts, [], i, st =>
    .ok ⟨writeStructPad offset start (ft :: fts) i st.buf, st.cursors⟩
  | ft :: fts, fv :: fvs, i, st =>
    if fv.isNull then
      writeStructFields offsets row_idx offset start len_null_bitmap fts fvs (i + 1)
        ⟨bitSet st.buf (offset + start).toNat i, st.cursors⟩
    else if isFixedLengthDataType (removeNullable ft) then
      match FixedLengthDataWriter.write ft fv with
      | .error e => .error e
      | .ok bytes =>
        writeStructFields offsets row_idx offset start len_null_bitmap fts fvs (i + 1)
          ⟨patchBytes st.buf (offset + start + len_null_bitmap + i * 8).toNat bytes,
           st.cursors⟩
    else
      match VariableLengthDataWriter.writeW (removeNullable ft) offsets row_idx fv start st with
      | .error e => .error e
      | .ok (offset_and_size, st') =>
        writeStructFields offsets row_idx offset start len_null_bitmap fts fvs (i + 1)
          ⟨patchBytes st'.buf (offset + start + len_null_bitmap + 8 * i).toNat
             (encodeILE offset_and_size 8), st'.cursors⟩
end

/-- `VariableLengthDataWriter(type_).write(row_idx, field, parent_offset)`:
the constructor strips one Nullable wrapper (line 632) and the methods
dispatch on the result. -/
def VariableLengthDataWriter.write (type_ : SparkDataType) (offsets : List Int)
    (row_idx : Nat) (field : Field) (parent_offset : Int) (st : WState) :
    Except CError (Int × WState) :=
  VariableLengthDataWriter.writeW (removeNullable type_) offsets row_idx field
    parent_offset st

/-- `VariableLengthDataWriter::writeArray(row_idx, array, parent_offset)`
(source lines 645-701) as a standalone definition.  `writeW` inlines this body
at its three call sites (the `.array` branch and the key/value writes of the
`.map` branch); the inlined copies are definitionally equal to this function,
which the proofs use. -/
def writeUnsafeArray (nested_type : SparkDataType) (offsets : List Int) (row_idx : Nat)
    (array : List Field) (parent_offset : Int) (st : WState) :
    Except CError (Int × WState) :=
  let offset := offsets.getD row_idx 0
  let start := st.cursors.getD row_idx 0
  let buf := patchBytes st.buf (offset + start).toNat (encodeLE array.length 8)
  if array.length = 0 then
    .ok (getOffsetAndSize (start - parent_offset) 8,
         ⟨buf, st.cursors.set row_idx (start + 8)⟩)
  else
    let num_elems : Int := array.length
    let len_null_bitmap := calculateBitSetWidthInBytes num_elems
    let elem_size := getArrayElementSize nested_type
    let len_values := roundNumberOfBytesToNearestWord (elem_size * num_elems)
    let cursor := start + 8 + len_null_bitmap + len_values
    let st1 : WState := ⟨buf, st.cursors.set row_idx cursor⟩
    if isFixedLengthDataType (removeNullable nested_type) then
      match writeElemsFixed nested_type offset start len_null_bitmap elem_size
              array 0 st1.buf with
      | .error e => .error e
      | .ok buf2 =>
        .ok (getOffsetAndSize (start - parent_offset) (cursor - start),
             ⟨buf2, st1.cursors⟩)
    else if ¬isVariableLengthDataType (removeNullable nested_type) then
      .error .unknownType
    else
      match writeElemsVar nested_type offsets row_idx offset start
              len_null_bitmap elem_size array 0 st1 with
      | .error e => .error e
      | .ok st2 =>
        .ok (getOffsetAndSize (start - parent_offset)
              (st2.cursors.getD row_idx 0 - start), st2)

/-! ### Columns, blocks, masks -/

/-- A column: its DataType and its values, one `Field` per source row.  As in a
well-formed `DB::Block`, the column is a `ColumnNullable` exactly when its type
carries the Nullable wrapper. -/
structure SparkColumn where
  type : SparkDataType
  values : List Field

/-- `isColumnNullable(*col.column)`. -/
def SparkColumn.isNullable (col : SparkColumn) : Bool :=
  match col.type with
  | .nullable _ => true
  | _ => false

/-- A `DB::Block`: the columns plus the shared source-row count. -/
structure Block where
  cols : List SparkColumn
  rows : Nat

/-- `MaskVector`: an optional vector of source-row indices.  The selector
`masks == nullptr ? i : masks->at(i)`; `at` on an out-of-range index (which
throws in C++) is modelled totally by `getD _ 0`, and theorems about masked
runs carry a mask-validity hypothesis instead. -/
def rowIdxOf (masks : Option (List Nat)) (i : Nat) : Nat :=
  match masks with
  | none => i
  | some m => m.getD i 0

/-- The output row count: `masks == nullptr ? block.rows() : masks->size()`
(source lines 303-306). -/
def numRowsOf (masks : Option (List Nat)) (rows : Nat) : Nat :=
  match masks with
  | none => rows
  | some m => m.length

/-- A `for (i = 0; i < num_rows; i++)` row loop whose body reads the masked
source row's Field (the column accessors `(*col.column)[row_idx]`,
`getDataAt(row_idx)` and `null_map[row_idx]` are all functions of it). -/
def rowLoop (num_rows : Nat) (masks : Option (List Nat)) (values : List Field)
    (body : Nat → Field → α → α) (init : α) : α :=
  (List.range num_rows).foldl
    (fun st i => body i (values.getD (rowIdxOf masks i) .null) st) init

/-- The throwing variant of `rowLoop`. -/
def rowLoopE (num_rows : Nat) (masks : Option (List Nat)) (values : List Field)
    (body : Nat → Field → α → Except CError α) (init : α) : Except CError α :=
  (List.range num_rows).foldlM
    (fun st i => body i (values.getD (rowIdxOf masks i) .null) st) init

/-! ### The per-column Phase-2 writers (source lines 83-294) -/

/-- `writeFixedLengthNonNullableValue`, lines 83-110: Decimal32 goes through
the Field-based `FixedLengthDataWriter::write`; everything else is a raw
`unsafeWrite` of the column's native bytes. -/
def writeFixedLengthNonNullableValue (field_offset : Int) (col : SparkColumn)
    (num_rows : Nat) (offsets : List Int) (masks : Option (List Nat))
    (buf : List Nat) : Except CError (List Nat) :=
  if isDecimal32 (removeNullable col.type) then
    rowLoopE num_rows masks col.values (fun i field buf =>
      match FixedLengthDataWriter.write col.type field with
      | .error e => .error e
      | .ok bytes => .ok (patchBytes buf (offsets.getD i 0 + field_offset).toNat bytes)) buf
  else
    .ok (rowLoop num_rows masks col.values (fun i field buf =>
      patchBytes buf (offsets.getD i 0 + field_offset).toNat (getDataAt col.type field)) buf)

/-- `writeFixedLengthNullableValue`, lines 112-151: a set null-map entry sets
bit `col_index` of the row's null bitmap and skips the slot write. -/
def writeFixedLengthNullableValue (field_offset : Int) (col : SparkColumn)
    (col_index : Nat) (num_rows : Nat) (offsets : List Int)
    (masks : Option (List Nat)) (buf : List Nat) : Except CError (List Nat) :=
  if isDecimal32 (removeNullable col.type) then
    rowLoopE num_rows masks col.values (fun i field buf =>
      if field.isNull then .ok (bitSet buf (offsets.getD i 0).toNat col_index)
      else
        match FixedLengthDataWriter.write col.type field with
        | .error e => .error e
        | .ok bytes => .ok (patchBytes buf (offsets.getD i 0 + field_offset).toNat bytes)) buf
  else
    .ok (rowLoop num_rows masks col.values (fun i field buf =>
      if field.isNull then bitSet buf (offsets.getD i 0).toNat col_index
      else patchBytes buf (offsets.getD i 0 + field_offset).toNat
             (getDataAt col.type field)) buf)

/-- `writeVariableLengthNonNullableValue`, lines 153-203. -/
def writeVariableLengthNonNullableValue (field_offset : Int) (col : SparkColumn)
    (num_rows : Nat) (offsets : List Int) (masks : Option (List Nat))
    (st : WState) : Except CError WState :=
  let type_without_nullable := removeNullable col.type
  let use_raw_data := isDataTypeSupportRawData type_without_nullable
  let big_endian := isBigEndianInSparkRow type_without_nullable
  if use_raw_data then
    if ¬big_endian then
      .ok (rowLoop num_rows masks col.values (fun i field st =>
        let str := getDataAt col.type field
        let res := writeUnalignedBytes offsets i str 0 st
        ⟨patchBytes res.2.buf (offsets.getD i 0 + field_offset).toNat
           (encodeILE res.1 8), res.2.cursors⟩) st)
    else
      .ok (rowLoop num_rows masks col.values (fun i field st =>
        let buf16 := swapDecimalEndianBytes (getDataAt col.type field)
        let res := writeUnalignedBytes offsets i buf16 0 st
        ⟨patchBytes res.2.buf (offsets.getD i 0 + field_offset).toNat
           (encodeILE res.1 8), res.2.cursors⟩) st)
  else
    rowLoopE num_rows masks col.values (fun i field st =>
      match VariableLengthDataWriter.write col.type offsets i field 0 st with
      | .error e => .error e
      | .ok (offset_and_size, st') =>
        .ok ⟨patchBytes st'.buf (offsets.getD i 0 + field_offset).toNat
               (encodeILE offset_and_size 8), st'.cursors⟩) st

/-- `writeVariableLengthNullableValue`, lines 205-263. -/
def writeVariableLengthNullableValue (field_offset : Int) (col : SparkColumn)
    (col_index : Nat) (num_rows : Nat) (offsets : List Int)
    (masks : Option (List Nat)) (st : WState) : Except CError WState :=
  let type_without_nullable := removeNullable col.type
  let use_raw_data := isDataTypeSupportRawData type_without_nullable
  let big_endian := isBigEndianInSparkRow type_without_nullable
  if use_raw_data then
    .ok (rowLoop num_rows masks col.values (fun i field st =>
      if field.isNull then
        ⟨bitSet st.buf (offsets.getD i 0).toNat col_index, st.cursors⟩
      else if ¬big_endian then
        let str := getDataAt col.type field
        let res := writeUnalignedBytes offsets i str 0 st
        ⟨patchBytes res.2.buf (offsets.getD i 0 + field_offset).toNat
           (encodeILE res.1 8), res.2.cursors⟩
      else
        let buf16 := swapDecimalEndianBytes (getDataAt col.type field)
        let res := writeUnalignedBytes offsets i buf16 0 st
        ⟨patchBytes res.2.buf (offsets.getD i 0 + field_offset).toNat
           (encodeILE res.1 8), res.2.cursors⟩) st)
  else
    rowLoopE num_rows masks col.values (fun i field st =>
      if field.isNull then
        .ok ⟨bitSet st.buf (offsets.getD i 0).toNat col_index, st.cursors⟩
      else
        match VariableLengthDataWriter.write col.type offsets i field 0 st with
        | .error e => .error e
        | .ok (offset_and_size, st') =>
          .ok ⟨patchBytes st'.buf (offsets.getD i 0 + field_offset).toNat
                 (encodeILE offset_and_size 8), st'.cursors⟩) st

/-- `writeValue`, lines 266-294: dispatch on the column's stripped type and
nullability; a type that is neither fixed- nor variable-length throws
UNKNOWN_TYPE. -/
def writeValue (field_offset : Int) (col : SparkColumn) (col_index : Nat)
    (num_rows : Nat) (offsets : List Int) (masks : Option (List Nat))
    (st : WState) : Except CError WState :=
  let type_without_nullable := removeNullable col.type
  let is_nullable := col.isNullable
  if isFixedLengthDataType type_without_nullable then
    match
      (if is_nullable then
        writeFixedLengthNullableValue field_offset col col_index num_rows offsets masks st.buf
      else
        writeFixedLengthNonNullableValue field_offset col num_rows offsets masks st.buf) with
    | .error e => .error e
    | .ok buf => .ok ⟨buf, st.cursors⟩
  else if isVariableLengthDataType type_without_nullable then
    if is_nullable then
      writeVariableLengthNullableValue field_offset col col_index num_rows offsets masks st
    else
      writeVariableLengthNonNullableValue field_offset col num_rows offsets masks st
  else .error .unknownType

/-! ### Phase 1: SparkRowInfo construction (source lines 296-372) -/

/-- The body of the Phase-1 `col_idx` loop (lines 317-358): a variable-length
column accumulates its per-row backing-data lengths; raw-data types read the
native byte length, the rest go through a `BackingDataLengthCalculator`.
Fixed-length columns contribute nothing.  (`removeLowCardinalityAndNullable`
is modelled as `removeNullable`; LowCardinality columns are outside the
model.) -/
def columnLengths (col : SparkColumn) (num_rows : Nat) (masks : Option (List Nat))
    (lengths : List Int) : Except CError (List Int) :=
  let type_without_nullable := removeNullable col.type
  if isVariableLengthDataType type_without_nullable then
    if isDataTypeSupportRawData type_without_nullable then
      if col.isNullable then
        .ok (rowLoop num_rows masks col.values (fun i field lengths =>
          if field.isNull then lengths
          else lengths.set i (lengths.getD i 0 +
            roundNumberOfBytesToNearestWord (getDataAt col.type field).length)) lengths)
      else
        .ok (rowLoop num_rows masks col.values (fun i field lengths =>
          lengths.set i (lengths.getD i 0 +
            roundNumberOfBytesToNearestWord (getDataAt col.type field).length)) lengths)
    else
      rowLoopE num_rows masks col.values (fun i field lengths =>
        match calculate type_without_nullable field with
        | .error e => .error e
        | .ok n => .ok (lengths.set i (lengths.getD i 0 + n))) lengths
  else .ok lengths

/-- The `offsets` initialization (lines 360-362):
`offsets[i] = offsets[i-1] + lengths[i-1]` for `i = 1 .. num_rows-1`, starting
from a zero vector. -/
def initOffsets (num_rows : Nat) (lengths : List Int) : List Int :=
  (List.range' 1 (num_rows - 1)).foldl
    (fun offsets i => offsets.set i (offsets.getD (i - 1) 0 + lengths.getD (i - 1) 0))
    (List.replicate num_rows 0)

/-- The `total_bytes` initialization (lines 364-366). -/
def initTotalBytes (num_rows : Nat) (lengths : List Int) : Int :=
  (List.range num_rows).foldl (fun total i => total + lengths.getD i 0) 0

/-- The Phase-1 artifact (`SparkRowInfo`).  `buffer` models the memory behind
`buffer_address`; the constructor leaves it empty (nullptr) and
`convertCHColumnToSparkRow` allocates and fills it. -/
structure SparkRowInfo where
  types : List SparkDataType
  num_rows : Nat
  num_cols : Nat
  null_bitset_width_in_bytes : Int
  total_bytes : Int
  offsets : List Int
  lengths : List Int
  buffer_cursor : List Int
  buffer : List Nat

/-- `SparkRowInfo::getFieldOffset(col_idx)`, lines 379-382. -/
def SparkRowInfo.getFieldOffset (info : SparkRowInfo) (col_idx : Nat) : Int :=
  info.null_bitset_width_in_bytes + 8 * col_idx

/-- The `SparkRowInfo` constructor, lines 296-367: initialize lengths and
cursors to the fixed row size, accumulate backing-data lengths column by
column, then derive offsets and total_bytes. -/
def SparkRowInfo.construct (cols : List SparkColumn) (col_size row_size : Nat)
    (masks : Option (List Nat)) : Except CError SparkRowInfo :=
  let num_rows := numRowsOf masks row_size
  let fixed_size_per_row := calculatedFixeSizePerRow col_size
  let lengths0 : List Int := List.replicate num_rows fixed_size_per_row
  match cols.foldlM (fun lengths col => columnLengths col num_rows masks lengths) lengths0 with
  | .error e => .error e
  | .ok lengths =>
    .ok { types := cols.map (·.type)
          num_rows := num_rows
          num_cols := col_size
          null_bitset_width_in_bytes := calculateBitSetWidthInBytes col_size
          total_bytes := initTotalBytes num_rows lengths
          offsets := initOffsets num_rows lengths
          lengths := lengths
          buffer_cursor := List.replicate num_rows fixed_size_per_row
          buffer := [] }

/-- `CHColumnToSparkRow::convertCHColumnToSparkRow(block, masks)`, lines
444-469: reject empty schemas, build the SparkRowInfo (Phase 1), allocate and
zero the buffer, then write every column (Phase 2). -/
def convertCHColumnToSparkRow (block : Block) (masks : Option (List Nat)) :
    Except CError SparkRowInfo :=
  if block.cols.length = 0 then .error .emptySchema
  else
    match SparkRowInfo.construct block.cols block.cols.length block.rows masks with
    | .error e => .error e
    | .ok info =>
      let buf0 : List Nat := List.replicate info.total_bytes.toNat 0
      match block.cols.enum.foldlM
          (fun st (ic : Nat × SparkColumn) =>
            writeValue (info.getFieldOffset ic.1) ic.2 ic.1 info.num_rows
              info.offsets masks st)
          (⟨buf0, info.buffer_cursor⟩ : WState) with
      | .error e => .error e
      | .ok st => .ok { info with buffer := st.buf, buffer_cursor := st.cursors }

/-! ### Auxiliary definitions used by the theorem statements -/

/-- Auxiliary: projection of a column by a mask (the claim C5 comparison):
value `i` of the projected column is source value `mask[i]`. -/
def projectColumn (m : List Nat) (col : SparkColumn) : SparkColumn :=
  ⟨col.type, m.map (fun j => col.values.getD j .null)⟩

/-- Auxiliary: `project(B, M)` — the block whose row `i` is source row `M[i]`. -/
def projectBlock (b : Block) (m : List Nat) : Block :=
  ⟨b.cols.map (projectColumn m), m.length⟩

/-- Auxiliary: `Σ_{t < i} lengths[t]`. -/
def partialSum (lengths : List Int) : Nat → Int
  | 0 => 0
  | i + 1 => partialSum lengths i + lengths.getD i 0

/-- Auxiliary: a column whose type is supported and whose values all fit it. -/
def colWellTyped (col : SparkColumn) : Bool :=
  supportedType col.type && hasTypeList col.values col.type

/-- Auxiliary: every column of the block is well typed. -/
def blockWellTyped (b : Block) : Bool :=
  b.cols.all colWellTyped

/-- Auxiliary: a mask's entries are valid source-row indices (`masks->at(i)`
would throw otherwise). -/
def maskOk (rows : Nat) : Option (List Nat) → Bool
  | none => true
  | some m => m.all (· < rows)

/-- Auxiliary: the length-calculation/write agreement at one value of one
(stripped) variable-length type: both succeed, and the writer advances exactly
the row's cursor by exactly the calculated length, preserving the buffer
size. -/
def ElemAgrees (tw : SparkDataType) (f : Field) : Prop :=
  ∀ (offsets : List Int) (row : Nat) (parent : Int) (st : WState),
    ∃ n res buf', calculateW tw f = .ok n ∧ 0 ≤ n ∧
      VariableLengthDataWriter.writeW tw offsets row f parent st =
        .ok (res, ⟨buf', st.cursors.set row (st.cursors.getD row 0 + n)⟩) ∧
      buf'.length = st.buf.length

/-! ### The spec's reading of the descriptor packing (for claim C4) -/

/-- Modelled from the spec: the packed descriptor as the spec describes it,
`(offset << 32) | (size & 0xFFFFFFFF)`, i.e. with the size contribution
truncated to its low 32 bits before the OR. -/
def specPackOffsetAndSize (offset size : Int) : Int :=
  ofU64 ((toU64 offset <<< 32) % 2 ^ 64 ||| (toU64 size &&& 0xffffffff))

/-! ## Lemmas: int64 packing -/

theorem toU64_eq_toNat {x : Int} (h0 : 0 ≤ x) (h : x < 2 ^ 64) : toU64 x = x.toNat := by
  unfold toU64
  rw [Int.emod_eq_of_lt h0 (by exact_mod_cast h)]

theorem ofU64_eq_ofNat {n : Nat} (h : n < 2 ^ 63) : ofU64 n = (n : Int) := by
  unfold ofU64
  rw [if_pos h]

theorem shiftLeft32_lor_eq (a b : Nat) (hb : b < 2 ^ 32) :
    (a <<< 32) ||| b = a * 2 ^ 32 + b := by
  rw [Nat.shiftLeft_eq, Nat.mul_comm a (2 ^ 32), ← Nat.mul_add_lt_is_or hb a,
    Nat.mul_comm (2 ^ 32) a]

/-- Claim helper: the packed value on in-range inputs. -/
theorem getOffsetAndSize_eq {off sz : Int} (h0 : 0 ≤ off) (h1 : off < 2 ^ 31)
    (h2 : 0 ≤ sz) (h3 : sz < 2 ^ 32) :
    getOffsetAndSize off sz = off * 2 ^ 32 + sz := by
  unfold getOffsetAndSize
  rw [toU64_eq_toNat h0 (by nlinarith), toU64_eq_toNat h2 (by nlinarith)]
  have hsz : sz.toNat < 2 ^ 32 := by omega
  have hsh : off.toNat <<< 32 = off.toNat * 2 ^ 32 := Nat.shiftLeft_eq _ _
  have hlt : off.toNat * 2 ^ 32 + sz.toNat < 2 ^ 63 := by
    have : off.toNat < 2 ^ 31 := by omega
    nlinarith
  rw [hsh, Nat.mod_eq_of_lt (by nlinarith), ← Nat.shiftLeft_eq,
    shiftLeft32_lor_eq _ _ hsz, ofU64_eq_ofNat hlt]
  push_cast
  omega

/-- Claim C9: descriptor packing round-trips: for `0 ≤ offset < 2^31` and
`0 ≤ size < 2^32`, `extractOffset (getOffsetAndSize offset size) = offset` and
`extractSize (getOffsetAndSize offset size) = size`. -/
theorem C9_descriptor_roundtrip (off sz : Int) (h0 : 0 ≤ off) (h1 : off < 2 ^ 31)
    (h2 : 0 ≤ sz) (h3 : sz < 2 ^ 32) :
    extractOffset (getOffsetAndSize off sz) = off ∧
    extractSize (getOffsetAndSize off sz) = sz := by
  rw [getOffsetAndSize_eq h0 h1 h2 h3]
  constructor
  · unfold extractOffset
    omega
  · unfold extractSize
    have hp : (0 : Int) ≤ off * 2 ^ 32 + sz := by positivity
    have hlt : off * 2 ^ 32 + sz < 2 ^ 64 := by nlinarith
    rw [toU64_eq_toNat hp hlt]
    have hmask : (0xffffffff : Nat) = 2 ^ 32 - 1 := by norm_num
    rw [hmask, Nat.and_pow_two_sub_one_eq_mod]
    omega

theorem C9_descriptor_roundtrip_witness :
    (0 : Int) ≤ 5 ∧ (5 : Int) < 2 ^ 31 ∧ (0 : Int) ≤ 7 ∧ (7 : Int) < 2 ^ 32 ∧
    (extractOffset (getOffsetAndSize 5 7) = 5 ∧ extractSize (getOffsetAndSize 5 7) = 7) :=
  ⟨by norm_num, by norm_num, by norm_num, by norm_num,
   C9_descriptor_roundtrip 5 7 (by norm_num) (by norm_num) (by norm_num) (by norm_num)⟩

/-- Claim C4, counterexample: the source's `getOffsetAndSize` does **not** mask
the size to its low 32 bits; at `offset = 0`, `size = 2^32` it returns `2^32`,
while the spec's formula `(offset << 32) | (size & 0xFFFFFFFF)` gives `0`, so
an overlong size does disturb the offset field. -/
theorem C4_counterexample :
    getOffsetAndSize 0 (2 ^ 32) = 2 ^ 32 ∧
    specPackOffsetAndSize 0 (2 ^ 32) = 0 ∧
    getOffsetAndSize 0 (2 ^ 32) ≠ specPackOffsetAndSize 0 (2 ^ 32) := by
  refine ⟨by decide, by decide, by decide⟩

/-- Claim C4 as amended: the packed descriptor is `(offset << 32) | size` with
no masking of the size; it agrees with the spec's
`(offset << 32) | (size & 0xFFFFFFFF)` exactly when `0 ≤ size < 2^32` (and no
Phase-1 range check rejects larger sizes — `SparkRowInfo.construct` performs
none). -/
theorem C4_getOffsetAndSize_eq_specPack (off sz : Int) (h2 : 0 ≤ sz)
    (h3 : sz < 2 ^ 32) :
    getOffsetAndSize off sz = specPackOffsetAndSize off sz := by
  unfold getOffsetAndSize specPackOffsetAndSize
  have h64 : sz < 2 ^ 64 := by nlinarith
  rw [toU64_eq_toNat h2 h64]
  have hmask : (0xffffffff : Nat) = 2 ^ 32 - 1 := by norm_num
  have hsz : sz.toNat % 2 ^ 32 = sz.toNat := Nat.mod_eq_of_lt (by omega)
  rw [hmask, Nat.and_pow_two_sub_one_eq_mod, hsz]

theorem C4_getOffsetAndSize_eq_specPack_witness :
    (0 : Int) ≤ 9 ∧ (9 : Int) < 2 ^ 32 ∧
    getOffsetAndSize 3 9 = specPackOffsetAndSize 3 9 :=
  ⟨by norm_num, by norm_num, C4_getOffsetAndSize_eq_specPack 3 9 (by norm_num) (by norm_num)⟩

/-! ## Lemmas: byte encoding -/

theorem encodeLE_length (n w : Nat) : (encodeLE n w).length = w := by
  induction w generalizing n with
  | zero => rfl
  | succ w ih => simp [encodeLE, ih]

theorem encodeILE_length (v : Int) (w : Nat) : (encodeILE v w).length = w := by
  unfold encodeILE
  exact encodeLE_length _ _

/-- Claim C8: `FixedLengthDataWriter::write` on a non-null Decimal32 value
writes the value sign-extended to 64 bits, as all 8 little-endian bytes of the
slot; in particular a negative 32-bit value fills bytes 4..7 with `0xFF`. -/
theorem C8_decimal32_sign_extended :
    (∀ v : Int, FixedLengthDataWriter.write .decimal32 (.int v) = .ok (encodeILE v 8) ∧
        (encodeILE v 8).length = 8) ∧
    (∀ v : Int, -(2 ^ 31) ≤ v → v < 0 →
        ∀ k : Nat, 4 ≤ k → k < 8 → (encodeILE v 8).getD k 0 = 255) := by
  constructor
  · intro v
    exact ⟨rfl, encodeILE_length v 8⟩
  · intro v h1 h2 k hk1 hk2
    have h64 : (8 : Nat) * 8 = 64 := by norm_num
    unfold encodeILE
    rw [h64]
    have hlo : (2 : Int) ^ 64 - 2 ^ 31 ≤ v % 2 ^ 64 := by omega
    have hhi : v % 2 ^ 64 < 2 ^ 64 := by omega
    interval_cases k <;> · simp only [encodeLE, List.getD_cons_succ, List.getD_cons_zero]; omega

theorem C8_decimal32_sign_extended_witness :
    (-(2 ^ 31) : Int) ≤ -1 ∧ (-1 : Int) < 0 ∧ (4 : Nat) ≤ 4 ∧ (4 : Nat) < 8 ∧
    (encodeILE (-1) 8).getD 4 0 = 255 :=
  ⟨by norm_num, by norm_num, le_refl 4, by norm_num,
   C8_decimal32_sign_extended.2 (-1) (by norm_num) (by norm_num) 4 (le_refl 4) (by norm_num)⟩

/-! ## Lemmas: patchBytes and little-endian words -/

theorem patchBytes_length (buf : List Nat) (pos : Nat) (ws : List Nat) :
    (patchBytes buf pos ws).length = buf.length := by
  induction buf generalizing pos ws with
  | nil => cases ws <;> rfl
  | cons b rest ih =>
    cases ws with
    | nil => cases pos <;> rfl
    | cons w ws' =>
      cases pos with
      | zero => simp [patchBytes, ih]
      | succ p => simp [patchBytes, ih]

theorem patchBytes_getElem? (buf ws : List Nat) (pos k : Nat) :
    (patchBytes buf pos ws)[k]? =
      if pos ≤ k ∧ k < pos + ws.length ∧ k < buf.length then ws[k - pos]?
      else buf[k]? := by
  induction buf generalizing pos ws k with
  | nil => simp [patchBytes]
  | cons b rest ih =>
    cases ws with
    | nil =>
      have : patchBytes (b :: rest) pos [] = b :: rest := by cases pos <;> rfl
      rw [this, if_neg (by simp only [List.length_nil]; omega)]
    | cons w ws' =>
      cases pos with
      | zero =>
        cases k with
        | zero => simp [patchBytes]
        | succ kk =>
          simp only [patchBytes, List.getElem?_cons_succ, List.length_cons]
          rw [ih]
          by_cases h : 0 ≤ kk ∧ kk < 0 + ws'.length ∧ kk < rest.length
          · rw [if_pos h, if_pos (by omega)]
            simp
          · rw [if_neg h, if_neg (by omega)]
      | succ p =>
        cases k with
        | zero =>
          simp only [patchBytes, List.getElem?_cons_zero]
          rw [if_neg (by omega)]
        | succ kk =>
          simp only [patchBytes, List.getElem?_cons_succ, List.length_cons]
          rw [ih]
          simp only [List.length_cons]
          by_cases h : p ≤ kk ∧ kk < p + (ws'.length + 1) ∧ kk < rest.length
          · rw [if_pos h, if_pos (by omega)]
            congr 1
            omega
          · rw [if_neg h, if_neg (by omega)]

theorem decodeLE_encodeLE (n w : Nat) : decodeLE (encodeLE n w) = n % 2 ^ (8 * w) := by
  induction w generalizing n with
  | zero => simp [encodeLE, decodeLE, Nat.mod_one]
  | succ w ih =>
    simp only [encodeLE, decodeLE, ih]
    have hp : 2 ^ (8 * (w + 1)) = 256 * 2 ^ (8 * w) := by
      rw [Nat.mul_add, Nat.pow_add]
      ring
    rw [hp, Nat.mod_mul]

theorem decodeLE_lt (bs : List Nat) (h : ∀ b ∈ bs, b < 256) :
    decodeLE bs < 2 ^ (8 * bs.length) := by
  induction bs with
  | nil => simp [decodeLE]
  | cons b rest ih =>
    simp only [decodeLE, List.length_cons]
    have hb := h b (by simp)
    have hr := ih (fun x hx => h x (by simp [hx]))
    have hp : 2 ^ (8 * (rest.length + 1)) = 256 * 2 ^ (8 * rest.length) := by
      rw [Nat.mul_add, Nat.pow_add]
      ring
    rw [hp]
    omega

theorem patchBytes_read_back (buf ws : List Nat) (pos : Nat)
    (h : pos + ws.length ≤ buf.length) :
    ((patchBytes buf pos ws).drop pos).take ws.length = ws := by
  apply List.ext_getElem?
  intro k
  rw [List.getElem?_take]
  split
  · rw [List.getElem?_drop, patchBytes_getElem?, if_pos (by omega)]
    congr 1
    omega
  · exact (List.getElem?_eq_none (by omega)).symm

theorem and_two_pow_ne_zero_iff (n k : Nat) : n &&& 2 ^ k ≠ 0 ↔ n.testBit k = true := by
  rw [Nat.and_two_pow]
  cases h : n.testBit k <;> simp [h]

theorem bitSet_word_lt (bm : List Nat) (base i : Nat) (h2 : ∀ b ∈ bm, b < 256) :
    decodeLE ((bm.drop (base + (i >>> 6) * 8)).take 8) ||| 2 ^ (i % 64) < 2 ^ 64 := by
  apply Nat.or_lt_two_pow
  · have hm : ∀ b ∈ (bm.drop (base + (i >>> 6) * 8)).take 8, b < 256 := fun b hb =>
      h2 b ((List.drop_sublist _ _).subset ((List.take_sublist _ _).subset hb))
    have hlen : ((bm.drop (base + (i >>> 6) * 8)).take 8).length ≤ 8 := by
      simp [List.length_take]
    calc decodeLE _ < 2 ^ (8 * ((bm.drop (base + (i >>> 6) * 8)).take 8).length) :=
          decodeLE_lt _ hm
      _ ≤ 2 ^ 64 := Nat.pow_le_pow_right (by norm_num) (by omega)
  · exact Nat.pow_lt_pow_right (by norm_num) (Nat.mod_lt _ (by norm_num))

/-- Claim C10: `bitSet` touches exactly one bit.  After `bitSet bm base i`:
bit `i` reads as set; every other bit `j` reads exactly as before; and no byte
outside the 8-byte word containing bit `i` is modified.  The hypotheses are the
C++ preconditions: the word read/written lies inside the buffer, and the buffer
holds bytes. -/
theorem C10_bitSet_frame (bm : List Nat) (base i : Nat)
    (h1 : base + (i >>> 6) * 8 + 8 ≤ bm.length) (h2 : ∀ b ∈ bm, b < 256) :
    isBitSet (bitSet bm base i) base i = true ∧
    (∀ j, j ≠ i → isBitSet (bitSet bm base i) base j = isBitSet bm base j) ∧
    (∀ k, k < base + (i >>> 6) * 8 ∨ base + (i >>> 6) * 8 + 8 ≤ k →
      (bitSet bm base i)[k]? = bm[k]?) := by
  set wo := base + (i >>> 6) * 8 with hwo
  set word := decodeLE ((bm.drop wo).take 8) with hword
  set value := word ||| 2 ^ (i % 64) with hvalue
  have hvlt : value < 2 ^ 64 := bitSet_word_lt bm base i h2
  have hreadback : ((patchBytes bm wo (encodeLE value 8)).drop wo).take 8 = encodeLE value 8 := by
    have h := patchBytes_read_back bm (encodeLE value 8) wo
      (by rw [encodeLE_length]; omega)
    rwa [encodeLE_length] at h
  have hdec : decodeLE (encodeLE value 8) = value := by
    rw [decodeLE_encodeLE]
    exact Nat.mod_eq_of_lt (by norm_num at hvlt ⊢; omega)
  have hbit : bitSet bm base i = patchBytes bm wo (encodeLE value 8) := rfl
  refine ⟨?_, ?_, ?_⟩
  · show (decodeLE (((patchBytes bm wo (encodeLE value 8)).drop wo).take 8)
        &&& 2 ^ (i % 64) != 0) = true
    rw [hreadback, hdec]
    simp only [bne_iff_ne, ne_eq]
    rw [← ne_eq, and_two_pow_ne_zero_iff]
    rw [hvalue, Nat.testBit_lor, Nat.testBit_two_pow]
    simp
  · intro j hj
    by_cases hw : j >>> 6 = i >>> 6
    · show (decodeLE (((patchBytes bm wo (encodeLE value 8)).drop (base + (j >>> 6) * 8)).take 8)
          &&& 2 ^ (j % 64) != 0)
        = (decodeLE ((bm.drop (base + (j >>> 6) * 8)).take 8) &&& 2 ^ (j % 64) != 0)
      rw [hw]
      rw [show base + (i >>> 6) * 8 = wo from rfl]
      rw [hreadback, hdec, ← hword]
      have hne : i % 64 ≠ j % 64 := by
        intro hmod
        apply hj
        have hi := Nat.shiftRight_eq_div_pow i 6
        have hjj := Nat.shiftRight_eq_div_pow j 6
        omega
      have ht : value.testBit (j % 64) = word.testBit (j % 64) := by
        rw [hvalue, Nat.testBit_lor, Nat.testBit_two_pow]
        simp [hne]
      rw [Nat.and_two_pow, Nat.and_two_pow, ht]
    · show (decodeLE (((patchBytes bm wo (encodeLE value 8)).drop (base + (j >>> 6) * 8)).take 8)
          &&& 2 ^ (j % 64) != 0)
        = (decodeLE ((bm.drop (base + (j >>> 6) * 8)).take 8) &&& 2 ^ (j % 64) != 0)
      have hs : ((patchBytes bm wo (encodeLE value 8)).drop (base + (j >>> 6) * 8)).take 8
          = (bm.drop (base + (j >>> 6) * 8)).take 8 := by
        apply List.ext_getElem?
        intro k
        rw [List.getElem?_take, List.getElem?_take]
        split
        · rw [List.getElem?_drop, List.getElem?_drop, patchBytes_getElem?,
            if_neg (by rw [encodeLE_length]; omega)]
        · rfl
      rw [hs]
  · intro k hk
    rw [hbit, patchBytes_getElem?, if_neg (by rw [encodeLE_length]; omega)]

theorem C10_bitSet_frame_witness :
    (0 + (3 >>> 6) * 8 + 8 ≤ (List.replicate 8 0 : List Nat).length ∧
      ∀ b ∈ (List.replicate 8 0 : List Nat), b < 256) ∧
    isBitSet (bitSet (List.replicate 8 0) 0 3) 0 3 = true ∧
    isBitSet (bitSet (List.replicate 8 0) 0 3) 0 5 = isBitSet (List.replicate 8 0) 0 5 :=
  ⟨⟨by decide, by decide⟩,
   (C10_bitSet_frame (List.replicate 8 0) 0 3 (by decide) (by decide)).1,
   (C10_bitSet_frame (List.replicate 8 0) 0 3 (by decide) (by decide)).2.1 5 (by decide)⟩

/-! ## Branch equations for the recursive calculator and writer

The worker functions are compiled by nested structural recursion; their
applications reduce definitionally once the head constructors of the type and
the field are fixed, which the following equations record. -/

theorem calculateW_str (bytes : List Nat) :
    calculateW .string (.str bytes) = .ok (roundNumberOfBytesToNearestWord bytes.length) := rfl

theorem calculateW_fixedString_str (bytes : List Nat) :
    calculateW .fixedString (.str bytes) =
      .ok (roundNumberOfBytesToNearestWord bytes.length) := rfl

theorem calculateW_dec128 (v : Int) : calculateW .decimal128 (.dec128 v) = .ok 16 := rfl

theorem calculateW_arr (nested : SparkDataType) (elems : List Field) :
    calculateW (.array nested) (.arr elems) =
      (if ¬calculatorCtorOk nested then .error .unknownType
       else
         match calculateList nested elems with
         | .error e => .error e
         | .ok s => .ok (arrayHeaderLength nested elems.length + s)) := rfl

theorem calculateW_map (kt vt : SparkDataType) (ks vs : List Field) :
    calculateW (.map kt vt) (.map ks vs) =
      (if ¬calculatorCtorOk kt then .error .unknownType
       else
         match calculateList kt ks with
         | .error e => .error e
         | .ok s_key =>
           if ¬calculatorCtorOk vt then .error .unknownType
           else
             match calculateList vt vs with
             | .error e => .error e
             | .ok s_val =>
               .ok (8 + (arrayHeaderLength kt ks.length + s_key)
                      + (arrayHeaderLength vt vs.length + s_val))) := rfl

theorem calculateW_tup (ts : List SparkDataType) (fs : List Field) :
    calculateW (.tuple ts) (.tup fs) =
      (match calculateTupleFields ts fs with
       | .error e => .error e
       | .ok s => .ok (calculateBitSetWidthInBytes ts.length + 8 * ts.length + s)) := rfl

theorem calculateW_null (tw : SparkDataType)
    (hv : (isFixedLengthDataType tw || isVariableLengthDataType tw) = true) :
    calculateW tw .null = .ok 0 := by
  cases tw <;> first | rfl | simp [isFixedLengthDataType, isVariableLengthDataType] at hv

theorem calculateW_int (tw : SparkDataType) (v : Int)
    (hf : isFixedLengthDataType tw = true) (hn : tw ≠ .nothing) :
    calculateW tw (.int v) = .ok 0 := by
  cases tw <;> first | rfl | simp [isFixedLengthDataType] at hf hn ⊢

theorem writeW_null (tw : SparkDataType) (offsets : List Int) (row_idx : Nat)
    (parent_offset : Int) (st : WState) (hv : isVariableLengthDataType tw = true) :
    VariableLengthDataWriter.writeW tw offsets row_idx .null parent_offset st =
      .ok (0, st) := by
  cases tw <;> first | rfl | simp [isVariableLengthDataType] at hv

theorem writeW_str (offsets : List Int) (row_idx : Nat) (bytes : List Nat)
    (parent_offset : Int) (st : WState) :
    VariableLengthDataWriter.writeW .string offsets row_idx (.str bytes) parent_offset st =
      .ok (writeUnalignedBytes offsets row_idx bytes parent_offset st) := rfl

theorem writeW_fixedString_str (offsets : List Int) (row_idx : Nat) (bytes : List Nat)
    (parent_offset : Int) (st : WState) :
    VariableLengthDataWriter.writeW .fixedString offsets row_idx (.str bytes)
        parent_offset st =
      .ok (writeUnalignedBytes offsets row_idx bytes parent_offset st) := rfl

theorem writeW_dec128 (offsets : List Int) (row_idx : Nat) (v : Int)
    (parent_offset : Int) (st : WState) :
    VariableLengthDataWriter.writeW .decimal128 offsets row_idx (.dec128 v)
        parent_offset st =
      .ok (writeUnalignedBytes offsets row_idx
            (swapDecimalEndianBytes (encodeILE v 16)) parent_offset st) := rfl

theorem writeW_arr (nested : SparkDataType) (offsets : List Int) (row_idx : Nat)
    (elems : List Field) (parent_offset : Int) (st : WState) :
    VariableLengthDataWriter.writeW (.array nested) offsets row_idx (.arr elems)
        parent_offset st =
      writeUnsafeArray nested offsets row_idx elems parent_offset st := rfl

theorem writeW_map (kt vt : SparkDataType) (offsets : List Int) (row_idx : Nat)
    (ks vs : List Field) (parent_offset : Int) (st : WState) :
    VariableLengthDataWriter.writeW (.map kt vt) offsets row_idx (.map ks vs)
        parent_offset st =
      (let offset := offsets.getD row_idx 0
       let start := st.cursors.getD row_idx 0
       let st0 : WState := ⟨st.buf, st.cursors.set row_idx (start + 8)⟩
       match writeUnsafeArray kt offsets row_idx ks (start + 8) st0 with
       | .error e => .error e
       | .ok (key_oas, stK) =>
         let key_array_size := extractSize key_oas
         let stK2 : WState :=
           ⟨patchBytes stK.buf (offset + start).toNat (encodeILE key_array_size 8),
            stK.cursors⟩
         match writeUnsafeArray vt offsets row_idx vs (start + 8 + key_array_size) stK2 with
         | .error e => .error e
         | .ok (_, stV) =>
           .ok (getOffsetAndSize (start - parent_offset)
                 (stV.cursors.getD row_idx 0 - start), stV)) := rfl

theorem writeW_tup (ts : List SparkDataType) (offsets : List Int) (row_idx : Nat)
    (fs : List Field) (parent_offset : Int) (st : WState) :
    VariableLengthDataWriter.writeW (.tuple ts) offsets row_idx (.tup fs)
        parent_offset st =
      (let offset := offsets.getD row_idx 0
       let start := st.cursors.getD row_idx 0
       if ts.length = 0 then
         .ok (getOffsetAndSize (start - parent_offset) 0, st)
       else
         let num_fields : Int := ts.length
         let len_null_bitmap := calculateBitSetWidthInBytes num_fields
         let cursor := start + len_null_bitmap + num_fields * 8
         let st1 : WState := ⟨st.buf, st.cursors.set row_idx cursor⟩
         match writeStructFields offsets row_idx offset start len_null_bitmap
                 ts fs 0 st1 with
         | .error e => .error e
         | .ok st2 =>
           .ok (getOffsetAndSize (start - parent_offset)
                 (st2.cursors.getD row_idx 0 - start), st2)) := rfl

/-! ## Typing and stripping helpers -/

theorem supportedType_eq_notNull (t : SparkDataType) :
    supportedType t = supportedTypeNotNull (removeNullable t) := by
  cases t <;> rfl

theorem removeNullable_of_notNull {t : SparkDataType}
    (h : supportedTypeNotNull t = true) : removeNullable t = t := by
  cases t <;> first | rfl | simp [supportedTypeNotNull] at h

theorem hasType_removeNullable (f : Field) {t : SparkDataType}
    (h : removeNullable (removeNullable t) = removeNullable t) :
    hasType f (removeNullable t) = hasType f t := by
  cases f <;> simp only [hasType, h]

theorem calculatorCtorOk_of_supported {t : SparkDataType}
    (h : supportedType t = true) : calculatorCtorOk t = true := by
  rw [supportedType_eq_notNull] at h
  unfold calculatorCtorOk
  cases htw : removeNullable t <;> rw [htw] at h <;>
    simp_all [supportedTypeNotNull, isFixedLengthDataType, isVariableLengthDataType]

/-! ## List and arithmetic helpers -/

theorem getD_set_self {l : List Int} {i : Nat} {v : Int} (h : i < l.length) :
    (l.set i v).getD i 0 = v := by
  simp [List.getD_eq_getElem?_getD, List.getElem?_set, h]

theorem getD_set_ne {l : List Int} {i j : Nat} {v : Int} (h : i ≠ j) :
    (l.set i v).getD j 0 = l.getD j 0 := by
  simp [List.getD_eq_getElem?_getD, List.getElem?_set, h]

theorem set_getD_cancel (l : List Int) (i : Nat) : l.set i (l.getD i 0) = l := by
  induction l generalizing i with
  | nil => rfl
  | cons x xs ih =>
    cases i with
    | zero => rfl
    | succ j =>
      show x :: xs.set j (xs.getD j 0) = x :: xs
      exact congrArg (x :: ·) (ih j)

theorem set_set_getD (l : List Int) (i : Nat) (a b : Int) :
    (l.set i a).set i ((l.set i a).getD i 0 + b) = l.set i (a + b) := by
  by_cases h : i < l.length
  · rw [getD_set_self h, List.set_set]
  · have h1 : l.set i a = l := List.set_eq_of_length_le (by omega)
    have h2 : l.set i (a + b) = l := List.set_eq_of_length_le (by omega)
    rw [h1, h2]
    exact List.set_eq_of_length_le (by omega)

theorem roundNumberOfBytesToNearestWord_eq (n : Int) :
    roundNumberOfBytesToNearestWord n = n + (8 - n % 8) % 8 := rfl

theorem roundNumberOfBytesToNearestWord_nonneg {n : Int} (h : 0 ≤ n) :
    0 ≤ roundNumberOfBytesToNearestWord n := by
  rw [roundNumberOfBytesToNearestWord_eq]
  omega

theorem roundNumberOfBytesToNearestWord_natCast_nonneg (n : Nat) :
    0 ≤ roundNumberOfBytesToNearestWord n :=
  roundNumberOfBytesToNearestWord_nonneg (by positivity)

theorem calculateBitSetWidthInBytes_nonneg {n : Int} (h : 0 ≤ n) :
    0 ≤ calculateBitSetWidthInBytes n := by
  unfold calculateBitSetWidthInBytes
  omega

theorem getArrayElementSize_nonneg (t : SparkDataType) : 0 ≤ getArrayElementSize t := by
  unfold getArrayElementSize
  split <;> norm_num

theorem arrayHeaderLength_nonneg (t : SparkDataType) {n : Int} (h : 0 ≤ n) :
    0 ≤ arrayHeaderLength t n := by
  unfold arrayHeaderLength
  have h1 := calculateBitSetWidthInBytes_nonneg h
  have h2 := roundNumberOfBytesToNearestWord_nonneg
    (mul_nonneg (getArrayElementSize_nonneg t) h)
  omega

theorem arrayHeaderLength_zero (t : SparkDataType) : arrayHeaderLength t 0 = 8 := by
  unfold arrayHeaderLength calculateBitSetWidthInBytes roundNumberOfBytesToNearestWord
  norm_num

theorem swapDecimalEndianBytes_length_16 (bs : List Nat) (h : bs.length = 16) :
    (swapDecimalEndianBytes bs).length = 16 := by
  unfold swapDecimalEndianBytes
  simp [h]

theorem writeUnalignedBytes_cursors (offsets : List Int) (row_idx : Nat)
    (src : List Nat) (p : Int) (st : WState) :
    (writeUnalignedBytes offsets row_idx src p st).2.cursors =
      st.cursors.set row_idx
        (st.cursors.getD row_idx 0 + roundNumberOfBytesToNearestWord src.length) := rfl

theorem writeUnalignedBytes_buf_length (offsets : List Int) (row_idx : Nat)
    (src : List Nat) (p : Int) (st : WState) :
    (writeUnalignedBytes offsets row_idx src p st).2.buf.length = st.buf.length :=
  patchBytes_length _ _ _

theorem bitSet_length (buf : List Nat) (base index : Nat) :
    (bitSet buf base index).length = buf.length :=
  patchBytes_length _ _ _

/-! ## Field size lemmas -/

theorem Field.sz_pos (f : Field) : 1 ≤ Field.sz f := by
  cases f <;> simp [Field.sz] <;> omega

theorem Field.sz_lt_szList_of_mem {f : Field} {l : List Field} (h : f ∈ l) :
    Field.sz f < Field.szList l := by
  induction l with
  | nil => cases h
  | cons g gs ih =>
    rcases List.mem_cons.mp h with h | h
    · subst h
      simp [Field.szList]
      omega
    · have := ih h
      simp [Field.szList]
      omega

/-! ## Fixed-length write: typed success -/

theorem fixedWriteW_ok_of_typed (tw : SparkDataType) (f : Field)
    (hf : isFixedLengthDataType tw = true) (ht : hasType f tw = true) :
    ∃ bytes, FixedLengthDataWriter.writeW tw f = .ok bytes := by
  cases f <;> cases tw <;>
    first
      | exact ⟨_, rfl⟩
      | simp [hasType, isFixedLengthDataType, removeNullable] at hf ht

theorem calculateW_fixed_typed (tw : SparkDataType) (f : Field)
    (hf : isFixedLengthDataType tw = true) (ht : hasType f tw = true) :
    calculateW tw f = .ok 0 := by
  cases f <;> cases tw <;>
    first
      | rfl
      | simp [hasType, isFixedLengthDataType, removeNullable] at hf ht

/-! ## Loop equations -/

theorem calculateList_nil (nested : SparkDataType) : calculateList nested [] = .ok 0 := rfl

theorem calculateList_cons (nested : SparkDataType) (f : Field) (fs : List Field) :
    calculateList nested (f :: fs) =
      (match calculateW (removeNullable nested) f with
       | .error e => .error e
       | .ok n =>
         match calculateList nested fs with
         | .error e => .error e
         | .ok s => .ok (n + s)) := rfl

theorem calculateTupleFields_nil_nil : calculateTupleFields [] [] = .ok 0 := rfl

theorem calculateTupleFields_cons_cons (t : SparkDataType) (ts : List SparkDataType)
    (f : Field) (fs : List Field) :
    calculateTupleFields (t :: ts) (f :: fs) =
      (match calculateW (removeNullable t) f with
       | .error e => .error e
       | .ok n =>
         match calculateTupleFields ts fs with
         | .error e => .error e
         | .ok s => .ok (n + s)) := rfl

theorem writeElemsFixed_nil (nested : SparkDataType) (offset start lnb esz : Int)
    (i : Nat) (buf : List Nat) :
    writeElemsFixed nested offset start lnb esz [] i buf = .ok buf := rfl

theorem writeElemsFixed_cons (nested : SparkDataType) (offset start lnb esz : Int)
    (elem : Field) (rest : List Field) (i : Nat) (buf : List Nat) :
    writeElemsFixed nested offset start lnb esz (elem :: rest) i buf =
      (if elem.isNull then
        writeElemsFixed nested offset start lnb esz rest (i + 1)
          (bitSet buf (offset + start + 8).toNat i)
      else
        match FixedLengthDataWriter.write nested elem with
        | .error e => .error e
        | .ok bytes =>
          writeElemsFixed nested offset start lnb esz rest (i + 1)
            (patchBytes buf (offset + start + 8 + lnb + i * esz).toNat bytes)) := rfl

theorem writeElemsVar_nil (nested : SparkDataType) (offsets : List Int) (row_idx : Nat)
    (offset start lnb esz : Int) (i : Nat) (st : WState) :
    writeElemsVar nested offsets row_idx offset start lnb esz [] i st = .ok st := rfl

theorem writeElemsVar_cons (nested : SparkDataType) (offsets : List Int) (row_idx : Nat)
    (offset start lnb esz : Int) (elem : Field) (rest : List Field) (i : Nat)
    (st : WState) :
    writeElemsVar nested offsets row_idx offset start lnb esz (elem :: rest) i st =
      (if elem.isNull then
        writeElemsVar nested offsets row_idx offset start lnb esz rest (i + 1)
          ⟨bitSet st.buf (offset + start + 8).toNat i, st.cursors⟩
      else
        match VariableLengthDataWriter.writeW (removeNullable nested) offsets row_idx
            elem start st with
        | .error e => .error e
        | .ok (offset_and_size, st') =>
          writeElemsVar nested offsets row_idx offset start lnb esz rest (i + 1)
            ⟨patchBytes st'.buf (offset + start + 8 + lnb + i * esz).toNat
               (encodeILE offset_and_size 8), st'.cursors⟩) := rfl

theorem writeStructFields_nil (offsets : List Int) (row_idx : Nat)
    (offset start lnb : Int) (fvs : List Field) (i : Nat) (st : WState) :
    writeStructFields offsets row_idx offset start lnb [] fvs i st = .ok st := by
  cases fvs <;> rfl

theorem writeStructFields_cons_cons (offsets : List Int) (row_idx : Nat)
    (offset start lnb : Int) (ft : SparkDataType) (fts : List SparkDataType)
    (fv : Field) (fvs : List Field) (i : Nat) (st : WState) :
    writeStructFields offsets row_idx offset start lnb (ft :: fts) (fv :: fvs) i st =
      (if fv.isNull then
        writeStructFields offsets row_idx offset start lnb fts fvs (i + 1)
          ⟨bitSet st.buf (offset + start).toNat i, st.cursors⟩
      else if isFixedLengthDataType (removeNullable ft) then
        match FixedLengthDataWriter.write ft fv with
        | .error e => .error e
        | .ok bytes =>
          writeStructFields offsets row_idx offset start lnb fts fvs (i + 1)
            ⟨patchBytes st.buf (offset + start + lnb + i * 8).toNat bytes, st.cursors⟩
      else
        match VariableLengthDataWriter.writeW (removeNullable ft) offsets row_idx
            fv start st with
        | .error e => .error e
        | .ok (offset_and_size, st') =>
          writeStructFields offsets row_idx offset start lnb fts fvs (i + 1)
            ⟨patchBytes st'.buf (offset + start + lnb + 8 * i).toNat
               (encodeILE offset_and_size 8), st'.cursors⟩) := rfl

/-! ## More stripping helpers -/

theorem removeNullable_eq_self_of_fixed {t : SparkDataType}
    (h : isFixedLengthDataType t = true) : removeNullable t = t := by
  cases t <;> first | rfl | simp [isFixedLengthDataType] at h

theorem removeNullable_eq_self_of_var {t : SparkDataType}
    (h : isVariableLengthDataType t = true) : removeNullable t = t := by
  cases t <;> first | rfl | simp [isVariableLengthDataType] at h

theorem fixedOrVar_of_supportedNotNull {t : SparkDataType}
    (h : supportedTypeNotNull t = true) :
    (isFixedLengthDataType t || isVariableLengthDataType t) = true := by
  cases t <;>
    simp_all [supportedTypeNotNull, isFixedLengthDataType, isVariableLengthDataType]

theorem var_of_supportedNotNull_not_fixed {t : SparkDataType}
    (h : supportedTypeNotNull t = true) (hf : isFixedLengthDataType t = false) :
    isVariableLengthDataType t = true := by
  have := fixedOrVar_of_supportedNotNull h
  rw [hf] at this
  simpa using this

/-! ## Typed success of the fixed element path -/

theorem calculateList_fixed (nested : SparkDataType) (elems : List Field)
    (hf : isFixedLengthDataType (removeNullable nested) = true)
    (ht : hasTypeList elems nested = true) :
    calculateList nested elems = .ok 0 := by
  induction elems with
  | nil => rfl
  | cons f fs ih =>
    simp only [hasTypeList, Bool.and_eq_true] at ht
    have hss : removeNullable (removeNullable nested) = removeNullable nested := by
      rw [removeNullable_eq_self_of_fixed hf]
    have ht1 : hasType f (removeNullable nested) = true := by
      rw [hasType_removeNullable f hss]
      exact ht.1
    rw [calculateList_cons, calculateW_fixed_typed _ _ hf ht1, ih ht.2]
    rfl

theorem writeElemsFixed_typed (nested : SparkDataType) (elems : List Field)
    (hf : isFixedLengthDataType (removeNullable nested) = true)
    (ht : hasTypeList elems nested = true) :
    ∀ (offset start lnb esz : Int) (i : Nat) (buf : List Nat),
      ∃ buf', writeElemsFixed nested offset start lnb esz elems i buf = .ok buf' ∧
        buf'.length = buf.length := by
  induction elems with
  | nil => exact fun offset start lnb esz i buf => ⟨buf, rfl, rfl⟩
  | cons f fs ih =>
    intro offset start lnb esz i buf
    simp only [hasTypeList, Bool.and_eq_true] at ht
    rw [writeElemsFixed_cons]
    by_cases hnull : f.isNull
    · rw [if_pos hnull]
      obtain ⟨buf', h1, h2⟩ := ih ht.2 offset start lnb esz (i + 1)
        (bitSet buf (offset + start + 8).toNat i)
      exact ⟨buf', h1, by rw [h2, bitSet_length]⟩
    · rw [if_neg hnull]
      have hss : removeNullable (removeNullable nested) = removeNullable nested := by
        rw [removeNullable_eq_self_of_fixed hf]
      have ht1 : hasType f (removeNullable nested) = true := by
        rw [hasType_removeNullable f hss]
        exact ht.1
      obtain ⟨bytes, hb⟩ := fixedWriteW_ok_of_typed (removeNullable nested) f hf ht1
      rw [show FixedLengthDataWriter.write nested f =
            FixedLengthDataWriter.writeW (removeNullable nested) f from rfl, hb]
      obtain ⟨buf', h1, h2⟩ := ih ht.2 offset start lnb esz (i + 1)
        (patchBytes buf (offset + start + 8 + lnb + i * esz).toNat bytes)
      exact ⟨buf', h1, by rw [h2, patchBytes_length]⟩

/-! ## Typed success of the variable element loops -/

theorem isNull_eq_true_iff (f : Field) : f.isNull = true ↔ f = .null := by
  cases f <;> simp [Field.isNull]

theorem writeElemsVar_typed (nested : SparkDataType)
    (hvar : isVariableLengthDataType (removeNullable nested) = true) :
    ∀ (elems : List Field), (∀ f ∈ elems, ElemAgrees (removeNullable nested) f) →
    ∀ (offsets : List Int) (row : Nat) (offset start lnb esz : Int) (i : Nat)
      (st : WState),
      ∃ s st', calculateList nested elems = .ok s ∧ 0 ≤ s ∧
        writeElemsVar nested offsets row offset start lnb esz elems i st = .ok st' ∧
        st'.cursors = st.cursors.set row (st.cursors.getD row 0 + s) ∧
        st'.buf.length = st.buf.length := by
  intro elems
  induction elems with
  | nil =>
    intro _ offsets row offset start lnb esz i st
    refine ⟨0, st, rfl, le_refl 0, rfl, ?_, rfl⟩
    rw [add_zero, set_getD_cancel]
  | cons f fs ih =>
    intro IH offsets row offset start lnb esz i st
    by_cases hnull : f.isNull
    · have hfn : f = .null := (isNull_eq_true_iff f).mp hnull
      subst hfn
      obtain ⟨s, st', hcl, hs0, hw, hc, hl⟩ :=
        ih (fun g hg => IH g (List.mem_cons_of_mem _ hg)) offsets row offset start
          lnb esz (i + 1) ⟨bitSet st.buf (offset + start + 8).toNat i, st.cursors⟩
      refine ⟨0 + s, st', ?_, by omega, ?_, ?_, ?_⟩
      · rw [calculateList_cons,
          calculateW_null _ (by rw [hvar, Bool.or_true]), hcl]
      · rw [writeElemsVar_cons, if_pos (by rfl : Field.null.isNull = true), hw]
      · rw [hc]
        show st.cursors.set row (st.cursors.getD row 0 + s) = _
        rw [zero_add]
      · rw [hl, bitSet_length]
    · obtain ⟨n, res, buf', hcal, hn0, hw, hl⟩ := IH f (List.mem_cons_self f fs)
        offsets row start st
      obtain ⟨s, st', hcl, hs0, hw2, hc2, hl2⟩ :=
        ih (fun g hg => IH g (List.mem_cons_of_mem _ hg)) offsets row offset start
          lnb esz (i + 1)
          ⟨patchBytes buf' (offset + start + 8 + lnb + i * esz).toNat
             (encodeILE res 8),
           st.cursors.set row (st.cursors.getD row 0 + n)⟩
      refine ⟨n + s, st', ?_, by omega, ?_, ?_, ?_⟩
      · rw [calculateList_cons, hcal, hcl]
      · rw [writeElemsVar_cons, if_neg hnull, hw]
        exact hw2
      · rw [hc2]
        show (st.cursors.set row (st.cursors.getD row 0 + n)).set row
            ((st.cursors.set row (st.cursors.getD row 0 + n)).getD row 0 + s) = _
        rw [set_set_getD, add_assoc]
      · rw [hl2]
        show (patchBytes buf' _ _).length = _
        rw [patchBytes_length, hl]

theorem writeStructFields_typed :
    ∀ (fts : List SparkDataType) (fvs : List Field),
      (∀ f ∈ fvs, ∀ tw, supportedTypeNotNull tw = true → hasType f tw = true →
        isVariableLengthDataType tw = true → ElemAgrees tw f) →
      supportedTypeList fts = true → hasTypeTup fvs fts = true →
      fvs.length = fts.length →
    ∀ (offsets : List Int) (row : Nat) (offset start lnb : Int) (i : Nat)
      (st : WState),
      ∃ s st', calculateTupleFields fts fvs = .ok s ∧ 0 ≤ s ∧
        writeStructFields offsets row offset start lnb fts fvs i st = .ok st' ∧
        st'.cursors = st.cursors.set row (st.cursors.getD row 0 + s) ∧
        st'.buf.length = st.buf.length := by
  intro fts
  induction fts with
  | nil =>
    intro fvs _ _ _ hlen offsets row offset start lnb i st
    have : fvs = [] := List.length_eq_zero.mp (by simpa using hlen)
    subst this
    refine ⟨0, st, rfl, le_refl 0, rfl, ?_, rfl⟩
    rw [add_zero, set_getD_cancel]
  | cons ft fts' ih =>
    intro fvs IH hsupp ht hlen offsets row offset start lnb i st
    cases fvs with
    | nil => simp at hlen
    | cons fv fvs' =>
      have hsupp' : supportedType ft = true ∧ supportedTypeList fts' = true := by
        have : supportedTypeList (ft :: fts') =
            (supportedType ft && supportedTypeList fts') := rfl
        rw [this, Bool.and_eq_true] at hsupp
        exact hsupp
      have htn : supportedTypeNotNull (removeNullable ft) = true := by
        rw [← supportedType_eq_notNull]
        exact hsupp'.1
      have ht' : hasType fv ft = true ∧ hasTypeTup fvs' fts' = true := by
        have : hasTypeTup (fv :: fvs') (ft :: fts') =
            (hasType fv ft && hasTypeTup fvs' fts') := rfl
        rw [this, Bool.and_eq_true] at ht
        exact ht
      have hss : removeNullable (removeNullable ft) = removeNullable ft := by
        rw [removeNullable_of_notNull htn]
      have htfv : hasType fv (removeNullable ft) = true := by
        rw [hasType_removeNullable fv hss]
        exact ht'.1
      have hlen' : fvs'.length = fts'.length := by simpa using hlen
      by_cases hnull : fv.isNull
      · have hfn : fv = .null := (isNull_eq_true_iff fv).mp hnull
        subst hfn
        obtain ⟨s, st', hcl, hs0, hw, hc, hl⟩ :=
          ih fvs' (fun g hg => IH g (List.mem_cons_of_mem _ hg)) hsupp'.2 ht'.2 hlen'
            offsets row offset start lnb (i + 1)
            ⟨bitSet st.buf (offset + start).toNat i, st.cursors⟩
        refine ⟨0 + s, st', ?_, by omega, ?_, ?_, ?_⟩
        · rw [calculateTupleFields_cons_cons,
            calculateW_null _ (fixedOrVar_of_supportedNotNull htn), hcl]
        · rw [writeStructFields_cons_cons, if_pos (by rfl : Field.null.isNull = true), hw]
        · rw [hc]
          show st.cursors.set row (st.cursors.getD row 0 + s) = _
          rw [zero_add]
        · rw [hl, bitSet_length]
      · by_cases hfix : isFixedLengthDataType (removeNullable ft)
        · obtain ⟨bytes, hb⟩ := fixedWriteW_ok_of_typed (removeNullable ft) fv hfix htfv
          obtain ⟨s, st', hcl, hs0, hw, hc, hl⟩ :=
            ih fvs' (fun g hg => IH g (List.mem_cons_of_mem _ hg)) hsupp'.2 ht'.2 hlen'
              offsets row offset start lnb (i + 1)
              ⟨patchBytes st.buf (offset + start + lnb + i * 8).toNat bytes, st.cursors⟩
          refine ⟨0 + s, st', ?_, by omega, ?_, ?_, ?_⟩
          · rw [calculateTupleFields_cons_cons,
              calculateW_fixed_typed _ _ hfix htfv, hcl]
          · rw [writeStructFields_cons_cons, if_neg hnull, if_pos hfix,
              show FixedLengthDataWriter.write ft fv =
                FixedLengthDataWriter.writeW (removeNullable ft) fv from rfl, hb]
            exact hw
          · rw [hc]
            show st.cursors.set row (st.cursors.getD row 0 + s) = _
            rw [zero_add]
          · rw [hl, patchBytes_length]
        · have hvar : isVariableLengthDataType (removeNullable ft) = true :=
            var_of_supportedNotNull_not_fixed htn (by simpa using hfix)
          obtain ⟨n, res, buf', hcal, hn0, hwf, hlf⟩ :=
            IH fv (List.mem_cons_self fv fvs') (removeNullable ft) htn htfv hvar
              offsets row start st
          obtain ⟨s, st', hcl, hs0, hw2, hc2, hl2⟩ :=
            ih fvs' (fun g hg => IH g (List.mem_cons_of_mem _ hg)) hsupp'.2 ht'.2 hlen'
              offsets row offset start lnb (i + 1)
              ⟨patchBytes buf' (offset + start + lnb + 8 * i).toNat (encodeILE res 8),
               st.cursors.set row (st.cursors.getD row 0 + n)⟩
          refine ⟨n + s, st', ?_, by omega, ?_, ?_, ?_⟩
          · rw [calculateTupleFields_cons_cons, hcal, hcl]
          · rw [writeStructFields_cons_cons, if_neg hnull, if_neg (by simpa using hfix),
              hwf]
            exact hw2
          · rw [hc2]
            show (st.cursors.set row (st.cursors.getD row 0 + n)).set row
                ((st.cursors.set row (st.cursors.getD row 0 + n)).getD row 0 + s) = _
            rw [set_set_getD, add_assoc]
          · rw [hl2]
            show (patchBytes buf' _ _).length = _
            rw [patchBytes_length, hlf]

/-! ## The array write, fully expanded -/

theorem writeUnsafeArray_eq (nested : SparkDataType) (offsets : List Int) (row : Nat)
    (A : List Field) (p : Int) (st : WState) :
    writeUnsafeArray nested offsets row A p st =
      (if A.length = 0 then
        .ok (getOffsetAndSize (st.cursors.getD row 0 - p) 8,
          ⟨patchBytes st.buf (offsets.getD row 0 + st.cursors.getD row 0).toNat
             (encodeLE A.length 8),
           st.cursors.set row (st.cursors.getD row 0 + 8)⟩)
      else if isFixedLengthDataType (removeNullable nested) then
        match writeElemsFixed nested (offsets.getD row 0) (st.cursors.getD row 0)
            (calculateBitSetWidthInBytes A.length) (getArrayElementSize nested) A 0
            (patchBytes st.buf (offsets.getD row 0 + st.cursors.getD row 0).toNat
              (encodeLE A.length 8)) with
        | .error e => .error e
        | .ok buf2 =>
          .ok (getOffsetAndSize (st.cursors.getD row 0 - p)
                (st.cursors.getD row 0 + 8 + calculateBitSetWidthInBytes A.length +
                  roundNumberOfBytesToNearestWord (getArrayElementSize nested * A.length) -
                  st.cursors.getD row 0),
               ⟨buf2, st.cursors.set row (st.cursors.getD row 0 + 8 +
                  calculateBitSetWidthInBytes A.length +
                  roundNumberOfBytesToNearestWord
                    (getArrayElementSize nested * A.length))⟩)
      else if ¬isVariableLengthDataType (removeNullable nested) then .error .unknownType
      else
        match writeElemsVar nested offsets row (offsets.getD row 0)
            (st.cursors.getD row 0) (calculateBitSetWidthInBytes A.length)
            (getArrayElementSize nested) A 0
            ⟨patchBytes st.buf (offsets.getD row 0 + st.cursors.getD row 0).toNat
               (encodeLE A.length 8),
             st.cursors.set row (st.cursors.getD row 0 + 8 +
               calculateBitSetWidthInBytes A.length +
               roundNumberOfBytesToNearestWord
                 (getArrayElementSize nested * A.length))⟩ with
        | .error e => .error e
        | .ok st2 =>
          .ok (getOffsetAndSize (st.cursors.getD row 0 - p)
                (st2.cursors.getD row 0 - st.cursors.getD row 0), st2)) := rfl

theorem hasTypeList_mem {l : List Field} {t : SparkDataType} {f : Field}
    (h : hasTypeList l t = true) (hf : f ∈ l) : hasType f t = true := by
  induction l with
  | nil => cases hf
  | cons g gs ih =>
    have hg : hasTypeList (g :: gs) t = (hasType g t && hasTypeList gs t) := rfl
    rw [hg, Bool.and_eq_true] at h
    rcases List.mem_cons.mp hf with hf | hf
    · subst hf
      exact h.1
    · exact ih h.2 hf

theorem arrayHeaderLength_eq (t : SparkDataType) (n : Int) :
    arrayHeaderLength t n = 8 + calculateBitSetWidthInBytes n +
      roundNumberOfBytesToNearestWord (getArrayElementSize t * n) := rfl

theorem writeUnsafeArray_typed (nested : SparkDataType) (elems : List Field)
    (hsupp : supportedType nested = true) (ht : hasTypeList elems nested = true)
    (IH : ∀ f ∈ elems, ∀ tw, supportedTypeNotNull tw = true → hasType f tw = true →
      isVariableLengthDataType tw = true → ElemAgrees tw f) :
    ∀ (offsets : List Int) (row : Nat) (parent : Int) (st : WState),
      ∃ s res st', calculateList nested elems = .ok s ∧ 0 ≤ s ∧
        writeUnsafeArray nested offsets row elems parent st = .ok (res, st') ∧
        st'.cursors = st.cursors.set row
          (st.cursors.getD row 0 + (arrayHeaderLength nested elems.length + s)) ∧
        st'.buf.length = st.buf.length := by
  intro offsets row parent st
  have htn : supportedTypeNotNull (removeNullable nested) = true := by
    rw [← supportedType_eq_notNull]
    exact hsupp
  have hss : removeNullable (removeNullable nested) = removeNullable nested := by
    rw [removeNullable_of_notNull htn]
  by_cases hz : elems.length = 0
  · have he : elems = [] := List.length_eq_zero.mp hz
    subst he
    refine ⟨0, getOffsetAndSize (st.cursors.getD row 0 - parent) 8,
      ⟨patchBytes st.buf (offsets.getD row 0 + st.cursors.getD row 0).toNat
         (encodeLE ([] : List Field).length 8),
       st.cursors.set row (st.cursors.getD row 0 + 8)⟩, rfl, le_refl 0, ?_, ?_, ?_⟩
    · rfl
    · show st.cursors.set row (st.cursors.getD row 0 + 8) = _
      have h8 : arrayHeaderLength nested ((([] : List Field).length : Nat) : Int) + 0 = 8 := by
        show arrayHeaderLength nested ((0 : Nat) : Int) + 0 = 8
        rw [Nat.cast_zero, arrayHeaderLength_zero, add_zero]
      rw [h8]
    · show (patchBytes st.buf _ _).length = _
      rw [patchBytes_length]
  · by_cases hfix : isFixedLengthDataType (removeNullable nested)
    · obtain ⟨buf2, hwf, hlen2⟩ := writeElemsFixed_typed nested elems hfix ht
        (offsets.getD row 0) (st.cursors.getD row 0)
        (calculateBitSetWidthInBytes elems.length) (getArrayElementSize nested) 0
        (patchBytes st.buf (offsets.getD row 0 + st.cursors.getD row 0).toNat
          (encodeLE elems.length 8))
      refine ⟨0,
        getOffsetAndSize (st.cursors.getD row 0 - parent)
          (st.cursors.getD row 0 + 8 + calculateBitSetWidthInBytes elems.length +
            roundNumberOfBytesToNearestWord (getArrayElementSize nested * elems.length) -
            st.cursors.getD row 0),
        ⟨buf2, st.cursors.set row (st.cursors.getD row 0 + 8 +
          calculateBitSetWidthInBytes elems.length +
          roundNumberOfBytesToNearestWord (getArrayElementSize nested * elems.length))⟩,
        calculateList_fixed nested elems hfix ht, le_refl 0, ?_, ?_, ?_⟩
      · rw [writeUnsafeArray_eq, if_neg hz, if_pos hfix, hwf]
      · show st.cursors.set row (st.cursors.getD row 0 + 8 +
            calculateBitSetWidthInBytes elems.length +
            roundNumberOfBytesToNearestWord (getArrayElementSize nested * elems.length)) = _
        rw [arrayHeaderLength_eq]
        congr 1
        ring
      · show buf2.length = _
        rw [hlen2, patchBytes_length]
    · have hvar : isVariableLengthDataType (removeNullable nested) = true :=
        var_of_supportedNotNull_not_fixed htn (by simpa using hfix)
      obtain ⟨s, st2, hcl, hs0, hw2, hc2, hl2⟩ :=
        writeElemsVar_typed nested hvar elems
          (fun f hf => by
            have htf : hasType f (removeNullable nested) = true := by
              rw [hasType_removeNullable f hss]
              exact hasTypeList_mem ht hf
            exact IH f hf (removeNullable nested) htn htf hvar)
          offsets row (offsets.getD row 0) (st.cursors.getD row 0)
          (calculateBitSetWidthInBytes elems.length) (getArrayElementSize nested) 0
          ⟨patchBytes st.buf (offsets.getD row 0 + st.cursors.getD row 0).toNat
             (encodeLE elems.length 8),
           st.cursors.set row (st.cursors.getD row 0 + 8 +
             calculateBitSetWidthInBytes elems.length +
             roundNumberOfBytesToNearestWord (getArrayElementSize nested * elems.length))⟩
      refine ⟨s, getOffsetAndSize (st.cursors.getD row 0 - parent)
          (st2.cursors.getD row 0 - st.cursors.getD row 0), st2, hcl, hs0, ?_, ?_, ?_⟩
      · rw [writeUnsafeArray_eq, if_neg hz, if_neg (by simpa using hfix),
          if_neg (by simp [hvar]), hw2]
      · rw [hc2]
        show (st.cursors.set row _).set row _ = _
        rw [set_set_getD, arrayHeaderLength_eq]
        congr 1
        ring
      · rw [hl2]
        show (patchBytes st.buf _ _).length = _
        rw [patchBytes_length]

/-! ## Expanded write equations and success-composition helpers -/

theorem writeUnalignedBytes_eq (offsets : List Int) (row : Nat) (src : List Nat)
    (p : Int) (st : WState) :
    writeUnalignedBytes offsets row src p st =
      (getOffsetAndSize (st.cursors.getD row 0 - p) src.length,
       ⟨patchBytes st.buf (offsets.getD row 0 + st.cursors.getD row 0).toNat src,
        st.cursors.set row (st.cursors.getD row 0 +
          roundNumberOfBytesToNearestWord src.length)⟩) := rfl

theorem writeW_map_eq (kt vt : SparkDataType) (offsets : List Int) (row : Nat)
    (ks vs : List Field) (p : Int) (st : WState) :
    VariableLengthDataWriter.writeW (.map kt vt) offsets row (.map ks vs) p st =
      (match writeUnsafeArray kt offsets row ks (st.cursors.getD row 0 + 8)
          ⟨st.buf, st.cursors.set row (st.cursors.getD row 0 + 8)⟩ with
       | .error e => .error e
       | .ok (key_oas, stK) =>
         match writeUnsafeArray vt offsets row vs
             (st.cursors.getD row 0 + 8 + extractSize key_oas)
             ⟨patchBytes stK.buf (offsets.getD row 0 + st.cursors.getD row 0).toNat
                (encodeILE (extractSize key_oas) 8), stK.cursors⟩ with
         | .error e => .error e
         | .ok (_, stV) =>
           .ok (getOffsetAndSize (st.cursors.getD row 0 - p)
                 (stV.cursors.getD row 0 - st.cursors.getD row 0), stV)) := rfl

theorem writeW_tup_eq (ts : List SparkDataType) (offsets : List Int) (row : Nat)
    (fs : List Field) (p : Int) (st : WState) :
    VariableLengthDataWriter.writeW (.tuple ts) offsets row (.tup fs) p st =
      (if ts.length = 0 then
        .ok (getOffsetAndSize (st.cursors.getD row 0 - p) 0, st)
      else
        match writeStructFields offsets row (offsets.getD row 0) (st.cursors.getD row 0)
            (calculateBitSetWidthInBytes ts.length) ts fs 0
            ⟨st.buf, st.cursors.set row (st.cursors.getD row 0 +
               calculateBitSetWidthInBytes ts.length + (ts.length : Int) * 8)⟩ with
        | .error e => .error e
        | .ok st2 =>
          .ok (getOffsetAndSize (st.cursors.getD row 0 - p)
                (st2.cursors.getD row 0 - st.cursors.getD row 0), st2)) := rfl

theorem calculateW_arr_ok (nested : SparkDataType) (elems : List Field) (s : Int)
    (h1 : calculatorCtorOk nested = true) (hK : calculateList nested elems = .ok s) :
    calculateW (.array nested) (.arr elems) =
      .ok (arrayHeaderLength nested elems.length + s) := by
  rw [calculateW_arr, if_neg (not_not_intro h1), hK]

theorem calculateW_map_ok (kt vt : SparkDataType) (ks vs : List Field) (sK sV : Int)
    (h1 : calculatorCtorOk kt = true) (h2 : calculatorCtorOk vt = true)
    (hK : calculateList kt ks = .ok sK) (hV : calculateList vt vs = .ok sV) :
    calculateW (.map kt vt) (.map ks vs) =
      .ok (8 + (arrayHeaderLength kt ks.length + sK)
             + (arrayHeaderLength vt vs.length + sV)) := by
  rw [calculateW_map, if_neg (not_not_intro h1), hK]
  show (if ¬calculatorCtorOk vt then Except.error CError.unknownType
        else match calculateList vt vs with
             | .error e => Except.error e
             | .ok s_val => .ok (8 + (arrayHeaderLength kt ks.length + sK)
                  + (arrayHeaderLength vt vs.length + s_val))) = _
  rw [if_neg (not_not_intro h2), hV]

theorem calculateW_tup_ok (ts : List SparkDataType) (fs : List Field) (s : Int)
    (h : calculateTupleFields ts fs = .ok s) :
    calculateW (.tuple ts) (.tup fs) =
      .ok (calculateBitSetWidthInBytes ts.length + 8 * ts.length + s) := by
  rw [calculateW_tup, h]

theorem writeW_map_ok (kt vt : SparkDataType) (offsets : List Int) (row : Nat)
    (ks vs : List Field) (p : Int) (st : WState)
    (key_oas : Int) (stK : WState) (voas : Int) (stV : WState)
    (h1 : writeUnsafeArray kt offsets row ks (st.cursors.getD row 0 + 8)
        ⟨st.buf, st.cursors.set row (st.cursors.getD row 0 + 8)⟩ = .ok (key_oas, stK))
    (h2 : writeUnsafeArray vt offsets row vs
        (st.cursors.getD row 0 + 8 + extractSize key_oas)
        ⟨patchBytes stK.buf (offsets.getD row 0 + st.cursors.getD row 0).toNat
           (encodeILE (extractSize key_oas) 8), stK.cursors⟩ = .ok (voas, stV)) :
    VariableLengthDataWriter.writeW (.map kt vt) offsets row (.map ks vs) p st =
      .ok (getOffsetAndSize (st.cursors.getD row 0 - p)
            (stV.cursors.getD row 0 - st.cursors.getD row 0), stV) := by
  rw [writeW_map_eq, h1]
  show (match writeUnsafeArray vt offsets row vs
          (st.cursors.getD row 0 + 8 + extractSize key_oas)
          ⟨patchBytes stK.buf (offsets.getD row 0 + st.cursors.getD row 0).toNat
             (encodeILE (extractSize key_oas) 8), stK.cursors⟩ with
        | .error e => Except.error e
        | .ok (_, stV') =>
          .ok (getOffsetAndSize (st.cursors.getD row 0 - p)
                (stV'.cursors.getD row 0 - st.cursors.getD row 0), stV')) = _
  rw [h2]

theorem writeW_tup_ok (ts : List SparkDataType) (offsets : List Int) (row : Nat)
    (fs : List Field) (p : Int) (st : WState) (st2 : WState)
    (hz : ¬ts.length = 0)
    (h1 : writeStructFields offsets row (offsets.getD row 0) (st.cursors.getD row 0)
        (calculateBitSetWidthInBytes ts.length) ts fs 0
        ⟨st.buf, st.cursors.set row (st.cursors.getD row 0 +
           calculateBitSetWidthInBytes ts.length + (ts.length : Int) * 8)⟩ = .ok st2) :
    VariableLengthDataWriter.writeW (.tuple ts) offsets row (.tup fs) p st =
      .ok (getOffsetAndSize (st.cursors.getD row 0 - p)
            (st2.cursors.getD row 0 - st.cursors.getD row 0), st2) := by
  rw [writeW_tup_eq, if_neg hz, h1]

/-! ## The main agreement theorem: on well-typed data of supported
variable-length type, the length calculator predicts exactly the cursor
advance of the variable-length writer, the write succeeds, and the buffer
size is preserved. -/

theorem elemAgrees_of_typed : ∀ (N : Nat) (f : Field), Field.sz f ≤ N →
    ∀ (tw : SparkDataType), supportedTypeNotNull tw = true → hasType f tw = true →
      isVariableLengthDataType tw = true → ElemAgrees tw f := by
  intro N
  induction N with
  | zero =>
    intro f hsz
    exact absurd (Field.sz_pos f) (by omega)
  | succ N ihN =>
    intro f hsz tw hsupp ht hvar offsets row parent st
    cases f with
    | null =>
      refine ⟨0, 0, st.buf, calculateW_null tw (by rw [hvar, Bool.or_true]),
        le_refl 0, ?_, rfl⟩
      have hst : (⟨st.buf, st.cursors.set row (st.cursors.getD row 0 + 0)⟩ : WState)
          = st := by
        rw [add_zero, set_getD_cancel]
      rw [writeW_null tw offsets row parent st hvar, hst]
    | int v =>
      cases tw <;> first | exact Bool.noConfusion hvar | exact Bool.noConfusion ht
    | str bytes =>
      cases tw <;> try (first | exact Bool.noConfusion hvar | exact Bool.noConfusion ht)
      case string =>
        refine ⟨roundNumberOfBytesToNearestWord bytes.length,
          getOffsetAndSize (st.cursors.getD row 0 - parent) bytes.length,
          patchBytes st.buf (offsets.getD row 0 + st.cursors.getD row 0).toNat bytes,
          calculateW_str bytes, roundNumberOfBytesToNearestWord_natCast_nonneg bytes.length,
          ?_, patchBytes_length _ _ _⟩
        rw [writeW_str, writeUnalignedBytes_eq]
      case fixedString =>
        refine ⟨roundNumberOfBytesToNearestWord bytes.length,
          getOffsetAndSize (st.cursors.getD row 0 - parent) bytes.length,
          patchBytes st.buf (offsets.getD row 0 + st.cursors.getD row 0).toNat bytes,
          calculateW_fixedString_str bytes,
          roundNumberOfBytesToNearestWord_natCast_nonneg bytes.length,
          ?_, patchBytes_length _ _ _⟩
        rw [writeW_fixedString_str, writeUnalignedBytes_eq]
    | dec128 v =>
      cases tw <;> try (first | exact Bool.noConfusion hvar | exact Bool.noConfusion ht)
      case decimal128 =>
        have hsl : (swapDecimalEndianBytes (encodeILE v 16)).length = 16 :=
          swapDecimalEndianBytes_length_16 _ (encodeILE_length v 16)
        have hr : roundNumberOfBytesToNearestWord
            ((swapDecimalEndianBytes (encodeILE v 16)).length : Int) = 16 := by
          rw [hsl]
          decide
        refine ⟨16, getOffsetAndSize (st.cursors.getD row 0 - parent)
            ((swapDecimalEndianBytes (encodeILE v 16)).length : Int),
          patchBytes st.buf (offsets.getD row 0 + st.cursors.getD row 0).toNat
            (swapDecimalEndianBytes (encodeILE v 16)),
          calculateW_dec128 v, by norm_num, ?_, patchBytes_length _ _ _⟩
        rw [writeW_dec128, writeUnalignedBytes_eq, hr]
    | arr elems =>
      cases tw <;> try (first | exact Bool.noConfusion hvar | exact Bool.noConfusion ht)
      case array nested =>
        have htl : hasTypeList elems nested = true := ht
        have hsn : supportedType nested = true := hsupp
        have hszl : Field.szList elems ≤ N := by
          have hse : Field.sz (.arr elems) = 1 + Field.szList elems := rfl
          omega
        obtain ⟨s, res, st', hcl, hs0, hw, hc, hl⟩ :=
          writeUnsafeArray_typed nested elems hsn htl
            (fun f hf tw' h1 h2 h3 =>
              ihN f (by have := Field.sz_lt_szList_of_mem hf; omega) tw' h1 h2 h3)
            offsets row parent st
        refine ⟨arrayHeaderLength nested elems.length + s, res, st'.buf,
          calculateW_arr_ok nested elems s (calculatorCtorOk_of_supported hsn) hcl,
          ?_, ?_, hl⟩
        · have h1 := @arrayHeaderLength_nonneg nested (elems.length : Int) (by positivity)
          omega
        · rw [writeW_arr, hw]
          have hst' : st' = (⟨st'.buf, st.cursors.set row (st.cursors.getD row 0 +
              (arrayHeaderLength nested elems.length + s))⟩ : WState) := by
            rw [← hc]
          rw [← hst']
    | map ks vs =>
      cases tw <;> try (first | exact Bool.noConfusion hvar | exact Bool.noConfusion ht)
      case map kt vt =>
        have htm : (ks.length == vs.length && hasTypeList ks kt
            && hasTypeList vs vt) = true := ht
        rw [Bool.and_eq_true, Bool.and_eq_true] at htm
        have hsm : (supportedType kt && supportedType vt) = true := hsupp
        rw [Bool.and_eq_true] at hsm
        have hszkv : Field.szList ks ≤ N ∧ Field.szList vs ≤ N := by
          have hse : Field.sz (.map ks vs)
              = 1 + Field.szList ks + Field.szList vs := rfl
          omega
        obtain ⟨sK, resK, stK, hclK, hsK0, hwK, hcK, hlK⟩ :=
          writeUnsafeArray_typed kt ks hsm.1 htm.1.2
            (fun f hf tw' h1 h2 h3 =>
              ihN f (by have h4 := Field.sz_lt_szList_of_mem hf; omega) tw' h1 h2 h3)
            offsets row (st.cursors.getD row 0 + 8)
            ⟨st.buf, st.cursors.set row (st.cursors.getD row 0 + 8)⟩
        obtain ⟨sV, resV, stV, hclV, hsV0, hwV, hcV, hlV⟩ :=
          writeUnsafeArray_typed vt vs hsm.2 htm.2
            (fun f hf tw' h1 h2 h3 =>
              ihN f (by have h4 := Field.sz_lt_szList_of_mem hf; omega) tw' h1 h2 h3)
            offsets row (st.cursors.getD row 0 + 8 + extractSize resK)
            ⟨patchBytes stK.buf (offsets.getD row 0 + st.cursors.getD row 0).toNat
               (encodeILE (extractSize resK) 8), stK.cursors⟩
        have hcK' : stK.cursors = (st.cursors.set row (st.cursors.getD row 0 + 8)).set row
            ((st.cursors.set row (st.cursors.getD row 0 + 8)).getD row 0 +
              (arrayHeaderLength kt ks.length + sK)) := hcK
        have hlK' : stK.buf.length = st.buf.length := hlK
        have hcV' : stV.cursors = stK.cursors.set row (stK.cursors.getD row 0 +
            (arrayHeaderLength vt vs.length + sV)) := hcV
        have hlV' : stV.buf.length = (patchBytes stK.buf
            (offsets.getD row 0 + st.cursors.getD row 0).toNat
            (encodeILE (extractSize resK) 8)).length := hlV
        have hcur : stV.cursors = st.cursors.set row (st.cursors.getD row 0 +
            (8 + (arrayHeaderLength kt ks.length + sK)
               + (arrayHeaderLength vt vs.length + sV))) := by
          rw [hcV', hcK', set_set_getD, add_assoc, set_set_getD]
          congr 1
          ring
        refine ⟨8 + (arrayHeaderLength kt ks.length + sK)
            + (arrayHeaderLength vt vs.length + sV),
          getOffsetAndSize (st.cursors.getD row 0 - parent)
            (stV.cursors.getD row 0 - st.cursors.getD row 0),
          stV.buf,
          calculateW_map_ok kt vt ks vs sK sV (calculatorCtorOk_of_supported hsm.1)
            (calculatorCtorOk_of_supported hsm.2) hclK hclV, ?_, ?_, ?_⟩
        · have h1 := @arrayHeaderLength_nonneg kt (ks.length : Int) (by positivity)
          have h2 := @arrayHeaderLength_nonneg vt (vs.length : Int) (by positivity)
          omega
        · have hstV : stV = (⟨stV.buf, st.cursors.set row (st.cursors.getD row 0 +
              (8 + (arrayHeaderLength kt ks.length + sK)
                 + (arrayHeaderLength vt vs.length + sV)))⟩ : WState) := by
            rw [← hcur]
          rw [writeW_map_ok kt vt offsets row ks vs parent st resK stK resV stV hwK hwV,
            ← hstV]
        · rw [hlV', patchBytes_length]
          exact hlK'
    | tup fs =>
      cases tw <;> try (first | exact Bool.noConfusion hvar | exact Bool.noConfusion ht)
      case tuple ts =>
        have htt : (fs.length == ts.length && hasTypeTup fs ts) = true := ht
        rw [Bool.and_eq_true] at htt
        have hlenEq : fs.length = ts.length := by simpa using htt.1
        have hstl : supportedTypeList ts = true := hsupp
        by_cases hts : ts.length = 0
        · have hts' : ts = [] := List.length_eq_zero.mp hts
          have hfs' : fs = [] := List.length_eq_zero.mp (by omega)
          subst hts' hfs'
          refine ⟨0, getOffsetAndSize (st.cursors.getD row 0 - parent) 0, st.buf,
            rfl, le_refl 0, ?_, rfl⟩
          have hst : (⟨st.buf, st.cursors.set row (st.cursors.getD row 0 + 0)⟩ : WState)
              = st := by
            rw [add_zero, set_getD_cancel]
          rw [writeW_tup_eq,
            if_pos (show ([] : List SparkDataType).length = 0 from rfl), hst]
        · have hszf : Field.szList fs ≤ N := by
            have hse : Field.sz (.tup fs) = 1 + Field.szList fs := rfl
            omega
          obtain ⟨s, st2, hcl, hs0, hw, hc, hl⟩ :=
            writeStructFields_typed ts fs
              (fun f hf tw' h1 h2 h3 =>
                ihN f (by have h4 := Field.sz_lt_szList_of_mem hf; omega) tw' h1 h2 h3)
              hstl htt.2 hlenEq offsets row (offsets.getD row 0) (st.cursors.getD row 0)
              (calculateBitSetWidthInBytes ts.length) 0
              ⟨st.buf, st.cursors.set row (st.cursors.getD row 0 +
                 calculateBitSetWidthInBytes ts.length + (ts.length : Int) * 8)⟩
          have hc' : st2.cursors = (st.cursors.set row (st.cursors.getD row 0 +
              calculateBitSetWidthInBytes ts.length + (ts.length : Int) * 8)).set row
              ((st.cursors.set row (st.cursors.getD row 0 +
                calculateBitSetWidthInBytes ts.length + (ts.length : Int) * 8)).getD row 0
                + s) := hc
          have hl' : st2.buf.length = st.buf.length := hl
          have hcur : st2.cursors = st.cursors.set row (st.cursors.getD row 0 +
              (calculateBitSetWidthInBytes ts.length + 8 * (ts.length : Int) + s)) := by
            rw [hc', set_set_getD]
            congr 1
            ring
          refine ⟨calculateBitSetWidthInBytes ts.length + 8 * ts.length + s,
            getOffsetAndSize (st.cursors.getD row 0 - parent)
              (st2.cursors.getD row 0 - st.cursors.getD row 0),
            st2.buf, calculateW_tup_ok ts fs s hcl, ?_, ?_, hl'⟩
          · have h1 := @calculateBitSetWidthInBytes_nonneg (ts.length : Int) (by positivity)
            have h2 : (0 : Int) ≤ 8 * ts.length := by positivity
            omega
          · have hst2 : st2 = (⟨st2.buf, st.cursors.set row (st.cursors.getD row 0 +
                (calculateBitSetWidthInBytes ts.length + 8 * (ts.length : Int) + s))⟩
                : WState) := by
              rw [← hcur]
            rw [writeW_tup_ok ts offsets row fs parent st st2 hts hw, ← hst2]

/-! ## Lifting the agreement to the per-column loops -/

theorem swapDecimalEndianBytes_length (bs : List Nat) :
    (swapDecimalEndianBytes bs).length = bs.length := by
  simp [swapDecimalEndianBytes]
  omega

theorem var_eq_false_of_fixed {t : SparkDataType}
    (h : isFixedLengthDataType t = true) : isVariableLengthDataType t = false := by
  cases t <;> first | rfl | exact Bool.noConfusion h

theorem hasType_getD {l : List Field} {t : SparkDataType}
    (h : hasTypeList l t = true) (j : Nat) : hasType (l.getD j .null) t = true := by
  by_cases hj : j < l.length
  · exact hasTypeList_mem h (by rw [List.getD_eq_getElem l .null hj]; exact List.getElem_mem hj)
  · rw [List.getD_eq_default l .null (Nat.le_of_not_lt hj)]
    rfl

/-- A buffer-valued row loop whose body preserves the buffer length (pure). -/
theorem bufLoopP (w : Nat → List Nat → List Nat)
    (hrel : ∀ i b, (w i b).length = b.length) :
    ∀ (l : List Nat) (b : List Nat),
      (l.foldl (fun b i => w i b) b).length = b.length := by
  intro l
  induction l with
  | nil => exact fun b => rfl
  | cons a l ih =>
    intro b
    rw [List.foldl_cons, ih, hrel]

/-- A buffer-valued row loop whose body succeeds and preserves the buffer
length (throwing). -/
theorem bufLoopE (w : Nat → List Nat → Except CError (List Nat))
    (hrel : ∀ i b, ∃ b', w i b = .ok b' ∧ b'.length = b.length) :
    ∀ (l : List Nat) (b : List Nat),
      ∃ b', l.foldlM (fun b i => w i b) b = .ok b' ∧ b'.length = b.length := by
  intro l
  induction l with
  | nil => exact fun b => ⟨b, rfl, rfl⟩
  | cons a l ih =>
    intro b
    obtain ⟨b1, hw1, hl1⟩ := hrel a b
    obtain ⟨b', hw', hl'⟩ := ih b1
    refine ⟨b', ?_, hl'.trans hl1⟩
    rw [List.foldlM_cons, hw1]
    exact hw'

/-- A pure writer loop against a pure lengths loop: if the bodies agree
pointwise (writer's cursor update = lengths update; buffer length preserved)
then the whole loops agree. -/
theorem pairLoopP (g : Nat → List Int → List Int) (w : Nat → WState → WState)
    (hrel : ∀ i st, (w i st).cursors = g i st.cursors ∧
        (w i st).buf.length = st.buf.length) :
    ∀ (l : List Nat) (st : WState),
      (l.foldl (fun st i => w i st) st).cursors =
        l.foldl (fun lengths i => g i lengths) st.cursors ∧
      (l.foldl (fun st i => w i st) st).buf.length = st.buf.length := by
  intro l
  induction l with
  | nil => exact fun st => ⟨rfl, rfl⟩
  | cons a l ih =>
    intro st
    rw [List.foldl_cons, List.foldl_cons]
    obtain ⟨h1, h2⟩ := ih (w a st)
    exact ⟨by rw [h1, (hrel a st).1], by rw [h2, (hrel a st).2]⟩

/-- A throwing writer loop against a throwing lengths loop: if the bodies
agree pointwise then both loops succeed and agree. -/
theorem pairLoopEE (g : Nat → List Int → Except CError (List Int))
    (w : Nat → WState → Except CError WState)
    (hrel : ∀ i st, ∃ st' lengths', w i st = .ok st' ∧ g i st.cursors = .ok lengths' ∧
        st'.cursors = lengths' ∧ st'.buf.length = st.buf.length) :
    ∀ (l : List Nat) (st : WState),
      ∃ st' lengths', l.foldlM (fun st i => w i st) st = .ok st' ∧
        l.foldlM (fun lengths i => g i lengths) st.cursors = .ok lengths' ∧
        st'.cursors = lengths' ∧ st'.buf.length = st.buf.length := by
  intro l
  induction l with
  | nil => exact fun st => ⟨st, st.cursors, rfl, rfl, rfl, rfl⟩
  | cons a l ih =>
    intro st
    obtain ⟨st1, lengths1, hw1, hg1, hc1, hl1⟩ := hrel a st
    obtain ⟨st', lengths', hw', hg', hc', hl'⟩ := ih st1
    refine ⟨st', lengths', ?_, ?_, hc', hl'.trans hl1⟩
    · rw [List.foldlM_cons, hw1]
      exact hw'
    · rw [List.foldlM_cons, hg1]
      rw [hc1] at hg'
      exact hg'

theorem columnLengths_notVar (col : SparkColumn) (num_rows : Nat)
    (masks : Option (List Nat)) (lengths : List Int)
    (h : isVariableLengthDataType (removeNullable col.type) = false) :
    columnLengths col num_rows masks lengths = .ok lengths := by
  dsimp only [columnLengths]
  rw [if_neg (by simp [h])]

theorem writeFixedNonNull_ok (field_offset : Int) (col : SparkColumn)
    (num_rows : Nat) (offsets : List Int) (masks : Option (List Nat))
    (buf : List Nat)
    (hfix : isFixedLengthDataType (removeNullable col.type) = true)
    (hgetD : ∀ j, hasType (col.values.getD j .null)
      (removeNullable col.type) = true) :
    ∃ buf', writeFixedLengthNonNullableValue field_offset col num_rows offsets
        masks buf = .ok buf' ∧ buf'.length = buf.length := by
  dsimp only [writeFixedLengthNonNullableValue]
  by_cases hd : isDecimal32 (removeNullable col.type)
  · rw [if_pos hd]
    dsimp only [rowLoopE]
    exact bufLoopE
      (fun i b =>
        match FixedLengthDataWriter.write col.type
            (col.values.getD (rowIdxOf masks i) .null) with
        | .error e => .error e
        | .ok bytes =>
          .ok (patchBytes b (offsets.getD i 0 + field_offset).toNat bytes))
      (fun i b => by
        dsimp only
        obtain ⟨bytes, hb⟩ := fixedWriteW_ok_of_typed (removeNullable col.type) _
          hfix (hgetD (rowIdxOf masks i))
        refine ⟨patchBytes b (offsets.getD i 0 + field_offset).toNat bytes, ?_,
          patchBytes_length _ _ _⟩
        rw [show FixedLengthDataWriter.write col.type
            (col.values.getD (rowIdxOf masks i) .null) =
          FixedLengthDataWriter.writeW (removeNullable col.type)
            (col.values.getD (rowIdxOf masks i) .null) from rfl, hb])
      (List.range num_rows) buf
  · rw [if_neg hd]
    refine ⟨_, rfl, ?_⟩
    dsimp only [rowLoop]
    exact bufLoopP
      (fun i b => patchBytes b (offsets.getD i 0 + field_offset).toNat
        (getDataAt col.type (col.values.getD (rowIdxOf masks i) .null)))
      (fun i b => patchBytes_length _ _ _)
      (List.range num_rows) buf

theorem writeFixedNull_ok (field_offset : Int) (col : SparkColumn)
    (col_index : Nat) (num_rows : Nat) (offsets : List Int)
    (masks : Option (List Nat)) (buf : List Nat)
    (hfix : isFixedLengthDataType (removeNullable col.type) = true)
    (hgetD : ∀ j, hasType (col.values.getD j .null)
      (removeNullable col.type) = true) :
    ∃ buf', writeFixedLengthNullableValue field_offset col col_index num_rows
        offsets masks buf = .ok buf' ∧ buf'.length = buf.length := by
  dsimp only [writeFixedLengthNullableValue]
  by_cases hd : isDecimal32 (removeNullable col.type)
  · rw [if_pos hd]
    dsimp only [rowLoopE]
    exact bufLoopE
      (fun i b =>
        if (col.values.getD (rowIdxOf masks i) .null).isNull then
          .ok (bitSet b (offsets.getD i 0).toNat col_index)
        else
          match FixedLengthDataWriter.write col.type
              (col.values.getD (rowIdxOf masks i) .null) with
          | .error e => .error e
          | .ok bytes =>
            .ok (patchBytes b (offsets.getD i 0 + field_offset).toNat bytes))
      (fun i b => by
        dsimp only
        by_cases hn : (col.values.getD (rowIdxOf masks i) .null).isNull
        · refine ⟨bitSet b (offsets.getD i 0).toNat col_index, ?_, bitSet_length _ _ _⟩
          rw [if_pos hn]
        · obtain ⟨bytes, hb⟩ := fixedWriteW_ok_of_typed (removeNullable col.type) _
            hfix (hgetD (rowIdxOf masks i))
          refine ⟨patchBytes b (offsets.getD i 0 + field_offset).toNat bytes, ?_,
            patchBytes_length _ _ _⟩
          rw [if_neg hn, show FixedLengthDataWriter.write col.type
              (col.values.getD (rowIdxOf masks i) .null) =
            FixedLengthDataWriter.writeW (removeNullable col.type)
              (col.values.getD (rowIdxOf masks i) .null) from rfl, hb])
      (List.range num_rows) buf
  · rw [if_neg hd]
    refine ⟨_, rfl, ?_⟩
    dsimp only [rowLoop]
    exact bufLoopP
      (fun i b =>
        if (col.values.getD (rowIdxOf masks i) .null).isNull then
          bitSet b (offsets.getD i 0).toNat col_index
        else patchBytes b (offsets.getD i 0 + field_offset).toNat
          (getDataAt col.type (col.values.getD (rowIdxOf masks i) .null)))
      (fun i b => by
        dsimp only
        by_cases hn : (col.values.getD (rowIdxOf masks i) .null).isNull
        · rw [if_pos hn, bitSet_length]
        · rw [if_neg hn, patchBytes_length])
      (List.range num_rows) buf

theorem writeVariableNonNull_agree (field_offset : Int) (col : SparkColumn)
    (num_rows : Nat) (offsets : List Int) (masks : Option (List Nat)) (st : WState)
    (hts : supportedTypeNotNull (removeNullable col.type) = true)
    (hvar : isVariableLengthDataType (removeNullable col.type) = true)
    (hnul : col.isNullable = false)
    (hgetD : ∀ j, hasType (col.values.getD j .null)
      (removeNullable col.type) = true) :
    ∃ st' lengths',
      writeVariableLengthNonNullableValue field_offset col num_rows offsets masks st
        = .ok st' ∧
      columnLengths col num_rows masks st.cursors = .ok lengths' ∧
      st'.cursors = lengths' ∧ st'.buf.length = st.buf.length := by
  have hss : removeNullable (removeNullable col.type) = removeNullable col.type := by
    rw [removeNullable_of_notNull hts]
  by_cases hraw : isDataTypeSupportRawData (removeNullable col.type)
  · by_cases hbe : isBigEndianInSparkRow (removeNullable col.type)
    · obtain ⟨hc, hl⟩ := pairLoopP
        (fun i lengths => lengths.set i (lengths.getD i 0 +
          roundNumberOfBytesToNearestWord
            (getDataAt col.type (col.values.getD (rowIdxOf masks i) .null)).length))
        (fun i st =>
          (⟨patchBytes (writeUnalignedBytes offsets i
               (swapDecimalEndianBytes (getDataAt col.type
                 (col.values.getD (rowIdxOf masks i) .null))) 0 st).2.buf
               (offsets.getD i 0 + field_offset).toNat
               (encodeILE (writeUnalignedBytes offsets i
                 (swapDecimalEndianBytes (getDataAt col.type
                   (col.values.getD (rowIdxOf masks i) .null))) 0 st).1 8),
             (writeUnalignedBytes offsets i
               (swapDecimalEndianBytes (getDataAt col.type
                 (col.values.getD (rowIdxOf masks i) .null))) 0 st).2.cursors⟩ : WState))
        (fun i st => by
          dsimp only
          constructor
          · rw [writeUnalignedBytes_cursors, swapDecimalEndianBytes_length]
          · rw [patchBytes_length, writeUnalignedBytes_buf_length])
        (List.range num_rows) st
      refine ⟨_, _, ?_, ?_, hc, hl⟩
      · dsimp only [writeVariableLengthNonNullableValue]
        rw [if_pos hraw, if_neg (by simp [hbe])]
        rfl
      · dsimp only [columnLengths]
        rw [if_pos hvar, if_pos hraw, if_neg (by simp [hnul])]
        rfl
    · obtain ⟨hc, hl⟩ := pairLoopP
        (fun i lengths => lengths.set i (lengths.getD i 0 +
          roundNumberOfBytesToNearestWord
            (getDataAt col.type (col.values.getD (rowIdxOf masks i) .null)).length))
        (fun i st =>
          (⟨patchBytes (writeUnalignedBytes offsets i
               (getDataAt col.type
                 (col.values.getD (rowIdxOf masks i) .null)) 0 st).2.buf
               (offsets.getD i 0 + field_offset).toNat
               (encodeILE (writeUnalignedBytes offsets i
                 (getDataAt col.type
                   (col.values.getD (rowIdxOf masks i) .null)) 0 st).1 8),
             (writeUnalignedBytes offsets i
               (getDataAt col.type
                 (col.values.getD (rowIdxOf masks i) .null)) 0 st).2.cursors⟩ : WState))
        (fun i st => by
          dsimp only
          constructor
          · rw [writeUnalignedBytes_cursors]
          · rw [patchBytes_length, writeUnalignedBytes_buf_length])
        (List.range num_rows) st
      refine ⟨_, _, ?_, ?_, hc, hl⟩
      · dsimp only [writeVariableLengthNonNullableValue]
        rw [if_pos hraw, if_pos (by simp [hbe])]
        rfl
      · dsimp only [columnLengths]
        rw [if_pos hvar, if_pos hraw, if_neg (by simp [hnul])]
        rfl
  · obtain ⟨st', lengths', hw, hg, hc, hl⟩ := pairLoopEE
      (fun i lengths =>
        match calculate (removeNullable col.type)
            (col.values.getD (rowIdxOf masks i) .null) with
        | .error e => .error e
        | .ok n => .ok (lengths.set i (lengths.getD i 0 + n)))
      (fun i st =>
        match VariableLengthDataWriter.write col.type offsets i
            (col.values.getD (rowIdxOf masks i) .null) 0 st with
        | .error e => .error e
        | .ok (offset_and_size, st') =>
          .ok (⟨patchBytes st'.buf (offsets.getD i 0 + field_offset).toNat
                 (encodeILE offset_and_size 8), st'.cursors⟩ : WState))
      (fun i st => by
        dsimp only
        obtain ⟨n, res, buf', hcal, hn0, hwrt, hbl⟩ :=
          elemAgrees_of_typed (Field.sz (col.values.getD (rowIdxOf masks i) .null)) _
            (le_refl _) (removeNullable col.type) hts (hgetD _) hvar offsets i 0 st
        refine ⟨⟨patchBytes buf' (offsets.getD i 0 + field_offset).toNat
            (encodeILE res 8), st.cursors.set i (st.cursors.getD i 0 + n)⟩,
          st.cursors.set i (st.cursors.getD i 0 + n), ?_, ?_, rfl, ?_⟩
        · rw [show VariableLengthDataWriter.write col.type offsets i
              (col.values.getD (rowIdxOf masks i) .null) 0 st =
            VariableLengthDataWriter.writeW (removeNullable col.type) offsets i
              (col.values.getD (rowIdxOf masks i) .null) 0 st from rfl, hwrt]
        · rw [show calculate (removeNullable col.type)
              (col.values.getD (rowIdxOf masks i) .null) =
            calculateW (removeNullable (removeNullable col.type))
              (col.values.getD (rowIdxOf masks i) .null) from rfl, hss, hcal]
        · show (patchBytes buf' _ _).length = _
          rw [patchBytes_length, hbl])
      (List.range num_rows) st
    refine ⟨st', lengths', ?_, ?_, hc, hl⟩
    · dsimp only [writeVariableLengthNonNullableValue]
      rw [if_neg (by simp [hraw])]
      exact hw
    · dsimp only [columnLengths]
      rw [if_pos hvar, if_neg (by simp [hraw])]
      exact hg

theorem writeVariableNull_agree (field_offset : Int) (col : SparkColumn)
    (col_index : Nat) (num_rows : Nat) (offsets : List Int)
    (masks : Option (List Nat)) (st : WState)
    (hts : supportedTypeNotNull (removeNullable col.type) = true)
    (hvar : isVariableLengthDataType (removeNullable col.type) = true)
    (hnul : col.isNullable = true)
    (hgetD : ∀ j, hasType (col.values.getD j .null)
      (removeNullable col.type) = true) :
    ∃ st' lengths',
      writeVariableLengthNullableValue field_offset col col_index num_rows offsets
        masks st = .ok st' ∧
      columnLengths col num_rows masks st.cursors = .ok lengths' ∧
      st'.cursors = lengths' ∧ st'.buf.length = st.buf.length := by
  have hss : removeNullable (removeNullable col.type) = removeNullable col.type := by
    rw [removeNullable_of_notNull hts]
  by_cases hraw : isDataTypeSupportRawData (removeNullable col.type)
  · obtain ⟨hc, hl⟩ := pairLoopP
      (fun i lengths =>
        if (col.values.getD (rowIdxOf masks i) .null).isNull then lengths
        else lengths.set i (lengths.getD i 0 +
          roundNumberOfBytesToNearestWord
            (getDataAt col.type (col.values.getD (rowIdxOf masks i) .null)).length))
      (fun i st =>
        if (col.values.getD (rowIdxOf masks i) .null).isNull then
          (⟨bitSet st.buf (offsets.getD i 0).toNat col_index, st.cursors⟩ : WState)
        else if ¬isBigEndianInSparkRow (removeNullable col.type) then
          (⟨patchBytes (writeUnalignedBytes offsets i
               (getDataAt col.type
                 (col.values.getD (rowIdxOf masks i) .null)) 0 st).2.buf
               (offsets.getD i 0 + field_offset).toNat
               (encodeILE (writeUnalignedBytes offsets i
                 (getDataAt col.type
                   (col.values.getD (rowIdxOf masks i) .null)) 0 st).1 8),
             (writeUnalignedBytes offsets i
               (getDataAt col.type
                 (col.values.getD (rowIdxOf masks i) .null)) 0 st).2.cursors⟩ : WState)
        else
          (⟨patchBytes (writeUnalignedBytes offsets i
               (swapDecimalEndianBytes (getDataAt col.type
                 (col.values.getD (rowIdxOf masks i) .null))) 0 st).2.buf
               (offsets.getD i 0 + field_offset).toNat
               (encodeILE (writeUnalignedBytes offsets i
                 (swapDecimalEndianBytes (getDataAt col.type
                   (col.values.getD (rowIdxOf masks i) .null))) 0 st).1 8),
             (writeUnalignedBytes offsets i
               (swapDecimalEndianBytes (getDataAt col.type
                 (col.values.getD (rowIdxOf masks i) .null))) 0 st).2.cursors⟩ : WState))
      (fun i st => by
        dsimp only
        by_cases hn : (col.values.getD (rowIdxOf masks i) .null).isNull
        · rw [if_pos hn, if_pos hn]
          exact ⟨rfl, bitSet_length _ _ _⟩
        · rw [if_neg hn, if_neg hn]
          by_cases hbe : isBigEndianInSparkRow (removeNullable col.type)
          · rw [if_neg (by simp [hbe])]
            constructor
            · rw [writeUnalignedBytes_cursors, swapDecimalEndianBytes_length]
            · rw [patchBytes_length, writeUnalignedBytes_buf_length]
          · rw [if_pos (by simp [hbe])]
            constructor
            · rw [writeUnalignedBytes_cursors]
            · rw [patchBytes_length, writeUnalignedBytes_buf_length])
      (List.range num_rows) st
    refine ⟨_, _, ?_, ?_, hc, hl⟩
    · dsimp only [writeVariableLengthNullableValue]
      rw [if_pos hraw]
      rfl
    · dsimp only [columnLengths]
      rw [if_pos hvar, if_pos hraw, if_pos hnul]
      rfl
  · obtain ⟨st', lengths', hw, hg, hc, hl⟩ := pairLoopEE
      (fun i lengths =>
        match calculate (removeNullable col.type)
            (col.values.getD (rowIdxOf masks i) .null) with
        | .error e => .error e
        | .ok n => .ok (lengths.set i (lengths.getD i 0 + n)))
      (fun i st =>
        if (col.values.getD (rowIdxOf masks i) .null).isNull then
          .ok (⟨bitSet st.buf (offsets.getD i 0).toNat col_index, st.cursors⟩ : WState)
        else
          match VariableLengthDataWriter.write col.type offsets i
              (col.values.getD (rowIdxOf masks i) .null) 0 st with
          | .error e => .error e
          | .ok (offset_and_size, st') =>
            .ok (⟨patchBytes st'.buf (offsets.getD i 0 + field_offset).toNat
                   (encodeILE offset_and_size 8), st'.cursors⟩ : WState))
      (fun i st => by
        dsimp only
        by_cases hn : (col.values.getD (rowIdxOf masks i) .null).isNull
        · have hfe := (isNull_eq_true_iff _).mp hn
          refine ⟨⟨bitSet st.buf (offsets.getD i 0).toNat col_index, st.cursors⟩,
            st.cursors.set i (st.cursors.getD i 0 + 0), ?_, ?_, ?_,
            bitSet_length _ _ _⟩
          · rw [if_pos hn]
          · rw [hfe, show calculate (removeNullable col.type) Field.null =
              calculateW (removeNullable (removeNullable col.type)) Field.null from rfl,
              hss, calculateW_null _ (by rw [hvar, Bool.or_true])]
          · show st.cursors = _
            rw [add_zero, set_getD_cancel]
        · obtain ⟨n, res, buf', hcal, hn0, hwrt, hbl⟩ :=
            elemAgrees_of_typed (Field.sz (col.values.getD (rowIdxOf masks i) .null)) _
              (le_refl _) (removeNullable col.type) hts (hgetD _) hvar offsets i 0 st
          refine ⟨⟨patchBytes buf' (offsets.getD i 0 + field_offset).toNat
              (encodeILE res 8), st.cursors.set i (st.cursors.getD i 0 + n)⟩,
            st.cursors.set i (st.cursors.getD i 0 + n), ?_, ?_, rfl, ?_⟩
          · rw [if_neg hn, show VariableLengthDataWriter.write col.type offsets i
                (col.values.getD (rowIdxOf masks i) .null) 0 st =
              VariableLengthDataWriter.writeW (removeNullable col.type) offsets i
                (col.values.getD (rowIdxOf masks i) .null) 0 st from rfl, hwrt]
          · rw [show calculate (removeNullable col.type)
                (col.values.getD (rowIdxOf masks i) .null) =
              calculateW (removeNullable (removeNullable col.type))
                (col.values.getD (rowIdxOf masks i) .null) from rfl, hss, hcal]
          · show (patchBytes buf' _ _).length = _
            rw [patchBytes_length, hbl])
      (List.range num_rows) st
    refine ⟨st', lengths', ?_, ?_, hc, hl⟩
    · dsimp only [writeVariableLengthNullableValue]
      rw [if_neg (by simp [hraw])]
      exact hw
    · dsimp only [columnLengths]
      rw [if_pos hvar, if_neg (by simp [hraw])]
      exact hg

theorem writeValue_columnLengths_agree (col : SparkColumn)
    (hty : colWellTyped col = true) (field_offset : Int) (col_index : Nat)
    (num_rows : Nat) (offsets : List Int) (masks : Option (List Nat)) (st : WState) :
    ∃ st' lengths',
      writeValue field_offset col col_index num_rows offsets masks st = .ok st' ∧
      columnLengths col num_rows masks st.cursors = .ok lengths' ∧
      st'.cursors = lengths' ∧ st'.buf.length = st.buf.length := by
  have hty' : (supportedType col.type && hasTypeList col.values col.type) = true := hty
  rw [Bool.and_eq_true] at hty'
  have hts : supportedTypeNotNull (removeNullable col.type) = true := by
    rw [← supportedType_eq_notNull]
    exact hty'.1
  have hss : removeNullable (removeNullable col.type) = removeNullable col.type := by
    rw [removeNullable_of_notNull hts]
  have hgetD : ∀ j, hasType (col.values.getD j .null)
      (removeNullable col.type) = true :=
    fun j => by rw [hasType_removeNullable _ hss]; exact hasType_getD hty'.2 j
  by_cases hfix : isFixedLengthDataType (removeNullable col.type)
  · have hlen := columnLengths_notVar col num_rows masks st.cursors
      (var_eq_false_of_fixed hfix)
    by_cases hnul : col.isNullable
    · obtain ⟨buf', hw, hl⟩ := writeFixedNull_ok field_offset col col_index num_rows
        offsets masks st.buf hfix hgetD
      refine ⟨⟨buf', st.cursors⟩, st.cursors, ?_, hlen, rfl, hl⟩
      dsimp only [writeValue]
      rw [if_pos hfix, if_pos hnul, hw]
    · obtain ⟨buf', hw, hl⟩ := writeFixedNonNull_ok field_offset col num_rows
        offsets masks st.buf hfix hgetD
      refine ⟨⟨buf', st.cursors⟩, st.cursors, ?_, hlen, rfl, hl⟩
      dsimp only [writeValue]
      rw [if_pos hfix, if_neg hnul, hw]
  · have hvar : isVariableLengthDataType (removeNullable col.type) = true :=
      var_of_supportedNotNull_not_fixed hts (by simpa using hfix)
    by_cases hnul : col.isNullable
    · obtain ⟨st', lengths', hw, hg, hc, hl⟩ := writeVariableNull_agree field_offset
        col col_index num_rows offsets masks st hts hvar hnul hgetD
      refine ⟨st', lengths', ?_, hg, hc, hl⟩
      dsimp only [writeValue]
      rw [if_neg hfix, if_pos hvar, if_pos hnul]
      exact hw
    · obtain ⟨st', lengths', hw, hg, hc, hl⟩ := writeVariableNonNull_agree field_offset
        col num_rows offsets masks st hts hvar (by simpa using hnul) hgetD
      refine ⟨st', lengths', ?_, hg, hc, hl⟩
      dsimp only [writeValue]
      rw [if_neg hfix, if_pos hvar, if_neg hnul]
      exact hw

/-- The whole Phase-2 column loop against the whole Phase-1 length loop. -/
theorem colsLoop_agree :
    ∀ (cols : List SparkColumn), (∀ c ∈ cols, colWellTyped c = true) →
    ∀ (s : Nat) (st : WState) (num_rows : Nat) (masks : Option (List Nat))
      (offsets : List Int) (foff : Nat → Int),
      ∃ st' lengths',
        (cols.enumFrom s).foldlM (fun st ic =>
          writeValue (foff ic.1) ic.2 ic.1 num_rows offsets masks st) st = .ok st' ∧
        cols.foldlM (fun lengths col => columnLengths col num_rows masks lengths)
          st.cursors = .ok lengths' ∧
        st'.cursors = lengths' ∧ st'.buf.length = st.buf.length := by
  intro cols
  induction cols with
  | nil =>
    intro _ s st num_rows masks offsets foff
    exact ⟨st, st.cursors, rfl, rfl, rfl, rfl⟩
  | cons c cs ih =>
    intro hty s st num_rows masks offsets foff
    obtain ⟨st1, lengths1, hw1, hg1, hc1, hl1⟩ :=
      writeValue_columnLengths_agree c (hty c (List.mem_cons_self c cs)) (foff s) s
        num_rows offsets masks st
    obtain ⟨st', lengths', hw', hg', hc', hl'⟩ :=
      ih (fun d hd => hty d (List.mem_cons_of_mem c hd)) (s + 1) st1 num_rows masks
        offsets foff
    refine ⟨st', lengths', ?_, ?_, hc', hl'.trans hl1⟩
    · rw [show (c :: cs).enumFrom s = (s, c) :: cs.enumFrom (s + 1) from rfl,
        List.foldlM_cons]
      dsimp only
      rw [hw1]
      exact hw'
    · rw [List.foldlM_cons, hg1]
      rw [hc1] at hg'
      exact hg'

/-! ## Monotonicity of the Phase-1 length accumulation (for claim C6) -/

theorem getD_le_set_getD_add {lengths : List Int} {n : Int} (hn : 0 ≤ n)
    (i j : Nat) :
    lengths.getD j 0 ≤ (lengths.set i (lengths.getD i 0 + n)).getD j 0 := by
  by_cases hj : j < lengths.length
  · by_cases hij : i = j
    · subst hij
      rw [getD_set_self hj]
      omega
    · simp only [List.getD_eq_getElem?_getD, List.getElem?_set_ne hij]
      exact le_refl _
  · rw [List.getD_eq_default _ _ (Nat.le_of_not_lt hj),
      List.getD_eq_default _ _ (by rw [List.length_set]; omega)]

theorem loopP_mono (g : Nat → List Int → List Int)
    (hg : ∀ i lengths j, lengths.getD j 0 ≤ (g i lengths).getD j 0)
    (hlen : ∀ i lengths, (g i lengths).length = lengths.length) :
    ∀ (l : List Nat) (lengths : List Int),
      (∀ j, lengths.getD j 0 ≤
        (l.foldl (fun lengths i => g i lengths) lengths).getD j 0) ∧
      (l.foldl (fun lengths i => g i lengths) lengths).length = lengths.length := by
  intro l
  induction l with
  | nil => exact fun lengths => ⟨fun j => le_refl _, rfl⟩
  | cons a l ih =>
    intro lengths
    rw [List.foldl_cons]
    obtain ⟨h1, h2⟩ := ih (g a lengths)
    exact ⟨fun j => le_trans (hg a lengths j) (h1 j), h2.trans (hlen a lengths)⟩

theorem loopE_mono (g : Nat → List Int → Except CError (List Int))
    (hg : ∀ i lengths lengths', g i lengths = .ok lengths' →
      (∀ j, lengths.getD j 0 ≤ lengths'.getD j 0) ∧
        lengths'.length = lengths.length) :
    ∀ (l : List Nat) (lengths lengths' : List Int),
      l.foldlM (fun lengths i => g i lengths) lengths = .ok lengths' →
      (∀ j, lengths.getD j 0 ≤ lengths'.getD j 0) ∧
        lengths'.length = lengths.length := by
  intro l
  induction l with
  | nil =>
    intro lengths lengths' h
    cases h
    exact ⟨fun j => le_refl _, rfl⟩
  | cons a l ih =>
    intro lengths lengths' h
    rw [List.foldlM_cons] at h
    cases hga : g a lengths with
    | error e => rw [hga] at h; cases h
    | ok lengths1 =>
      rw [hga] at h
      obtain ⟨h1, h2⟩ := hg a lengths lengths1 hga
      obtain ⟨h1', h2'⟩ := ih lengths1 lengths' h
      exact ⟨fun j => le_trans (h1 j) (h1' j), h2'.trans h2⟩

theorem set_length_getD_add (lengths : List Int) (i : Nat) (n : Int) :
    (lengths.set i (lengths.getD i 0 + n)).length = lengths.length :=
  List.length_set ..

theorem columnLengths_mono (col : SparkColumn) (num_rows : Nat)
    (masks : Option (List Nat)) (lengths lengths' : List Int)
    (hty : colWellTyped col = true)
    (h : columnLengths col num_rows masks lengths = .ok lengths') :
    (∀ j, lengths.getD j 0 ≤ lengths'.getD j 0) ∧
      lengths'.length = lengths.length := by
  have hty' : (supportedType col.type && hasTypeList col.values col.type) = true := hty
  rw [Bool.and_eq_true] at hty'
  have hts : supportedTypeNotNull (removeNullable col.type) = true := by
    rw [← supportedType_eq_notNull]
    exact hty'.1
  have hss : removeNullable (removeNullable col.type) = removeNullable col.type := by
    rw [removeNullable_of_notNull hts]
  have hgetD : ∀ j, hasType (col.values.getD j .null)
      (removeNullable col.type) = true :=
    fun j => by rw [hasType_removeNullable _ hss]; exact hasType_getD hty'.2 j
  by_cases hvar : isVariableLengthDataType (removeNullable col.type)
  · dsimp only [columnLengths] at h
    rw [if_pos hvar] at h
    by_cases hraw : isDataTypeSupportRawData (removeNullable col.type)
    · rw [if_pos hraw] at h
      by_cases hnul : col.isNullable
      · rw [if_pos hnul] at h
        obtain rfl := Except.ok.inj h
        exact loopP_mono
          (fun i lengths =>
            if (col.values.getD (rowIdxOf masks i) .null).isNull then lengths
            else lengths.set i (lengths.getD i 0 +
              roundNumberOfBytesToNearestWord
                (getDataAt col.type (col.values.getD (rowIdxOf masks i) .null)).length))
          (fun i lengths j => by
            dsimp only
            by_cases hn : (col.values.getD (rowIdxOf masks i) .null).isNull
            · rw [if_pos hn]
            · rw [if_neg hn]
              exact getD_le_set_getD_add
                (roundNumberOfBytesToNearestWord_natCast_nonneg _) i j)
          (fun i lengths => by
            dsimp only
            by_cases hn : (col.values.getD (rowIdxOf masks i) .null).isNull
            · rw [if_pos hn]
            · rw [if_neg hn, List.length_set])
          (List.range num_rows) lengths
      · rw [if_neg hnul] at h
        obtain rfl := Except.ok.inj h
        exact loopP_mono
          (fun i lengths => lengths.set i (lengths.getD i 0 +
            roundNumberOfBytesToNearestWord
              (getDataAt col.type (col.values.getD (rowIdxOf masks i) .null)).length))
          (fun i lengths j =>
            getD_le_set_getD_add
              (roundNumberOfBytesToNearestWord_natCast_nonneg _) i j)
          (fun i lengths => List.length_set ..)
          (List.range num_rows) lengths
    · rw [if_neg hraw] at h
      dsimp only [rowLoopE] at h
      exact loopE_mono
        (fun i lengths =>
          match calculate (removeNullable col.type)
              (col.values.getD (rowIdxOf masks i) .null) with
          | .error e => .error e
          | .ok n => .ok (lengths.set i (lengths.getD i 0 + n)))
        (fun i lengths0 lengths1 hgi => by
          dsimp only at hgi
          obtain ⟨n, res, buf', hcal, hn0, hwrt, hbl⟩ :=
            elemAgrees_of_typed (Field.sz (col.values.getD (rowIdxOf masks i) .null)) _
              (le_refl _) (removeNullable col.type) hts (hgetD _) hvar [] i 0 ⟨[], []⟩
          rw [show calculate (removeNullable col.type)
              (col.values.getD (rowIdxOf masks i) .null) =
            calculateW (removeNullable (removeNullable col.type))
              (col.values.getD (rowIdxOf masks i) .null) from rfl, hss, hcal] at hgi
          obtain rfl := Except.ok.inj hgi
          exact ⟨fun j => getD_le_set_getD_add hn0 i j, List.length_set ..⟩)
        (List.range num_rows) lengths lengths' h
  · rw [columnLengths_notVar col num_rows masks lengths (by simpa using hvar)] at h
    obtain rfl := Except.ok.inj h
    exact ⟨fun j => le_refl _, rfl⟩

theorem colsFold_mono :
    ∀ (cols : List SparkColumn), (∀ c ∈ cols, colWellTyped c = true) →
    ∀ (num_rows : Nat) (masks : Option (List Nat)) (lengths lengths' : List Int),
      cols.foldlM (fun lengths col => columnLengths col num_rows masks lengths)
        lengths = .ok lengths' →
      (∀ j, lengths.getD j 0 ≤ lengths'.getD j 0) ∧
        lengths'.length = lengths.length := by
  intro cols
  induction cols with
  | nil =>
    intro _ num_rows masks lengths lengths' h
    obtain rfl := Except.ok.inj h
    exact ⟨fun j => le_refl _, rfl⟩
  | cons c cs ih =>
    intro hty num_rows masks lengths lengths' h
    rw [List.foldlM_cons] at h
    cases hg1 : columnLengths c num_rows masks lengths with
    | error e => rw [hg1] at h; cases h
    | ok lengths1 =>
      rw [hg1] at h
      obtain ⟨h1, h2⟩ := columnLengths_mono c num_rows masks lengths lengths1
        (hty c (List.mem_cons_self c cs)) hg1
      obtain ⟨h1', h2'⟩ := ih (fun d hd => hty d (List.mem_cons_of_mem c hd))
        num_rows masks lengths1 lengths' h
      exact ⟨fun j => le_trans (h1 j) (h1' j), h2'.trans h2⟩

/-! ## Phase-1 offsets and total_bytes (for claim C2) -/

theorem replicate_getD_zero (n i : Nat) :
    (List.replicate n (0 : Int)).getD i 0 = 0 := by
  by_cases h : i < n
  · rw [List.getD_eq_getElem _ _ (by simpa using h), List.getElem_replicate]
  · rw [List.getD_eq_default _ _ (by simpa using Nat.le_of_not_lt h)]

theorem partialSum_take (l : List Int) : ∀ n, partialSum l n = (l.take n).sum := by
  intro n
  induction n with
  | zero => rfl
  | succ n ih =>
    show partialSum l n + l.getD n 0 = _
    rw [ih]
    by_cases h : n < l.length
    · rw [show l.take (n + 1) = l.take n ++ [l.get ⟨n, h⟩] from by
        rw [List.take_succ]
        simp [List.getElem?_eq_getElem h]]
      rw [List.sum_append, List.sum_cons, List.sum_nil, add_zero,
        List.getD_eq_getElem _ _ (by simpa using h)]
      rfl
    · rw [List.take_of_length_le (by omega), List.take_of_length_le (by omega),
        List.getD_eq_default _ _ (by omega), add_zero]

theorem partialSum_length_eq_sum (l : List Int) : partialSum l l.length = l.sum := by
  rw [partialSum_take, List.take_of_length_le (le_refl _)]

theorem initTotalBytes_eq_partialSum (num_rows : Nat) (lengths : List Int) :
    initTotalBytes num_rows lengths = partialSum lengths num_rows := by
  dsimp only [initTotalBytes]
  induction num_rows with
  | zero => rfl
  | succ n ih =>
    rw [List.range_succ, List.foldl_append, ih]
    rfl

theorem initOffsets_loop (lengths : List Int) (num_rows : Nat) :
    ∀ (k : Nat),
      ((List.range' 1 k).foldl
        (fun offsets i =>
          offsets.set i (offsets.getD (i - 1) 0 + lengths.getD (i - 1) 0))
        (List.replicate num_rows 0)).length = num_rows ∧
      (∀ i, ((List.range' 1 k).foldl
        (fun offsets i =>
          offsets.set i (offsets.getD (i - 1) 0 + lengths.getD (i - 1) 0))
        (List.replicate num_rows 0)).getD i 0 =
          if i ≤ k ∧ i < num_rows then partialSum lengths i else 0) := by
  intro k
  induction k with
  | zero =>
    constructor
    · exact List.length_replicate ..
    · intro i
      rw [show List.range' 1 0 = ([] : List Nat) from rfl, List.foldl_nil,
        replicate_getD_zero]
      by_cases h : i ≤ 0 ∧ i < num_rows
      · rw [if_pos h]
        have : i = 0 := by omega
        subst this
        rfl
      · rw [if_neg h]
  | succ k ih =>
    obtain ⟨ihl, ihg⟩ := ih
    rw [List.range'_concat, List.foldl_append, List.foldl_cons, List.foldl_nil]
    constructor
    · rw [List.length_set]
      exact ihl
    · intro i
      have hidx : 1 + 1 * k = k + 1 := by omega
      rw [hidx]
      by_cases hi : i = k + 1
      · subst hi
        by_cases hb : k + 1 < num_rows
        · rw [getD_set_self (by rw [ihl]; exact hb)]
          rw [if_pos ⟨le_refl _, hb⟩]
          have hk : k + 1 - 1 = k := by omega
          rw [hk, ihg k]
          by_cases hkb : k ≤ k ∧ k < num_rows
          · rw [if_pos hkb]
            rfl
          · exact absurd ⟨le_refl k, by omega⟩ hkb
        · rw [List.set_eq_of_length_le (by rw [ihl]; omega), ihg (k + 1),
            if_neg (by omega), if_neg (by omega)]
      · rw [List.getD_eq_getElem?_getD, List.getElem?_set_ne (by omega),
          ← List.getD_eq_getElem?_getD, ihg i]
        by_cases h1 : i ≤ k ∧ i < num_rows
        · rw [if_pos h1, if_pos ⟨by omega, h1.2⟩]
        · rw [if_neg h1, if_neg (by omega)]

theorem initOffsets_length (num_rows : Nat) (lengths : List Int) :
    (initOffsets num_rows lengths).length = num_rows :=
  (initOffsets_loop lengths num_rows (num_rows - 1)).1

theorem initOffsets_getD (num_rows : Nat) (lengths : List Int) (i : Nat)
    (h : i < num_rows) :
    (initOffsets num_rows lengths).getD i 0 = partialSum lengths i := by
  have := (initOffsets_loop lengths num_rows (num_rows - 1)).2 i
  rw [if_pos ⟨by omega, h⟩] at this
  exact this

theorem replicate_getD_lt (n i : Nat) (v : Int) (h : i < n) :
    (List.replicate n v).getD i 0 = v := by
  rw [List.getD_eq_getElem _ _ (by simpa using h), List.getElem_replicate]

/-- The end-to-end conversion on a well-typed nonempty block: it succeeds,
the final per-row cursors equal the Phase-1 lengths, and the Phase-1 artifacts
satisfy their structural invariants. -/
theorem convert_typed_ok (block : Block) (masks : Option (List Nat))
    (hty : blockWellTyped block = true) (hnz : block.cols.length ≠ 0) :
    ∃ info, convertCHColumnToSparkRow block masks = .ok info ∧
      info.buffer_cursor = info.lengths ∧
      info.num_rows = numRowsOf masks block.rows ∧
      info.num_cols = block.cols.length ∧
      info.null_bitset_width_in_bytes = calculateBitSetWidthInBytes block.cols.length ∧
      info.lengths.length = info.num_rows ∧
      info.offsets = initOffsets info.num_rows info.lengths ∧
      info.total_bytes = initTotalBytes info.num_rows info.lengths ∧
      info.buffer.length = info.total_bytes.toNat ∧
      (∀ j, j < info.num_rows →
        calculatedFixeSizePerRow block.cols.length ≤ info.lengths.getD j 0) := by
  have htys : ∀ c ∈ block.cols, colWellTyped c = true := fun c hc => by
    have h : block.cols.all colWellTyped = true := hty
    exact (List.all_eq_true.mp h) c hc
  obtain ⟨stD, lengthsD, hwD, hgD, hcD, hlD⟩ :=
    colsLoop_agree block.cols htys 0
      ⟨[], (List.replicate (numRowsOf masks block.rows) (calculatedFixeSizePerRow block.cols.length))⟩
      (numRowsOf masks block.rows) masks [] (fun j => 0)
  have hgD' : block.cols.foldlM
      (fun lengths col => columnLengths col (numRowsOf masks block.rows) masks lengths)
      (List.replicate (numRowsOf masks block.rows) (calculatedFixeSizePerRow block.cols.length)) = .ok lengthsD := hgD
  obtain ⟨hmono, hlenD⟩ := colsFold_mono block.cols htys
    (numRowsOf masks block.rows) masks (List.replicate (numRowsOf masks block.rows) (calculatedFixeSizePerRow block.cols.length)) lengthsD hgD'
  have hconstruct : SparkRowInfo.construct block.cols block.cols.length block.rows
      masks = .ok { types := block.cols.map (fun c => c.type),
                        num_rows := (numRowsOf masks block.rows),
                        num_cols := block.cols.length,
                        null_bitset_width_in_bytes := calculateBitSetWidthInBytes block.cols.length,
                        total_bytes := initTotalBytes (numRowsOf masks block.rows) lengthsD,
                        offsets := initOffsets (numRowsOf masks block.rows) lengthsD,
                        lengths := lengthsD,
                        buffer_cursor := List.replicate (numRowsOf masks block.rows) (calculatedFixeSizePerRow block.cols.length),
                        buffer := ([] : List Nat) } := by
    dsimp only [SparkRowInfo.construct]
    rw [hgD']
  obtain ⟨st', lengths', hw', hg', hc', hl'⟩ :=
    colsLoop_agree block.cols htys 0
      ⟨List.replicate (initTotalBytes (numRowsOf masks block.rows) lengthsD).toNat 0, (List.replicate (numRowsOf masks block.rows) (calculatedFixeSizePerRow block.cols.length))⟩
      (numRowsOf masks block.rows) masks
      (initOffsets (numRowsOf masks block.rows) lengthsD)
      (fun idx => calculateBitSetWidthInBytes block.cols.length + 8 * idx)
  have hlenfix : lengths' = lengthsD := by
    have h1 : block.cols.foldlM
        (fun lengths col => columnLengths col (numRowsOf masks block.rows) masks lengths)
        (List.replicate (numRowsOf masks block.rows) (calculatedFixeSizePerRow block.cols.length)) = .ok lengths' := hg'
    exact (Except.ok.inj (hgD'.symm.trans h1)).symm
  have hwF : block.cols.enum.foldlM
      (fun st ic => writeValue
        (calculateBitSetWidthInBytes block.cols.length + 8 * ic.1) ic.2 ic.1
        (numRowsOf masks block.rows) (initOffsets (numRowsOf masks block.rows) lengthsD) masks st)
      ⟨List.replicate (initTotalBytes (numRowsOf masks block.rows) lengthsD).toNat 0, (List.replicate (numRowsOf masks block.rows) (calculatedFixeSizePerRow block.cols.length))⟩
      = .ok st' := hw'
  have hconv : convertCHColumnToSparkRow block masks =
      .ok { types := block.cols.map (fun c => c.type),
                        num_rows := (numRowsOf masks block.rows),
                        num_cols := block.cols.length,
                        null_bitset_width_in_bytes := calculateBitSetWidthInBytes block.cols.length,
                        total_bytes := initTotalBytes (numRowsOf masks block.rows) lengthsD,
                        offsets := initOffsets (numRowsOf masks block.rows) lengthsD,
                        lengths := lengthsD,
                        buffer_cursor := st'.cursors,
                        buffer := st'.buf } := by
    dsimp only [convertCHColumnToSparkRow]
    rw [if_neg hnz, hconstruct]
    show (match block.cols.enum.foldlM
        (fun st (ic : Nat × SparkColumn) => writeValue
          (calculateBitSetWidthInBytes block.cols.length + 8 * ic.1) ic.2 ic.1
          (numRowsOf masks block.rows) (initOffsets (numRowsOf masks block.rows) lengthsD) masks st)
        (⟨List.replicate (initTotalBytes (numRowsOf masks block.rows) lengthsD).toNat 0, (List.replicate (numRowsOf masks block.rows) (calculatedFixeSizePerRow block.cols.length))⟩ : WState) with
      | .error e => .error e
      | .ok st => .ok { types := block.cols.map (fun c => c.type),
                            num_rows := (numRowsOf masks block.rows),
                            num_cols := block.cols.length,
                            null_bitset_width_in_bytes := calculateBitSetWidthInBytes block.cols.length,
                            total_bytes := initTotalBytes (numRowsOf masks block.rows) lengthsD,
                            offsets := initOffsets (numRowsOf masks block.rows) lengthsD,
                            lengths := lengthsD,
                            buffer_cursor := st.cursors,
                            buffer := st.buf } :
      Except CError SparkRowInfo) = _
    rw [hwF]
  refine ⟨_, hconv, ?_, rfl, rfl, rfl, ?_, rfl, rfl, ?_, ?_⟩
  · show st'.cursors = lengthsD
    rw [hc', hlenfix]
  · show lengthsD.length = (numRowsOf masks block.rows)
    rw [hlenD, List.length_replicate]
  · show st'.buf.length = (initTotalBytes (numRowsOf masks block.rows) lengthsD).toNat
    rw [hl', List.length_replicate]
  · intro j hj
    have h1 := hmono j
    rw [replicate_getD_lt _ _ _ hj] at h1
    exact h1

/-! ## Claim C1 -/

/-- C1: for every supported column type `t` and every value `v` of that type
(on the variable-length side, where `VariableLengthDataWriter::write` is
invoked), `BackingDataLengthCalculator(t).calculate(v)` equals exactly the
number of bytes by which the write (including all recursive nesting into
arrays, maps and structs) advances that row's buffer cursor, the write
succeeds, and the buffer size is untouched; consequently, at the end of
Phase 2, every row's cursor equals `lengths[row]`
(`info.buffer_cursor = info.lengths`). -/
theorem C1_calculate_matches_writer_advance :
    (∀ (t : SparkDataType) (f : Field), supportedType t = true →
      hasType f t = true → isVariableLengthDataType (removeNullable t) = true →
      ∀ (offsets : List Int) (row : Nat) (parent : Int) (st : WState),
        ∃ n res st', calculate t f = .ok n ∧ 0 ≤ n ∧
          VariableLengthDataWriter.write t offsets row f parent st = .ok (res, st') ∧
          st'.cursors = st.cursors.set row (st.cursors.getD row 0 + n) ∧
          st'.buf.length = st.buf.length) ∧
    (∀ (block : Block) (masks : Option (List Nat)),
      blockWellTyped block = true → block.cols.length ≠ 0 →
      ∃ info, convertCHColumnToSparkRow block masks = .ok info ∧
        info.buffer_cursor = info.lengths) := by
  constructor
  · intro t f hsupp ht hvar offsets row parent st
    have hts : supportedTypeNotNull (removeNullable t) = true := by
      rw [← supportedType_eq_notNull]
      exact hsupp
    have hss := removeNullable_of_notNull hts
    have htf : hasType f (removeNullable t) = true := by
      rw [hasType_removeNullable f hss]
      exact ht
    obtain ⟨n, res, buf', hcal, hn0, hwrt, hbl⟩ :=
      elemAgrees_of_typed (Field.sz f) f (le_refl _) (removeNullable t) hts htf hvar
        offsets row parent st
    exact ⟨n, res, ⟨buf', st.cursors.set row (st.cursors.getD row 0 + n)⟩,
      hcal, hn0, hwrt, rfl, hbl⟩
  · intro block masks hty hnz
    obtain ⟨info, hconv, hcur, _⟩ := convert_typed_ok block masks hty hnz
    exact ⟨info, hconv, hcur⟩

theorem C1_calculate_matches_writer_advance_witness :
    (∃ n res st', calculate .string (.str [104, 105]) = .ok n ∧ 0 ≤ n ∧
      VariableLengthDataWriter.write .string [0] 0 (.str [104, 105]) 0
        ⟨List.replicate 24 0, [16]⟩ = .ok (res, st') ∧
      st'.cursors = (⟨List.replicate 24 0, [16]⟩ : WState).cursors.set 0
        ((⟨List.replicate 24 0, [16]⟩ : WState).cursors.getD 0 0 + n) ∧
      st'.buf.length = (⟨List.replicate 24 0, [16]⟩ : WState).buf.length) ∧
    (∃ info, convertCHColumnToSparkRow ⟨[⟨.string, [.str [104, 105]]⟩], 1⟩ none
        = .ok info ∧ info.buffer_cursor = info.lengths) :=
  ⟨C1_calculate_matches_writer_advance.1 .string (.str [104, 105]) rfl rfl rfl
    [0] 0 0 ⟨List.replicate 24 0, [16]⟩,
   C1_calculate_matches_writer_advance.2 ⟨[⟨.string, [.str [104, 105]]⟩], 1⟩ none
    rfl (by decide)⟩

/-! ## Claim C2 -/

/-- C2: after Phase 1 (surfaced through a successful conversion), the row
offsets satisfy `offsets[0] = 0` and `offsets[i] = offsets[i-1] +
lengths[i-1]` for `1 ≤ i < num_rows`, and `total_bytes` equals the sum of all
lengths, which is the size of the allocated buffer. -/
theorem C2_offsets_and_total_bytes :
    ∀ (block : Block) (masks : Option (List Nat)),
      blockWellTyped block = true → block.cols.length ≠ 0 →
      ∃ info, convertCHColumnToSparkRow block masks = .ok info ∧
        info.offsets.getD 0 0 = 0 ∧
        (∀ i, 1 ≤ i → i < info.num_rows →
          info.offsets.getD i 0 =
            info.offsets.getD (i - 1) 0 + info.lengths.getD (i - 1) 0) ∧
        info.total_bytes = info.lengths.sum ∧
        info.buffer.length = info.total_bytes.toNat := by
  intro block masks hty hnz
  obtain ⟨info, hconv, _, _, _, _, hlen, hoff, htot, hbuf, _⟩ :=
    convert_typed_ok block masks hty hnz
  refine ⟨info, hconv, ?_, ?_, ?_, hbuf⟩
  · by_cases h0 : 0 < info.num_rows
    · rw [hoff, initOffsets_getD _ _ 0 h0]
      rfl
    · rw [List.getD_eq_default _ _ (by rw [hoff, initOffsets_length]; omega)]
  · intro i h1 h2
    rw [hoff, initOffsets_getD _ _ i h2,
      initOffsets_getD _ _ (i - 1) (by omega),
      show i = (i - 1) + 1 from by omega]
    show partialSum info.lengths (i - 1) + info.lengths.getD (i - 1) 0 = _
    rw [show i - 1 + 1 - 1 = i - 1 from by omega]
  · rw [htot, initTotalBytes_eq_partialSum, ← hlen, partialSum_length_eq_sum]

theorem C2_offsets_and_total_bytes_witness :
    ∃ info, convertCHColumnToSparkRow
        ⟨[⟨.string, [.str [104, 105], .str [104, 105, 106]]⟩], 2⟩ none = .ok info ∧
      info.offsets.getD 0 0 = 0 ∧
      (∀ i, 1 ≤ i → i < info.num_rows →
        info.offsets.getD i 0 =
          info.offsets.getD (i - 1) 0 + info.lengths.getD (i - 1) 0) ∧
      info.total_bytes = info.lengths.sum ∧
      info.buffer.length = info.total_bytes.toNat :=
  C2_offsets_and_total_bytes
    ⟨[⟨.string, [.str [104, 105], .str [104, 105, 106]]⟩], 2⟩ none rfl (by decide)

/-! ## Claim C6 -/

/-- C6: on a successful conversion every row's length is at least the fixed
row size `null_bitset_width_in_bytes + 8 * num_cols`
(`calculatedFixeSizePerRow`), and `BackingDataLengthCalculator::calculate`
returns a non-negative value on every supported, well-typed value, so
backing-data accumulation never shrinks a row below its fixed header size. -/
theorem C6_lengths_ge_fixed_size :
    (∀ (block : Block) (masks : Option (List Nat)),
      blockWellTyped block = true → block.cols.length ≠ 0 →
      ∃ info, convertCHColumnToSparkRow block masks = .ok info ∧
        ∀ j, j < info.num_rows →
          calculatedFixeSizePerRow info.num_cols ≤ info.lengths.getD j 0) ∧
    (∀ (t : SparkDataType) (f : Field) (n : Int), supportedType t = true →
      hasType f t = true → calculate t f = .ok n → 0 ≤ n) := by
  constructor
  · intro block masks hty hnz
    obtain ⟨info, hconv, _, _, hcols, _, _, _, _, _, hbound⟩ :=
      convert_typed_ok block masks hty hnz
    refine ⟨info, hconv, ?_⟩
    rw [hcols]
    exact hbound
  · intro t f n hsupp ht hcal
    have hts : supportedTypeNotNull (removeNullable t) = true := by
      rw [← supportedType_eq_notNull]
      exact hsupp
    have hss := removeNullable_of_notNull hts
    have htf : hasType f (removeNullable t) = true := by
      rw [hasType_removeNullable f hss]
      exact ht
    by_cases hfix : isFixedLengthDataType (removeNullable t)
    · have h0 := calculateW_fixed_typed _ _ hfix htf
      have hcal' : calculateW (removeNullable t) f = .ok n := hcal
      obtain rfl := Except.ok.inj (h0.symm.trans hcal')
      exact le_refl 0
    · have hvar := var_of_supportedNotNull_not_fixed hts (by simpa using hfix)
      obtain ⟨n0, res, buf', hcal0, hn0, _, _⟩ :=
        elemAgrees_of_typed (Field.sz f) f (le_refl _) (removeNullable t) hts htf
          hvar [] 0 0 ⟨[], []⟩
      have hcal' : calculateW (removeNullable t) f = .ok n := hcal
      obtain rfl := Except.ok.inj (hcal0.symm.trans hcal')
      exact hn0

theorem C6_lengths_ge_fixed_size_witness :
    (∃ info, convertCHColumnToSparkRow ⟨[⟨.int64, [.int 7]⟩], 1⟩ none = .ok info ∧
      ∀ j, j < info.num_rows →
        calculatedFixeSizePerRow info.num_cols ≤ info.lengths.getD j 0) ∧
    0 ≤ (8 : Int) :=
  ⟨C6_lengths_ge_fixed_size.1 ⟨[⟨.int64, [.int 7]⟩], 1⟩ none rfl (by decide),
   C6_lengths_ge_fixed_size.2 .string (.str [104, 105, 106]) 8 rfl rfl rfl⟩

/-! ## Claim C3 -/

/-- C3 counterexample: the Phase-2 column iteration of
`convertCHColumnToSparkRow` performs no cursor-versus-lengths validation.
Running the exact Phase-2 fold of a one-string-column block (whose Phase-1
lengths are `[24]`) from a tampered cursor state `[0]` (instead of `[16]`)
completes with `.ok` and final cursors `[8] ≠ [24]`: no `InvariantBroken`
error exists or is surfaced (the conversion error type has no such value). -/
theorem C3_counterexample :
    ∃ st', ([((0 : Nat), (⟨.string, [.str [104, 105]]⟩ : SparkColumn))].foldlM
        (fun st ic => writeValue
          (calculateBitSetWidthInBytes 1 + 8 * ic.1) ic.2 ic.1 1 [0] none st)
        (⟨List.replicate 24 0, [0]⟩ : WState)) = .ok st' ∧
      st'.cursors ≠ ([24] : List Int) :=
  ⟨_, rfl, by decide⟩

/-- C3 (amended): there is no end-of-iteration cursor check at all — the
Phase-2 column loop on a well-typed block succeeds from an arbitrary starting
cursor vector, whether or not it is consistent with the Phase-1 lengths; no
error of any kind is produced on account of cursor/length divergence. -/
theorem C3_no_cursor_invariant_check :
    ∀ (cols : List SparkColumn), (∀ c ∈ cols, colWellTyped c = true) →
    ∀ (num_rows : Nat) (masks : Option (List Nat)) (offsets : List Int)
      (foff : Nat → Int) (st : WState),
      ∃ st', cols.enum.foldlM (fun st ic =>
        writeValue (foff ic.1) ic.2 ic.1 num_rows offsets masks st) st
          = .ok st' := by
  intro cols hty num_rows masks offsets foff st
  obtain ⟨st', lengths', hw, _, _, _⟩ :=
    colsLoop_agree cols hty 0 st num_rows masks offsets foff
  exact ⟨st', hw⟩

theorem C3_no_cursor_invariant_check_witness :
    ∃ st', ([(⟨.string, [.str [104, 105]]⟩ : SparkColumn)].enum.foldlM
        (fun st ic => writeValue ((fun j => (8 : Int)) ic.1) ic.2 ic.1 1 [0]
          none st)
        (⟨List.replicate 24 0, [5]⟩ : WState)) = .ok st' :=
  C3_no_cursor_invariant_check [⟨.string, [.str [104, 105]]⟩] (by decide) 1 none
    [0] (fun j => 8) ⟨List.replicate 24 0, [5]⟩

/-! ## Mask fidelity: the masked run against the projected run (claim C5) -/

theorem foldlM_ext {α β : Type} (f g : α → β → Except CError α) :
    ∀ (l : List β) (init : α), (∀ b ∈ l, ∀ a, f a b = g a b) →
      l.foldlM f init = l.foldlM g init := by
  intro l
  induction l with
  | nil => intro init _; rfl
  | cons b bs ih =>
    intro init h
    rw [List.foldlM_cons, List.foldlM_cons, h b (List.mem_cons_self b bs) init]
    cases hg : g init b with
    | error e => rfl
    | ok a =>
      show bs.foldlM f a = bs.foldlM g a
      exact ih a (fun b hb => h b (List.mem_cons_of_mem _ hb))

theorem getD_map_lt (M : List Nat) (values : List Field) (i : Nat)
    (h : i < M.length) :
    (M.map (fun j => values.getD j .null)).getD i .null =
      values.getD (M.getD i 0) .null := by
  rw [List.getD_eq_getElem _ _ (show i < (M.map (fun j => values.getD j .null)).length
      from by simpa using h),
    List.getElem_map, List.getD_eq_getElem M 0 h]

theorem rowLoop_project {α : Type} (M : List Nat) (values : List Field)
    (body : Nat → Field → α → α) (init : α) :
    rowLoop M.length (some M) values body init =
      rowLoop M.length none (M.map (fun j => values.getD j .null)) body init := by
  dsimp only [rowLoop]
  refine List.foldl_ext _ _ _ ?_
  intro st i hi
  have hi' : i < M.length := List.mem_range.mp hi
  dsimp only [rowIdxOf]
  rw [getD_map_lt M values i hi']

theorem rowLoopE_project {α : Type} (M : List Nat) (values : List Field)
    (body : Nat → Field → α → Except CError α) (init : α) :
    rowLoopE M.length (some M) values body init =
      rowLoopE M.length none (M.map (fun j => values.getD j .null)) body init := by
  dsimp only [rowLoopE]
  refine foldlM_ext _ _ _ init ?_
  intro i hi st
  have hi' : i < M.length := List.mem_range.mp hi
  dsimp only [rowIdxOf]
  rw [getD_map_lt M values i hi']

theorem columnLengths_project (M : List Nat) (col : SparkColumn)
    (lengths : List Int) :
    columnLengths col M.length (some M) lengths =
      columnLengths (projectColumn M col) M.length none lengths := by
  dsimp only [columnLengths, projectColumn]
  by_cases hvar : isVariableLengthDataType (removeNullable col.type)
  · rw [if_pos hvar, if_pos hvar]
    by_cases hraw : isDataTypeSupportRawData (removeNullable col.type)
    · rw [if_pos hraw, if_pos hraw]
      by_cases hnul : col.isNullable
      · rw [if_pos hnul, if_pos (show SparkColumn.isNullable ⟨col.type,
            M.map (fun j => col.values.getD j .null)⟩ = true from hnul)]
        exact congrArg Except.ok (rowLoop_project M col.values _ lengths)
      · rw [if_neg hnul, if_neg (show ¬SparkColumn.isNullable ⟨col.type,
            M.map (fun j => col.values.getD j .null)⟩ = true from hnul)]
        exact congrArg Except.ok (rowLoop_project M col.values _ lengths)
    · rw [if_neg hraw, if_neg hraw]
      exact rowLoopE_project M col.values _ lengths
  · rw [if_neg hvar, if_neg hvar]

theorem writeFixedNonNull_project (M : List Nat) (field_offset : Int)
    (col : SparkColumn) (offsets : List Int) (buf : List Nat) :
    writeFixedLengthNonNullableValue field_offset col M.length offsets
        (some M) buf =
      writeFixedLengthNonNullableValue field_offset
        ⟨col.type, M.map (fun j => col.values.getD j .null)⟩ M.length offsets
        none buf := by
  dsimp only [writeFixedLengthNonNullableValue]
  by_cases hd : isDecimal32 (removeNullable col.type)
  · rw [if_pos hd, if_pos hd]
    exact rowLoopE_project M col.values _ buf
  · rw [if_neg hd, if_neg hd]
    exact congrArg Except.ok (rowLoop_project M col.values _ buf)

theorem writeFixedNull_project (M : List Nat) (field_offset : Int)
    (col : SparkColumn) (col_index : Nat) (offsets : List Int) (buf : List Nat) :
    writeFixedLengthNullableValue field_offset col col_index M.length offsets
        (some M) buf =
      writeFixedLengthNullableValue field_offset
        ⟨col.type, M.map (fun j => col.values.getD j .null)⟩ col_index M.length
        offsets none buf := by
  dsimp only [writeFixedLengthNullableValue]
  by_cases hd : isDecimal32 (removeNullable col.type)
  · rw [if_pos hd, if_pos hd]
    exact rowLoopE_project M col.values _ buf
  · rw [if_neg hd, if_neg hd]
    exact congrArg Except.ok (rowLoop_project M col.values _ buf)

theorem writeVariableNonNull_project (M : List Nat) (field_offset : Int)
    (col : SparkColumn) (offsets : List Int) (st : WState) :
    writeVariableLengthNonNullableValue field_offset col M.length offsets
        (some M) st =
      writeVariableLengthNonNullableValue field_offset
        ⟨col.type, M.map (fun j => col.values.getD j .null)⟩ M.length offsets
        none st := by
  dsimp only [writeVariableLengthNonNullableValue]
  by_cases hraw : isDataTypeSupportRawData (removeNullable col.type)
  · by_cases hbe : isBigEndianInSparkRow (removeNullable col.type)
    · rw [if_pos hraw, if_pos hraw, if_neg (not_not_intro hbe),
        if_neg (not_not_intro hbe)]
      exact congrArg Except.ok (rowLoop_project M col.values _ st)
    · rw [if_pos hraw, if_pos hraw, if_pos hbe, if_pos hbe]
      exact congrArg Except.ok (rowLoop_project M col.values _ st)
  · rw [if_neg hraw, if_neg hraw]
    exact rowLoopE_project M col.values _ st

theorem writeVariableNull_project (M : List Nat) (field_offset : Int)
    (col : SparkColumn) (col_index : Nat) (offsets : List Int) (st : WState) :
    writeVariableLengthNullableValue field_offset col col_index M.length offsets
        (some M) st =
      writeVariableLengthNullableValue field_offset
        ⟨col.type, M.map (fun j => col.values.getD j .null)⟩ col_index M.length
        offsets none st := by
  dsimp only [writeVariableLengthNullableValue]
  by_cases hraw : isDataTypeSupportRawData (removeNullable col.type)
  · rw [if_pos hraw, if_pos hraw]
    exact congrArg Except.ok (rowLoop_project M col.values _ st)
  · rw [if_neg hraw, if_neg hraw]
    exact rowLoopE_project M col.values _ st

theorem writeValue_project (M : List Nat) (field_offset : Int)
    (col : SparkColumn) (col_index : Nat) (offsets : List Int) (st : WState) :
    writeValue field_offset col col_index M.length offsets (some M) st =
      writeValue field_offset (projectColumn M col) col_index M.length offsets
        none st := by
  dsimp only [writeValue, projectColumn]
  by_cases hfix : isFixedLengthDataType (removeNullable col.type)
  · rw [if_pos hfix, if_pos hfix]
    by_cases hnul : col.isNullable
    · rw [if_pos hnul, if_pos (show SparkColumn.isNullable ⟨col.type,
          M.map (fun j => col.values.getD j .null)⟩ = true from hnul),
        writeFixedNull_project M field_offset col col_index offsets st.buf]
    · rw [if_neg hnul, if_neg (show ¬SparkColumn.isNullable ⟨col.type,
          M.map (fun j => col.values.getD j .null)⟩ = true from hnul),
        writeFixedNonNull_project M field_offset col offsets st.buf]
  · rw [if_neg hfix, if_neg hfix]
    by_cases hvar : isVariableLengthDataType (removeNullable col.type)
    · rw [if_pos hvar, if_pos hvar]
      by_cases hnul : col.isNullable
      · rw [if_pos hnul, if_pos (show SparkColumn.isNullable ⟨col.type,
            M.map (fun j => col.values.getD j .null)⟩ = true from hnul)]
        exact writeVariableNull_project M field_offset col col_index offsets st
      · rw [if_neg hnul, if_neg (show ¬SparkColumn.isNullable ⟨col.type,
            M.map (fun j => col.values.getD j .null)⟩ = true from hnul)]
        exact writeVariableNonNull_project M field_offset col offsets st
    · rw [if_neg hvar, if_neg hvar]

theorem construct_project (cols : List SparkColumn) (col_size row_size : Nat)
    (M : List Nat) :
    SparkRowInfo.construct cols col_size row_size (some M) =
      SparkRowInfo.construct (cols.map (projectColumn M)) col_size M.length
        none := by
  dsimp only [SparkRowInfo.construct, numRowsOf]
  have hfold : cols.foldlM
      (fun lengths col => columnLengths col M.length (some M) lengths)
      (List.replicate M.length (calculatedFixeSizePerRow col_size)) =
    (cols.map (projectColumn M)).foldlM
      (fun lengths col => columnLengths col M.length none lengths)
      (List.replicate M.length (calculatedFixeSizePerRow col_size)) := by
    rw [List.foldlM_map]
    exact foldlM_ext _ _ cols _ (fun c _ lengths => columnLengths_project M c lengths)
  rw [hfold]
  cases hf : (cols.map (projectColumn M)).foldlM
      (fun lengths col => columnLengths col M.length none lengths)
      (List.replicate M.length (calculatedFixeSizePerRow col_size)) with
  | error e => rfl
  | ok lengths' =>
    have htypes : (cols.map (projectColumn M)).map (fun c => c.type)
        = cols.map (fun c => c.type) := by
      rw [List.map_map]
      exact List.map_congr_left (fun c _ => rfl)
    rw [htypes]

theorem construct_num_rows (cols : List SparkColumn) (cs rs : Nat)
    (masks : Option (List Nat)) (info : SparkRowInfo)
    (h : SparkRowInfo.construct cols cs rs masks = .ok info) :
    info.num_rows = numRowsOf masks rs := by
  dsimp only [SparkRowInfo.construct] at h
  cases hf : cols.foldlM
      (fun lengths col => columnLengths col (numRowsOf masks rs) masks lengths)
      (List.replicate (numRowsOf masks rs) (calculatedFixeSizePerRow cs)) with
  | error e =>
    rw [hf] at h
    have h' : (.error e : Except CError SparkRowInfo) = .ok info := h
    exact Except.noConfusion h'
  | ok lengths' =>
    rw [hf] at h
    have h' : Except.ok ({ types := cols.map (fun c => c.type),
                           num_rows := numRowsOf masks rs,
                           num_cols := cs,
                           null_bitset_width_in_bytes := calculateBitSetWidthInBytes cs,
                           total_bytes := initTotalBytes (numRowsOf masks rs) lengths',
                           offsets := initOffsets (numRowsOf masks rs) lengths',
                           lengths := lengths',
                           buffer_cursor := List.replicate (numRowsOf masks rs)
                             (calculatedFixeSizePerRow cs),
                           buffer := [] } : SparkRowInfo) = .ok info := h
    obtain rfl := Except.ok.inj h'
    rfl

theorem convert_ok_num_rows (block : Block) (masks : Option (List Nat))
    (info : SparkRowInfo)
    (h : convertCHColumnToSparkRow block masks = .ok info) :
    info.num_rows = numRowsOf masks block.rows := by
  dsimp only [convertCHColumnToSparkRow] at h
  by_cases hz : block.cols.length = 0
  · rw [if_pos hz] at h
    exact Except.noConfusion h
  · rw [if_neg hz] at h
    cases hc : SparkRowInfo.construct block.cols block.cols.length block.rows
        masks with
    | error e =>
      rw [hc] at h
      have h' : (.error e : Except CError SparkRowInfo) = .ok info := h
      exact Except.noConfusion h'
    | ok info0 =>
      rw [hc] at h
      have h' : (match block.cols.enum.foldlM
          (fun st ic => writeValue (info0.getFieldOffset ic.1) ic.2 ic.1
            info0.num_rows info0.offsets masks st)
          (⟨List.replicate info0.total_bytes.toNat 0, info0.buffer_cursor⟩
            : WState) with
        | .error e => (.error e : Except CError SparkRowInfo)
        | .ok st => .ok { info0 with buffer := st.buf, buffer_cursor := st.cursors })
          = .ok info := h
      cases hfd : block.cols.enum.foldlM
          (fun st ic => writeValue (info0.getFieldOffset ic.1) ic.2 ic.1
            info0.num_rows info0.offsets masks st)
          (⟨List.replicate info0.total_bytes.toNat 0, info0.buffer_cursor⟩
            : WState) with
      | error e =>
        rw [hfd] at h'
        have h'' : (.error e : Except CError SparkRowInfo) = .ok info := h'
        exact Except.noConfusion h''
      | ok st =>
        rw [hfd] at h'
        have h'' : Except.ok { info0 with buffer := st.buf, buffer_cursor := st.cursors }
            = .ok info := h'
        obtain rfl := Except.ok.inj h''
        show info0.num_rows = _
        exact construct_num_rows block.cols block.cols.length block.rows masks
          info0 hc

theorem convert_project (block : Block) (M : List Nat) :
    convertCHColumnToSparkRow block (some M) =
      convertCHColumnToSparkRow (projectBlock block M) none := by
  dsimp only [convertCHColumnToSparkRow, projectBlock]
  rw [List.length_map]
  by_cases hz : block.cols.length = 0
  · rw [if_pos hz, if_pos hz]
  · rw [if_neg hz, if_neg hz,
      construct_project block.cols block.cols.length block.rows M]
    cases hc : SparkRowInfo.construct (block.cols.map (projectColumn M))
        block.cols.length M.length none with
    | error e => rfl
    | ok info0 =>
      have hnr : info0.num_rows = M.length :=
        construct_num_rows _ _ _ _ _ hc
      have hfold : block.cols.enum.foldlM
          (fun st ic => writeValue (info0.getFieldOffset ic.1) ic.2 ic.1
            info0.num_rows info0.offsets (some M) st)
          (⟨List.replicate info0.total_bytes.toNat 0, info0.buffer_cursor⟩
            : WState) =
        (block.cols.map (projectColumn M)).enum.foldlM
          (fun st ic => writeValue (info0.getFieldOffset ic.1) ic.2 ic.1
            info0.num_rows info0.offsets none st)
          (⟨List.replicate info0.total_bytes.toNat 0, info0.buffer_cursor⟩
            : WState) := by
        rw [List.enum_map, List.foldlM_map, hnr]
        refine foldlM_ext _ _ _ _ ?_
        intro ic _ st
        dsimp only [Prod.map, id]
        exact writeValue_project M (info0.getFieldOffset ic.1) ic.2 ic.1
          info0.offsets st
      show (match block.cols.enum.foldlM
          (fun st ic => writeValue (info0.getFieldOffset ic.1) ic.2 ic.1
            info0.num_rows info0.offsets (some M) st)
          (⟨List.replicate info0.total_bytes.toNat 0, info0.buffer_cursor⟩
            : WState) with
        | .error e => (.error e : Except CError SparkRowInfo)
        | .ok st => .ok { info0 with buffer := st.buf, buffer_cursor := st.cursors })
          = _
      rw [hfold]

/-! ## Claim C5 -/

/-- C5: serializing a block with a mask `M` (duplicates and reorderings
permitted) is byte-for-byte identical to serializing the projected block
`project(B, M)` (whose row `i` is source row `M[i]`) with no mask — the whole
result (offsets, lengths, total bytes and buffer) coincides — and a masked
conversion that succeeds reports `num_rows = M.length`. -/
theorem C5_mask_fidelity :
    (∀ (block : Block) (M : List Nat),
      convertCHColumnToSparkRow block (some M) =
        convertCHColumnToSparkRow (projectBlock block M) none) ∧
    (∀ (block : Block) (M : List Nat) (info : SparkRowInfo),
      convertCHColumnToSparkRow block (some M) = .ok info →
      info.num_rows = M.length) := by
  constructor
  · exact convert_project
  · intro block M info h
    exact convert_ok_num_rows block (some M) info h

theorem C5_mask_fidelity_witness :
    (convertCHColumnToSparkRow ⟨[⟨.int64, [.int 7]⟩], 1⟩ (some [0]) =
      convertCHColumnToSparkRow (projectBlock ⟨[⟨.int64, [.int 7]⟩], 1⟩ [0]) none) ∧
    ({ types := [.int64], num_rows := 1, num_cols := 1,
       null_bitset_width_in_bytes := 8, total_bytes := 16, offsets := [0],
       lengths := [16], buffer_cursor := [16],
       buffer := [0, 0, 0, 0, 0, 0, 0, 0, 7, 0, 0, 0, 0, 0, 0, 0] }
      : SparkRowInfo).num_rows = ([0] : List Nat).length :=
  ⟨C5_mask_fidelity.1 ⟨[⟨.int64, [.int 7]⟩], 1⟩ [0],
   C5_mask_fidelity.2 ⟨[⟨.int64, [.int 7]⟩], 1⟩ [0]
     { types := [.int64], num_rows := 1, num_cols := 1,
       null_bitset_width_in_bytes := 8, total_bytes := 16, offsets := [0],
       lengths := [16], buffer_cursor := [16],
       buffer := [0, 0, 0, 0, 0, 0, 0, 0, 7, 0, 0, 0, 0, 0, 0, 0] }
     rfl⟩

/-! ## Error shapes (claim C7): the empty-schema error is produced at exactly
one place, so every other failure carries `unknownType` or `typeMismatch`. -/

theorem calculateTuplePad_err :
    ∀ (ts : List SparkDataType) (e : CError),
      calculateTuplePad ts = .error e → e ≠ .emptySchema := by
  intro ts
  induction ts with
  | nil => intro e h; exact Except.noConfusion h
  | cons t ts ih =>
    intro e h
    dsimp only [calculateTuplePad] at h
    by_cases hc : calculatorCtorOk t
    · rw [if_pos hc] at h
      exact ih e h
    · rw [if_neg hc] at h
      obtain rfl := Except.error.inj h
      decide

theorem calculateList_err (nested : SparkDataType) :
    ∀ (elems : List Field),
      (∀ f ∈ elems, ∀ (tw : SparkDataType) (e : CError),
        calculateW tw f = .error e → e ≠ .emptySchema) →
      ∀ (e : CError), calculateList nested elems = .error e → e ≠ .emptySchema := by
  intro elems
  induction elems with
  | nil => intro _ e h; exact Except.noConfusion h
  | cons f fs ih =>
    intro IH e h
    rw [calculateList_cons] at h
    cases h1 : calculateW (removeNullable nested) f with
    | error e1 =>
      rw [h1] at h
      obtain rfl := Except.error.inj h
      exact IH f (List.mem_cons_self f fs) _ _ h1
    | ok n =>
      rw [h1] at h
      have h' : (match calculateList nested fs with
        | .error e => (.error e : Except CError Int)
        | .ok s => .ok (n + s)) = .error e := h
      cases h2 : calculateList nested fs with
      | error e2 =>
        rw [h2] at h'
        obtain rfl := Except.error.inj h'
        exact ih (fun g hg => IH g (List.mem_cons_of_mem _ hg)) _ h2
      | ok s =>
        rw [h2] at h'
        exact Except.noConfusion h'

theorem calculateTupleFields_err :
    ∀ (fs : List Field) (ts : List SparkDataType),
      (∀ f ∈ fs, ∀ (tw : SparkDataType) (e : CError),
        calculateW tw f = .error e → e ≠ .emptySchema) →
      ∀ (e : CError), calculateTupleFields ts fs = .error e → e ≠ .emptySchema := by
  intro fs
  induction fs with
  | nil =>
    intro ts _ e h
    cases ts with
    | nil => exact calculateTuplePad_err [] e h
    | cons t ts' => exact calculateTuplePad_err (t :: ts') e h
  | cons f fs ih =>
    intro ts IH e h
    cases ts with
    | nil => exact Except.noConfusion h
    | cons t ts' =>
      have h' : (match calculateW (removeNullable t) f with
        | .error e => (.error e : Except CError Int)
        | .ok n =>
          match calculateTupleFields ts' fs with
          | .error e => .error e
          | .ok s => .ok (n + s)) = .error e := h
      cases h1 : calculateW (removeNullable t) f with
      | error e1 =>
        rw [h1] at h'
        obtain rfl := Except.error.inj h'
        exact IH f (List.mem_cons_self f fs) _ _ h1
      | ok n =>
        rw [h1] at h'
        have h'' : (match calculateTupleFields ts' fs with
          | .error e => (.error e : Except CError Int)
          | .ok s => .ok (n + s)) = .error e := h'
        cases h2 : calculateTupleFields ts' fs with
        | error e2 =>
          rw [h2] at h''
          obtain rfl := Except.error.inj h''
          exact ih ts' (fun g hg => IH g (List.mem_cons_of_mem _ hg)) _ h2
        | ok s =>
          rw [h2] at h''
          exact Except.noConfusion h''

theorem calculateW_err :
    ∀ (N : Nat) (f : Field), Field.sz f ≤ N →
      ∀ (tw : SparkDataType) (e : CError),
        calculateW tw f = .error e → e ≠ .emptySchema := by
  intro N
  induction N with
  | zero =>
    intro f hsz
    exact absurd (Field.sz_pos f) (by omega)
  | succ N ihN =>
    intro f hsz tw e h
    cases f with
    | null =>
      cases tw <;>
        first
          | exact Except.noConfusion h
          | (obtain rfl := Except.error.inj h; decide)
    | int v =>
      cases tw <;>
        first
          | exact Except.noConfusion h
          | (obtain rfl := Except.error.inj h; decide)
    | str bytes =>
      cases tw <;>
        first
          | exact Except.noConfusion h
          | (obtain rfl := Except.error.inj h; decide)
    | dec128 v =>
      cases tw <;>
        first
          | exact Except.noConfusion h
          | (obtain rfl := Except.error.inj h; decide)
    | arr elems =>
      cases tw <;>
        try (first
          | exact Except.noConfusion h
          | (obtain rfl := Except.error.inj h; decide))
      case array nested =>
        have hszl : Field.szList elems ≤ N := by
          have hse : Field.sz (.arr elems) = 1 + Field.szList elems := rfl
          omega
        rw [calculateW_arr] at h
        by_cases hctor : calculatorCtorOk nested
        · rw [if_neg (not_not_intro hctor)] at h
          cases h1 : calculateList nested elems with
          | error e1 =>
            rw [h1] at h
            obtain rfl := Except.error.inj h
            exact calculateList_err nested elems
              (fun g hg => ihN g
                (by have := Field.sz_lt_szList_of_mem hg; omega)) _ h1
          | ok s =>
            rw [h1] at h
            exact Except.noConfusion h
        · rw [if_pos hctor] at h
          obtain rfl := Except.error.inj h
          decide
    | map ks vs =>
      cases tw <;>
        try (first
          | exact Except.noConfusion h
          | (obtain rfl := Except.error.inj h; decide))
      case map kt vt =>
        have hszl : Field.szList ks ≤ N ∧ Field.szList vs ≤ N := by
          have hse : Field.sz (.map ks vs)
              = 1 + Field.szList ks + Field.szList vs := rfl
          omega
        rw [calculateW_map] at h
        by_cases hc1 : calculatorCtorOk kt
        · rw [if_neg (not_not_intro hc1)] at h
          cases h1 : calculateList kt ks with
          | error e1 =>
            rw [h1] at h
            obtain rfl := Except.error.inj h
            exact calculateList_err kt ks
              (fun g hg => ihN g
                (by have := Field.sz_lt_szList_of_mem hg; omega)) _ h1
          | ok sK =>
            rw [h1] at h
            have h' : (if ¬calculatorCtorOk vt then
                (.error .unknownType : Except CError Int)
              else match calculateList vt vs with
                | .error e => .error e
                | .ok s_val => .ok (8 + (arrayHeaderLength kt ks.length + sK)
                    + (arrayHeaderLength vt vs.length + s_val))) = .error e := h
            by_cases hc2 : calculatorCtorOk vt
            · rw [if_neg (not_not_intro hc2)] at h'
              cases h2 : calculateList vt vs with
              | error e2 =>
                rw [h2] at h'
                obtain rfl := Except.error.inj h'
                exact calculateList_err vt vs
                  (fun g hg => ihN g
                    (by have := Field.sz_lt_szList_of_mem hg; omega)) _ h2
              | ok sV =>
                rw [h2] at h'
                exact Except.noConfusion h'
            · rw [if_pos hc2] at h'
              obtain rfl := Except.error.inj h'
              decide
        · rw [if_pos hc1] at h
          obtain rfl := Except.error.inj h
          decide
    | tup fs =>
      cases tw <;>
        try (first
          | exact Except.noConfusion h
          | (obtain rfl := Except.error.inj h; decide))
      case tuple ts =>
        have hszl : Field.szList fs ≤ N := by
          have hse : Field.sz (.tup fs) = 1 + Field.szList fs := rfl
          omega
        rw [calculateW_tup] at h
        cases h1 : calculateTupleFields ts fs with
        | error e1 =>
          rw [h1] at h
          obtain rfl := Except.error.inj h
          exact calculateTupleFields_err fs ts
            (fun g hg => ihN g
              (by have := Field.sz_lt_szList_of_mem hg; omega)) _ h1
        | ok s =>
          rw [h1] at h
          exact Except.noConfusion h

theorem fixedWriteW_err (tw : SparkDataType) (f : Field) (e : CError)
    (h : FixedLengthDataWriter.writeW tw f = .error e) : e ≠ .emptySchema := by
  cases f <;> cases tw <;>
    first
      | exact Except.noConfusion h
      | (obtain rfl := Except.error.inj h; decide)

theorem writeElemsFixed_err (nested : SparkDataType) (offset start lnb esz : Int) :
    ∀ (elems : List Field) (i : Nat) (buf : List Nat) (e : CError),
      writeElemsFixed nested offset start lnb esz elems i buf = .error e →
      e ≠ .emptySchema := by
  intro elems
  induction elems with
  | nil => intro i buf e h; exact Except.noConfusion h
  | cons f fs ih =>
    intro i buf e h
    rw [writeElemsFixed_cons] at h
    by_cases hn : f.isNull
    · rw [if_pos hn] at h
      exact ih (i + 1) _ e h
    · rw [if_neg hn] at h
      cases h1 : FixedLengthDataWriter.write nested f with
      | error e1 =>
        rw [h1] at h
        obtain rfl := Except.error.inj h
        exact fixedWriteW_err (removeNullable nested) f _ h1
      | ok bytes =>
        rw [h1] at h
        exact ih (i + 1) _ e h

theorem writeElemsVar_err (nested : SparkDataType) :
    ∀ (elems : List Field),
      (∀ g ∈ elems, ∀ (tw : SparkDataType) (offsets : List Int) (row : Nat)
        (p : Int) (st : WState) (e : CError),
        VariableLengthDataWriter.writeW tw offsets row g p st = .error e →
        e ≠ .emptySchema) →
      ∀ (offsets : List Int) (row : Nat) (offset start lnb esz : Int) (i : Nat)
        (st : WState) (e : CError),
        writeElemsVar nested offsets row offset start lnb esz elems i st
          = .error e → e ≠ .emptySchema := by
  intro elems
  induction elems with
  | nil => intro _ offsets row offset start lnb esz i st e h; exact Except.noConfusion h
  | cons f fs ih =>
    intro IH offsets row offset start lnb esz i st e h
    rw [writeElemsVar_cons] at h
    by_cases hn : f.isNull
    · rw [if_pos hn] at h
      exact ih (fun g hg => IH g (List.mem_cons_of_mem _ hg))
        offsets row offset start lnb esz (i + 1) _ e h
    · rw [if_neg hn] at h
      cases h1 : VariableLengthDataWriter.writeW (removeNullable nested) offsets row
          f start st with
      | error e1 =>
        rw [h1] at h
        obtain rfl := Except.error.inj h
        exact IH f (List.mem_cons_self f fs) _ _ _ _ _ _ h1
      | ok p =>
        rw [h1] at h
        obtain ⟨oas, st'⟩ := p
        exact ih (fun g hg => IH g (List.mem_cons_of_mem _ hg))
          offsets row offset start lnb esz (i + 1) _ e h

theorem writeStructFields_err :
    ∀ (fts : List SparkDataType) (fvs : List Field),
      (∀ g ∈ fvs, ∀ (tw : SparkDataType) (offsets : List Int) (row : Nat)
        (p : Int) (st : WState) (e : CError),
        VariableLengthDataWriter.writeW tw offsets row g p st = .error e →
        e ≠ .emptySchema) →
      ∀ (offsets : List Int) (row : Nat) (offset start lnb : Int) (i : Nat)
        (st : WState) (e : CError),
        writeStructFields offsets row offset start lnb fts fvs i st = .error e →
        e ≠ .emptySchema := by
  intro fts
  induction fts with
  | nil =>
    intro fvs _ offsets row offset start lnb i st e h
    cases fvs with
    | nil => exact Except.noConfusion h
    | cons fv fvs' => exact Except.noConfusion h
  | cons ft fts' ih =>
    intro fvs IH offsets row offset start lnb i st e h
    cases fvs with
    | nil => exact Except.noConfusion h
    | cons fv fvs' =>
      rw [writeStructFields_cons_cons] at h
      by_cases hn : fv.isNull
      · rw [if_pos hn] at h
        exact ih fvs' (fun g hg => IH g (List.mem_cons_of_mem _ hg))
          offsets row offset start lnb (i + 1) _ e h
      · rw [if_neg hn] at h
        by_cases hfix : isFixedLengthDataType (removeNullable ft)
        · rw [if_pos hfix] at h
          cases h1 : FixedLengthDataWriter.write ft fv with
          | error e1 =>
            rw [h1] at h
            obtain rfl := Except.error.inj h
            exact fixedWriteW_err (removeNullable ft) fv _ h1
          | ok bytes =>
            rw [h1] at h
            exact ih fvs' (fun g hg => IH g (List.mem_cons_of_mem _ hg))
              offsets row offset start lnb (i + 1) _ e h
        · rw [if_neg hfix] at h
          cases h1 : VariableLengthDataWriter.writeW (removeNullable ft) offsets row
              fv start st with
          | error e1 =>
            rw [h1] at h
            obtain rfl := Except.error.inj h
            exact IH fv (List.mem_cons_self fv fvs') _ _ _ _ _ _ h1
          | ok p =>
            rw [h1] at h
            obtain ⟨oas, st'⟩ := p
            exact ih fvs' (fun g hg => IH g (List.mem_cons_of_mem _ hg))
              offsets row offset start lnb (i + 1) _ e h

theorem writeUnsafeArray_err (nested : SparkDataType) (elems : List Field)
    (IH : ∀ g ∈ elems, ∀ (tw : SparkDataType) (offsets : List Int) (row : Nat)
      (p : Int) (st : WState) (e : CError),
      VariableLengthDataWriter.writeW tw offsets row g p st = .error e →
      e ≠ .emptySchema) :
    ∀ (offsets : List Int) (row : Nat) (p : Int) (st : WState) (e : CError),
      writeUnsafeArray nested offsets row elems p st = .error e →
      e ≠ .emptySchema := by
  intro offsets row p st e h
  rw [writeUnsafeArray_eq] at h
  by_cases hz : elems.length = 0
  · rw [if_pos hz] at h
    exact Except.noConfusion h
  · rw [if_neg hz] at h
    by_cases hfix : isFixedLengthDataType (removeNullable nested)
    · rw [if_pos hfix] at h
      cases h1 : writeElemsFixed nested (offsets.getD row 0) (st.cursors.getD row 0)
          (calculateBitSetWidthInBytes elems.length) (getArrayElementSize nested)
          elems 0
          (patchBytes st.buf (offsets.getD row 0 + st.cursors.getD row 0).toNat
            (encodeLE elems.length 8)) with
      | error e1 =>
        rw [h1] at h
        obtain rfl := Except.error.inj h
        exact writeElemsFixed_err nested _ _ _ _ elems 0 _ _ h1
      | ok buf2 =>
        rw [h1] at h
        exact Except.noConfusion h
    · rw [if_neg hfix] at h
      by_cases hvar : isVariableLengthDataType (removeNullable nested)
      · rw [if_neg (by simp [hvar])] at h
        cases h1 : writeElemsVar nested offsets row (offsets.getD row 0)
            (st.cursors.getD row 0) (calculateBitSetWidthInBytes elems.length)
            (getArrayElementSize nested) elems 0
            ⟨patchBytes st.buf (offsets.getD row 0 + st.cursors.getD row 0).toNat
               (encodeLE elems.length 8),
             st.cursors.set row (st.cursors.getD row 0 + 8 +
               calculateBitSetWidthInBytes elems.length +
               roundNumberOfBytesToNearestWord
                 (getArrayElementSize nested * elems.length))⟩ with
        | error e1 =>
          rw [h1] at h
          obtain rfl := Except.error.inj h
          exact writeElemsVar_err nested elems IH offsets row _ _ _ _ 0 _ _ h1
        | ok st2 =>
          rw [h1] at h
          exact Except.noConfusion h
      · rw [if_pos (by simp [hvar])] at h
        obtain rfl := Except.error.inj h
        decide

theorem writeW_err :
    ∀ (N : Nat) (f : Field), Field.sz f ≤ N →
      ∀ (tw : SparkDataType) (offsets : List Int) (row : Nat) (p : Int)
        (st : WState) (e : CError),
        VariableLengthDataWriter.writeW tw offsets row f p st = .error e →
        e ≠ .emptySchema := by
  intro N
  induction N with
  | zero =>
    intro f hsz
    exact absurd (Field.sz_pos f) (by omega)
  | succ N ihN =>
    intro f hsz tw offsets row p st e h
    cases f with
    | null =>
      cases tw <;>
        first
          | exact Except.noConfusion h
          | (obtain rfl := Except.error.inj h; decide)
    | int v =>
      cases tw <;>
        first
          | exact Except.noConfusion h
          | (obtain rfl := Except.error.inj h; decide)
    | str bytes =>
      cases tw <;>
        first
          | exact Except.noConfusion h
          | (obtain rfl := Except.error.inj h; decide)
    | dec128 v =>
      cases tw <;>
        first
          | exact Except.noConfusion h
          | (obtain rfl := Except.error.inj h; decide)
    | arr elems =>
      cases tw <;>
        try (first
          | exact Except.noConfusion h
          | (obtain rfl := Except.error.inj h; decide))
      case array nested =>
        have hszl : Field.szList elems ≤ N := by
          have hse : Field.sz (.arr elems) = 1 + Field.szList elems := rfl
          omega
        rw [writeW_arr] at h
        exact writeUnsafeArray_err nested elems
          (fun g hg => ihN g (by have := Field.sz_lt_szList_of_mem hg; omega))
          offsets row p st e h
    | map ks vs =>
      cases tw <;>
        try (first
          | exact Except.noConfusion h
          | (obtain rfl := Except.error.inj h; decide))
      case map kt vt =>
        have hszl : Field.szList ks ≤ N ∧ Field.szList vs ≤ N := by
          have hse : Field.sz (.map ks vs)
              = 1 + Field.szList ks + Field.szList vs := rfl
          omega
        rw [writeW_map_eq] at h
        cases h1 : writeUnsafeArray kt offsets row ks (st.cursors.getD row 0 + 8)
            ⟨st.buf, st.cursors.set row (st.cursors.getD row 0 + 8)⟩ with
        | error e1 =>
          rw [h1] at h
          obtain rfl := Except.error.inj h
          exact writeUnsafeArray_err kt ks
            (fun g hg => ihN g (by have := Field.sz_lt_szList_of_mem hg; omega))
            offsets row _ _ _ h1
        | ok pK =>
          rw [h1] at h
          obtain ⟨koas, stK⟩ := pK
          have h' : (match writeUnsafeArray vt offsets row vs
              (st.cursors.getD row 0 + 8 + extractSize koas)
              ⟨patchBytes stK.buf
                 (offsets.getD row 0 + st.cursors.getD row 0).toNat
                 (encodeILE (extractSize koas) 8), stK.cursors⟩ with
            | .error e => (.error e : Except CError (Int × WState))
            | .ok (_, stV) =>
              .ok (getOffsetAndSize (st.cursors.getD row 0 - p)
                    (stV.cursors.getD row 0 - st.cursors.getD row 0), stV))
              = .error e := h
          cases h2 : writeUnsafeArray vt offsets row vs
              (st.cursors.getD row 0 + 8 + extractSize koas)
              ⟨patchBytes stK.buf
                 (offsets.getD row 0 + st.cursors.getD row 0).toNat
                 (encodeILE (extractSize koas) 8), stK.cursors⟩ with
          | error e2 =>
            rw [h2] at h'
            obtain rfl := Except.error.inj h'
            exact writeUnsafeArray_err vt vs
              (fun g hg => ihN g
                (by have := Field.sz_lt_szList_of_mem hg; omega))
              offsets row _ _ _ h2
          | ok pV =>
            rw [h2] at h'
            exact Except.noConfusion h'
    | tup fs =>
      cases tw <;>
        try (first
          | exact Except.noConfusion h
          | (obtain rfl := Except.error.inj h; decide))
      case tuple ts =>
        have hszl : Field.szList fs ≤ N := by
          have hse : Field.sz (.tup fs) = 1 + Field.szList fs := rfl
          omega
        rw [writeW_tup_eq] at h
        by_cases hz : ts.length = 0
        · rw [if_pos hz] at h
          exact Except.noConfusion h
        · rw [if_neg hz] at h
          cases h1 : writeStructFields offsets row (offsets.getD row 0)
              (st.cursors.getD row 0) (calculateBitSetWidthInBytes ts.length) ts fs 0
              ⟨st.buf, st.cursors.set row (st.cursors.getD row 0 +
                 calculateBitSetWidthInBytes ts.length + (ts.length : Int) * 8)⟩ with
          | error e1 =>
            rw [h1] at h
            obtain rfl := Except.error.inj h
            exact writeStructFields_err ts fs
              (fun g hg => ihN g
                (by have := Field.sz_lt_szList_of_mem hg; omega))
              offsets row _ _ _ 0 _ _ h1
          | ok st2 =>
            rw [h1] at h
            exact Except.noConfusion h

theorem foldlME_err {α β : Type} (g : α → β → Except CError α)
    (hg : ∀ a b e, g a b = .error e → e ≠ .emptySchema) :
    ∀ (l : List β) (init : α) (e : CError),
      l.foldlM g init = .error e → e ≠ .emptySchema := by
  intro l
  induction l with
  | nil => intro init e h; exact Except.noConfusion h
  | cons b bs ih =>
    intro init e h
    rw [List.foldlM_cons] at h
    cases h1 : g init b with
    | error e1 =>
      rw [h1] at h
      have h' : (.error e1 : Except CError α) = .error e := h
      obtain rfl := Except.error.inj h'
      exact hg init b _ h1
    | ok a =>
      rw [h1] at h
      have h' : bs.foldlM g a = .error e := h
      exact ih a e h'

theorem writeFixedNonNull_err (field_offset : Int) (col : SparkColumn)
    (num_rows : Nat) (offsets : List Int) (masks : Option (List Nat))
    (buf : List Nat) (e : CError)
    (h : writeFixedLengthNonNullableValue field_offset col num_rows offsets masks
      buf = .error e) : e ≠ .emptySchema := by
  dsimp only [writeFixedLengthNonNullableValue] at h
  by_cases hd : isDecimal32 (removeNullable col.type)
  · rw [if_pos hd] at h
    refine foldlME_err _ ?_ (List.range num_rows) buf e h
    intro b i e1 h1
    dsimp only at h1
    cases h2 : FixedLengthDataWriter.write col.type
        (col.values.getD (rowIdxOf masks i) .null) with
    | error e2 =>
      rw [h2] at h1
      obtain rfl := Except.error.inj h1
      exact fixedWriteW_err (removeNullable col.type) _ _ h2
    | ok bytes =>
      rw [h2] at h1
      exact Except.noConfusion h1
  · rw [if_neg hd] at h
    exact Except.noConfusion h

theorem writeFixedNull_err (field_offset : Int) (col : SparkColumn)
    (col_index : Nat) (num_rows : Nat) (offsets : List Int)
    (masks : Option (List Nat)) (buf : List Nat) (e : CError)
    (h : writeFixedLengthNullableValue field_offset col col_index num_rows offsets
      masks buf = .error e) : e ≠ .emptySchema := by
  dsimp only [writeFixedLengthNullableValue] at h
  by_cases hd : isDecimal32 (removeNullable col.type)
  · rw [if_pos hd] at h
    refine foldlME_err _ ?_ (List.range num_rows) buf e h
    intro b i e1 h1
    dsimp only at h1
    by_cases hn : (col.values.getD (rowIdxOf masks i) .null).isNull
    · rw [if_pos hn] at h1
      exact Except.noConfusion h1
    · rw [if_neg hn] at h1
      cases h2 : FixedLengthDataWriter.write col.type
          (col.values.getD (rowIdxOf masks i) .null) with
      | error e2 =>
        rw [h2] at h1
        obtain rfl := Except.error.inj h1
        exact fixedWriteW_err (removeNullable col.type) _ _ h2
      | ok bytes =>
        rw [h2] at h1
        exact Except.noConfusion h1
  · rw [if_neg hd] at h
    exact Except.noConfusion h

theorem writeVariableNonNull_err (field_offset : Int) (col : SparkColumn)
    (num_rows : Nat) (offsets : List Int) (masks : Option (List Nat))
    (st : WState) (e : CError)
    (h : writeVariableLengthNonNullableValue field_offset col num_rows offsets
      masks st = .error e) : e ≠ .emptySchema := by
  dsimp only [writeVariableLengthNonNullableValue] at h
  by_cases hraw : isDataTypeSupportRawData (removeNullable col.type)
  · rw [if_pos hraw] at h
    by_cases hbe : isBigEndianInSparkRow (removeNullable col.type)
    · rw [if_neg (not_not_intro hbe)] at h
      exact Except.noConfusion h
    · rw [if_pos hbe] at h
      exact Except.noConfusion h
  · rw [if_neg hraw] at h
    refine foldlME_err _ ?_ (List.range num_rows) st e h
    intro b i e1 h1
    dsimp only at h1
    cases h2 : VariableLengthDataWriter.write col.type offsets i
        (col.values.getD (rowIdxOf masks i) .null) 0 b with
    | error e2 =>
      rw [h2] at h1
      obtain rfl := Except.error.inj h1
      exact writeW_err (Field.sz (col.values.getD (rowIdxOf masks i) .null)) _
        (le_refl _) _ _ _ _ _ _ h2
    | ok q =>
      rw [h2] at h1
      obtain ⟨oas, st'⟩ := q
      exact Except.noConfusion h1

theorem writeVariableNull_err (field_offset : Int) (col : SparkColumn)
    (col_index : Nat) (num_rows : Nat) (offsets : List Int)
    (masks : Option (List Nat)) (st : WState) (e : CError)
    (h : writeVariableLengthNullableValue field_offset col col_index num_rows
      offsets masks st = .error e) : e ≠ .emptySchema := by
  dsimp only [writeVariableLengthNullableValue] at h
  by_cases hraw : isDataTypeSupportRawData (removeNullable col.type)
  · rw [if_pos hraw] at h
    exact Except.noConfusion h
  · rw [if_neg hraw] at h
    refine foldlME_err _ ?_ (List.range num_rows) st e h
    intro b i e1 h1
    dsimp only at h1
    by_cases hn : (col.values.getD (rowIdxOf masks i) .null).isNull
    · rw [if_pos hn] at h1
      exact Except.noConfusion h1
    · rw [if_neg hn] at h1
      cases h2 : VariableLengthDataWriter.write col.type offsets i
          (col.values.getD (rowIdxOf masks i) .null) 0 b with
      | error e2 =>
        rw [h2] at h1
        obtain rfl := Except.error.inj h1
        exact writeW_err (Field.sz (col.values.getD (rowIdxOf masks i) .null)) _
          (le_refl _) _ _ _ _ _ _ h2
      | ok q =>
        rw [h2] at h1
        obtain ⟨oas, st'⟩ := q
        exact Except.noConfusion h1

theorem writeValue_err (field_offset : Int) (col : SparkColumn) (col_index : Nat)
    (num_rows : Nat) (offsets : List Int) (masks : Option (List Nat))
    (st : WState) (e : CError)
    (h : writeValue field_offset col col_index num_rows offsets masks st
      = .error e) : e ≠ .emptySchema := by
  dsimp only [writeValue] at h
  by_cases hfix : isFixedLengthDataType (removeNullable col.type)
  · rw [if_pos hfix] at h
    by_cases hnul : col.isNullable
    · rw [if_pos hnul] at h
      cases h1 : writeFixedLengthNullableValue field_offset col col_index num_rows
          offsets masks st.buf with
      | error e1 =>
        rw [h1] at h
        obtain rfl := Except.error.inj h
        exact writeFixedNull_err _ _ _ _ _ _ _ _ h1
      | ok buf =>
        rw [h1] at h
        exact Except.noConfusion h
    · rw [if_neg hnul] at h
      cases h1 : writeFixedLengthNonNullableValue field_offset col num_rows
          offsets masks st.buf with
      | error e1 =>
        rw [h1] at h
        obtain rfl := Except.error.inj h
        exact writeFixedNonNull_err _ _ _ _ _ _ _ h1
      | ok buf =>
        rw [h1] at h
        exact Except.noConfusion h
  · rw [if_neg hfix] at h
    by_cases hvar : isVariableLengthDataType (removeNullable col.type)
    · rw [if_pos hvar] at h
      by_cases hnul : col.isNullable
      · rw [if_pos hnul] at h
        exact writeVariableNull_err _ _ _ _ _ _ _ _ h
      · rw [if_neg hnul] at h
        exact writeVariableNonNull_err _ _ _ _ _ _ _ h
    · rw [if_neg hvar] at h
      obtain rfl := Except.error.inj h
      decide

theorem columnLengths_err (col : SparkColumn) (num_rows : Nat)
    (masks : Option (List Nat)) (lengths : List Int) (e : CError)
    (h : columnLengths col num_rows masks lengths = .error e) :
    e ≠ .emptySchema := by
  dsimp only [columnLengths] at h
  by_cases hvar : isVariableLengthDataType (removeNullable col.type)
  · rw [if_pos hvar] at h
    by_cases hraw : isDataTypeSupportRawData (removeNullable col.type)
    · rw [if_pos hraw] at h
      by_cases hnul : col.isNullable
      · rw [if_pos hnul] at h
        exact Except.noConfusion h
      · rw [if_neg hnul] at h
        exact Except.noConfusion h
    · rw [if_neg hraw] at h
      refine foldlME_err _ ?_ (List.range num_rows) lengths e h
      intro b i e1 h1
      dsimp only at h1
      cases h2 : calculate (removeNullable col.type)
          (col.values.getD (rowIdxOf masks i) .null) with
      | error e2 =>
        rw [h2] at h1
        obtain rfl := Except.error.inj h1
        exact calculateW_err
          (Field.sz (col.values.getD (rowIdxOf masks i) .null)) _ (le_refl _)
          _ _ h2
      | ok n =>
        rw [h2] at h1
        exact Except.noConfusion h1
  · rw [if_neg hvar] at h
    exact Except.noConfusion h

theorem construct_err (cols : List SparkColumn) (cs rs : Nat)
    (masks : Option (List Nat)) (e : CError)
    (h : SparkRowInfo.construct cols cs rs masks = .error e) :
    e ≠ .emptySchema := by
  dsimp only [SparkRowInfo.construct] at h
  cases h1 : cols.foldlM
      (fun lengths col => columnLengths col (numRowsOf masks rs) masks lengths)
      (List.replicate (numRowsOf masks rs) (calculatedFixeSizePerRow cs)) with
  | error e1 =>
    rw [h1] at h
    have h' : (.error e1 : Except CError SparkRowInfo) = .error e := h
    obtain rfl := Except.error.inj h'
    exact foldlME_err _ (fun a b e2 h2 => columnLengths_err b _ _ _ _ h2)
      cols _ _ h1
  | ok lengths' =>
    rw [h1] at h
    exact Except.noConfusion h

theorem writeValue_unsupported (field_offset : Int) (col : SparkColumn)
    (col_index : Nat) (num_rows : Nat) (offsets : List Int)
    (masks : Option (List Nat)) (st : WState)
    (hfix : isFixedLengthDataType (removeNullable col.type) = false)
    (hvar : isVariableLengthDataType (removeNullable col.type) = false) :
    writeValue field_offset col col_index num_rows offsets masks st
      = .error .unknownType := by
  dsimp only [writeValue]
  rw [if_neg (by simp [hfix]), if_neg (by simp [hvar])]

theorem colsFold_ok :
    ∀ (cols : List SparkColumn),
      (∀ c ∈ cols, colWellTyped c = true ∨
        (isFixedLengthDataType (removeNullable c.type) = false ∧
         isVariableLengthDataType (removeNullable c.type) = false)) →
    ∀ (num_rows : Nat) (masks : Option (List Nat)) (lengths : List Int),
      ∃ lengths', cols.foldlM
        (fun lengths col => columnLengths col num_rows masks lengths) lengths
          = .ok lengths' := by
  intro cols
  induction cols with
  | nil => exact fun _ num_rows masks lengths => ⟨lengths, rfl⟩
  | cons c cs ih =>
    intro hall num_rows masks lengths
    have hstep : ∃ lengths1, columnLengths c num_rows masks lengths = .ok lengths1 := by
      rcases hall c (List.mem_cons_self c cs) with hwt | huns
      · obtain ⟨st', lengths1, _, hg, _, _⟩ :=
          writeValue_columnLengths_agree c hwt 0 0 num_rows [] masks ⟨[], lengths⟩
        exact ⟨lengths1, hg⟩
      · exact ⟨lengths, columnLengths_notVar c num_rows masks lengths huns.2⟩
    obtain ⟨lengths1, h1⟩ := hstep
    obtain ⟨lengths', h2⟩ := ih (fun d hd => hall d (List.mem_cons_of_mem c hd))
      num_rows masks lengths1
    refine ⟨lengths', ?_⟩
    rw [List.foldlM_cons, h1]
    exact h2

theorem colsW_unsupported :
    ∀ (cols : List SparkColumn),
      (∀ c ∈ cols, colWellTyped c = true ∨
        (isFixedLengthDataType (removeNullable c.type) = false ∧
         isVariableLengthDataType (removeNullable c.type) = false)) →
      (∃ c ∈ cols, isFixedLengthDataType (removeNullable c.type) = false ∧
         isVariableLengthDataType (removeNullable c.type) = false) →
    ∀ (s : Nat) (st : WState) (num_rows : Nat) (masks : Option (List Nat))
      (offsets : List Int) (foff : Nat → Int),
      (cols.enumFrom s).foldlM (fun st ic =>
        writeValue (foff ic.1) ic.2 ic.1 num_rows offsets masks st) st
          = .error .unknownType := by
  intro cols
  induction cols with
  | nil =>
    intro _ hex
    obtain ⟨c, hc, _⟩ := hex
    cases hc
  | cons c cs ih =>
    intro hall hex s st num_rows masks offsets foff
    rw [show (c :: cs).enumFrom s = (s, c) :: cs.enumFrom (s + 1) from rfl,
      List.foldlM_cons]
    by_cases huns : isFixedLengthDataType (removeNullable c.type) = false ∧
        isVariableLengthDataType (removeNullable c.type) = false
    · dsimp only
      rw [writeValue_unsupported (foff s) c s num_rows offsets masks st
        huns.1 huns.2]
      rfl
    · have hwt : colWellTyped c = true :=
        (hall c (List.mem_cons_self c cs)).resolve_right huns
      obtain ⟨st', _, hw, _, _, _⟩ :=
        writeValue_columnLengths_agree c hwt (foff s) s num_rows offsets masks st
      dsimp only
      rw [hw]
      show (cs.enumFrom (s + 1)).foldlM (fun st ic =>
        writeValue (foff ic.1) ic.2 ic.1 num_rows offsets masks st) st'
          = .error .unknownType
      refine ih (fun d hd => hall d (List.mem_cons_of_mem c hd)) ?_
        (s + 1) st' num_rows masks offsets foff
      obtain ⟨d, hd, hdu⟩ := hex
      rcases List.mem_cons.mp hd with hdc | hdcs
      · subst hdc
        exact absurd hdu huns
      · exact ⟨d, hdcs, hdu⟩

/-! ## Claim C7 -/

/-- C7: conversion fails with the empty-schema error exactly when the block
has zero columns; and when some column's type (after stripping Nullable) is
classified as neither fixed- nor variable-length (the other columns being
well-typed), conversion fails with the unknown-type error.  The conversion is
a total function into `Except`, so a failure returns only the error — never a
partially constructed result. -/
theorem C7_error_conditions :
    (∀ (block : Block) (masks : Option (List Nat)),
      convertCHColumnToSparkRow block masks = .error .emptySchema ↔
        block.cols.length = 0) ∧
    (∀ (block : Block) (masks : Option (List Nat)),
      block.cols.length ≠ 0 →
      (∀ c ∈ block.cols, colWellTyped c = true ∨
        (isFixedLengthDataType (removeNullable c.type) = false ∧
         isVariableLengthDataType (removeNullable c.type) = false)) →
      (∃ c ∈ block.cols, isFixedLengthDataType (removeNullable c.type) = false ∧
         isVariableLengthDataType (removeNullable c.type) = false) →
      convertCHColumnToSparkRow block masks = .error .unknownType) := by
  constructor
  · intro block masks
    constructor
    · intro h
      by_contra hnz
      dsimp only [convertCHColumnToSparkRow] at h
      rw [if_neg hnz] at h
      cases hc : SparkRowInfo.construct block.cols block.cols.length block.rows
          masks with
      | error e =>
        rw [hc] at h
        have h' : (.error e : Except CError SparkRowInfo)
            = .error .emptySchema := h
        obtain rfl := Except.error.inj h'
        exact construct_err _ _ _ _ _ hc rfl
      | ok info0 =>
        rw [hc] at h
        have h' : (match block.cols.enum.foldlM
            (fun st ic => writeValue (info0.getFieldOffset ic.1) ic.2 ic.1
              info0.num_rows info0.offsets masks st)
            (⟨List.replicate info0.total_bytes.toNat 0, info0.buffer_cursor⟩
              : WState) with
          | .error e => (.error e : Except CError SparkRowInfo)
          | .ok st => .ok { info0 with buffer := st.buf, buffer_cursor := st.cursors })
            = .error .emptySchema := h
        cases hf : block.cols.enum.foldlM
            (fun st ic => writeValue (info0.getFieldOffset ic.1) ic.2 ic.1
              info0.num_rows info0.offsets masks st)
            (⟨List.replicate info0.total_bytes.toNat 0, info0.buffer_cursor⟩
              : WState) with
        | error e =>
          rw [hf] at h'
          have h'' : (.error e : Except CError SparkRowInfo)
              = .error .emptySchema := h'
          obtain rfl := Except.error.inj h''
          exact foldlME_err _
            (fun a b e2 h2 => writeValue_err _ _ _ _ _ _ _ _ h2)
            block.cols.enum _ _ hf rfl
        | ok st =>
          rw [hf] at h'
          exact Except.noConfusion h'
    · intro hz
      dsimp only [convertCHColumnToSparkRow]
      rw [if_pos hz]
  · intro block masks hnz hall hex
    obtain ⟨lengthsD, hgD⟩ := colsFold_ok block.cols hall
      (numRowsOf masks block.rows) masks (List.replicate (numRowsOf masks block.rows) (calculatedFixeSizePerRow block.cols.length))
    have hconstruct : SparkRowInfo.construct block.cols block.cols.length
        block.rows masks = .ok { types := block.cols.map (fun c => c.type),
                                 num_rows := (numRowsOf masks block.rows),
                                 num_cols := block.cols.length,
                                 null_bitset_width_in_bytes := calculateBitSetWidthInBytes block.cols.length,
                                 total_bytes := initTotalBytes (numRowsOf masks block.rows) lengthsD,
                                 offsets := initOffsets (numRowsOf masks block.rows) lengthsD,
                                 lengths := lengthsD,
                                 buffer_cursor := List.replicate (numRowsOf masks block.rows) (calculatedFixeSizePerRow block.cols.length),
                                 buffer := ([] : List Nat) } := by
      dsimp only [SparkRowInfo.construct]
      rw [hgD]
    dsimp only [convertCHColumnToSparkRow]
    rw [if_neg hnz, hconstruct]
    show (match block.cols.enum.foldlM
        (fun st (ic : Nat × SparkColumn) => writeValue
          (calculateBitSetWidthInBytes block.cols.length + 8 * ic.1) ic.2 ic.1
          (numRowsOf masks block.rows) (initOffsets (numRowsOf masks block.rows) lengthsD) masks st)
        (⟨List.replicate (initTotalBytes (numRowsOf masks block.rows) lengthsD).toNat 0, (List.replicate (numRowsOf masks block.rows) (calculatedFixeSizePerRow block.cols.length))⟩
          : WState) with
      | .error e => (.error e : Except CError SparkRowInfo)
      | .ok st => .ok { types := block.cols.map (fun c => c.type),
                        num_rows := (numRowsOf masks block.rows),
                        num_cols := block.cols.length,
                        null_bitset_width_in_bytes := calculateBitSetWidthInBytes block.cols.length,
                        total_bytes := initTotalBytes (numRowsOf masks block.rows) lengthsD,
                        offsets := initOffsets (numRowsOf masks block.rows) lengthsD,
                        lengths := lengthsD,
                        buffer_cursor := st.cursors,
                        buffer := st.buf } :
      Except CError SparkRowInfo) = .error .unknownType
    rw [show block.cols.enum = block.cols.enumFrom 0 from rfl,
      colsW_unsupported block.cols hall hex 0
        ⟨List.replicate (initTotalBytes (numRowsOf masks block.rows) lengthsD).toNat 0, (List.replicate (numRowsOf masks block.rows) (calculatedFixeSizePerRow block.cols.length))⟩
        (numRowsOf masks block.rows) masks (initOffsets (numRowsOf masks block.rows) lengthsD)
        (fun idx => calculateBitSetWidthInBytes block.cols.length + 8 * idx)]

theorem C7_error_conditions_witness :
    (convertCHColumnToSparkRow ⟨[], 3⟩ none = .error .emptySchema) ∧
    (convertCHColumnToSparkRow
        ⟨[⟨.int64, [.int 1]⟩, ⟨.unsupported, [.null]⟩], 1⟩ none
      = .error .unknownType) :=
  ⟨(C7_error_conditions.1 ⟨[], 3⟩ none).mpr rfl,
   C7_error_conditions.2 ⟨[⟨.int64, [.int 1]⟩, ⟨.unsupported, [.null]⟩], 1⟩ none
     (by decide)
     (by
       intro c hc
       rcases List.mem_cons.mp hc with h | h
       · subst h
         exact Or.inl rfl
       · rcases List.mem_cons.mp h with h2 | h2
         · subst h2
           exact Or.inr ⟨rfl, rfl⟩
         · cases h2)
     ⟨⟨.unsupported, [.null]⟩,
       List.mem_cons_of_mem _ (List.mem_cons_self _ _), rfl, rfl⟩⟩

end SparkRow

